import Mathlib

/-!
# go-utchain: RPC backend adapters and the light-client retrieval core

Part I holds the definitions (an embedding of `les/api_backend.go`,
`tst/api_backend.go`, of the components `les/backend.go` wires together, of the
service methods of `tst/backend.go`, of `mobile/geth.go`, of
`vendor/bazil.org/fuse/protocol.go` and of `diffTries` in
`light/trie_test.go`), Part II the theorems about them.

Conventions of the embedding:
* a Go pointer that may be nil is an `Option`;
* a Go `(value, error)` result is a pair whose second component is `Option Err`;
* a method that writes to its receiver returns the new receiver state, a
  method that only reads is a function of the receiver state;
* packages that lie outside the excerpt are records of types and functions
  (`Types`, `LesDeps`, `TstDeps`); the adapters are written against them.
-/

namespace utchain

/-! ## Part I. Definitions -/

/-- common.Hash, kept as a number. -/
abbrev Hash := Nat

/-- common.Address, kept as a number. -/
abbrev Address := Nat

/-- Go conversion of an integer to the 64-bit `int` type (two's complement wrap). -/
def toInt64 (n : Int) : Int := (n + 2 ^ 63) % 2 ^ 64 - 2 ^ 63

/-- Go conversion of an integer to `uint64`. -/
def toUint64 (n : Int) : Nat := (n % 2 ^ 64).toNat

/-- Data types, constants and free functions of the packages `types`, `state`,
`core`, `vm`, `downloader`, `gasprice`, `rpc` and `math` that both adapters use.
None of these packages is part of the excerpt, so they are parameters. -/
structure Types where
  Ctx : Type
  Err : Type
  Header : Type
  Block : Type
  Transaction : Type
  Receipt : Type
  Log : Type
  StateDB : Type
  Message : Type
  VmConfig : Type
  EVMContext : Type
  EVM : Type
  ChainConfig : Type
  Database : Type
  TypeMux : Type
  AccountManager : Type
  Downloader : Type
  Oracle : Type
  Subscription : Type
  Chan : Type
  /-- rpc.LatestBlockNumber -/
  LatestBlockNumber : Int
  /-- rpc.PendingBlockNumber -/
  PendingBlockNumber : Int
  /-- math.MaxBig256 -/
  MaxBig256 : Int
  /-- (*types.Header).Hash -/
  HeaderHash : Header → Hash
  /-- the Root field of types.Header -/
  HeaderRoot : Header → Hash
  /-- types.NewBlockWithHeader -/
  NewBlockWithHeader : Option Header → Option Block
  /-- (*types.Block).Header -/
  BlockHeader : Option Block → Option Header
  /-- the Logs field of types.Receipt -/
  ReceiptLogs : Receipt → List Log
  /-- (*state.StateDB).SetBalance -/
  SetBalance : StateDB → Address → Int → StateDB
  /-- (*state.StateDB).Error -/
  StateError : StateDB → Option Err
  /-- core.Message.From -/
  MessageFrom : Message → Address
  /-- core.GetBlockNumber -/
  GetBlockNumber : Database → Hash → Nat
  /-- vm.NewEVM -/
  NewEVM : EVMContext → StateDB → ChainConfig → VmConfig → EVM
  /-- (*downloader.Downloader).Cancel -/
  Cancel : Downloader → Downloader
  /-- (*gasprice.Oracle).SuggestPrice -/
  SuggestPrice : Oracle → Ctx → Option Int × Option Err

/-- p2p.Protocol, of which the adapters read only the version. -/
structure Protocol where
  Version : Nat
deriving DecidableEq, Repr

/-- ProtocolManager as the adapters see it: the downloader and the list of
sub-protocols. -/
structure ProtocolManager (T : Types) where
  downloader : T.Downloader
  SubProtocols : List Protocol

/-- core.ChainIndexer as seen through its `Sections()` query: the number of
stored sections, the last indexed block number and the last section head. -/
structure ChainIndexer where
  Sections : Nat × Nat × Hash
deriving DecidableEq, Repr

/-- One `go session.Multiplex(batch, wait, mux)` statement of `ServiceFilter`:
the arguments the new goroutine calls `Multiplex` on the session with. -/
structure MultiplexCall (T : Types) where
  batch : Int
  wait : Int
  mux : T.Chan

/-! ### The light-client adapter (`les/api_backend.go`) -/

/-- The packages `light` (LightChain, TxPool, ODR helpers) and `core` as far as
`LesApiBackend` calls into them. -/
structure LesDeps (T : Types) where
  LightChain : Type
  TxPool : Type
  Odr : Type
  CurrentHeader : LightChain → Option T.Header
  GetHeaderByNumberOdr : LightChain → T.Ctx → Nat → Option T.Header × Option T.Err
  GetBlockByHash : LightChain → T.Ctx → Hash → Option T.Block × Option T.Err
  GetTdByHash : LightChain → Hash → Option Int
  SetHead : LightChain → Nat → LightChain
  SubscribeChainEvent : LightChain → T.Chan → T.Subscription × LightChain
  SubscribeChainHeadEvent : LightChain → T.Chan → T.Subscription × LightChain
  SubscribeChainSideEvent : LightChain → T.Chan → T.Subscription × LightChain
  SubscribeLogsEvent : LightChain → T.Chan → T.Subscription × LightChain
  SubscribeRemovedLogsEvent : LightChain → T.Chan → T.Subscription × LightChain
  Add : TxPool → T.Ctx → T.Transaction → Option T.Err × TxPool
  RemoveTx : TxPool → Hash → TxPool
  GetTransactions : TxPool → List T.Transaction × Option T.Err
  GetTransaction : TxPool → Hash → Option T.Transaction
  GetNonce : TxPool → T.Ctx → Address → Nat × Option T.Err
  Stats : TxPool → Int
  Content : TxPool → List (Address × List T.Transaction) × List (Address × List T.Transaction)
  SubscribeTxPreEvent : TxPool → T.Chan → T.Subscription × TxPool
  /-- light.NewState -/
  NewState : T.Ctx → T.Header → Odr → T.StateDB
  /-- light.GetBlockReceipts -/
  GetBlockReceipts : T.Ctx → Odr → Hash → Nat → List T.Receipt × Option T.Err
  /-- light.GetBlockLogs -/
  GetBlockLogs : T.Ctx → Odr → Hash → Nat → List (List T.Log) × Option T.Err
  /-- core.NewEVMContext applied to a light chain (the author argument is nil) -/
  NewEVMContext : T.Message → Option T.Header → LightChain → T.EVMContext

/-- The fields of `LightUTChain` that `LesApiBackend` reads or writes. -/
structure LightUTChain (T : Types) (D : LesDeps T) where
  odr : D.Odr
  chainConfig : T.ChainConfig
  txPool : D.TxPool
  blockchain : D.LightChain
  protocolManager : ProtocolManager T
  chainDb : T.Database
  bloomIndexer : Option ChainIndexer
  eventMux : T.TypeMux
  accountManager : T.AccountManager
  bloomRequests : T.Chan

/-- The adapter itself: a handle on the light node and on the gas-price oracle. -/
structure LesApiBackend (T : Types) (D : LesDeps T) where
  tst : LightUTChain T D
  gpo : T.Oracle

namespace LightUTChain

variable {T : Types} {D : LesDeps T}

/-- `BlockChain()` accessor. -/
def BlockChain (s : LightUTChain T D) : D.LightChain := s.blockchain

/-- `LesVersion()`: `int(s.protocolManager.SubProtocols[0].Version)`; indexing an
empty list panics, which is `none` here. -/
def LesVersion (s : LightUTChain T D) : Option Int :=
  match s.protocolManager.SubProtocols with
  | [] => none
  | p :: _ => some (toInt64 (p.Version : Int))

/-- `Downloader()` accessor. -/
def Downloader (s : LightUTChain T D) : T.Downloader := s.protocolManager.downloader

end LightUTChain

namespace LesApiBackend

variable {T : Types} {D : LesDeps T}

def ChainConfig (b : LesApiBackend T D) : T.ChainConfig := b.tst.chainConfig

def CurrentBlock (b : LesApiBackend T D) : Option T.Block :=
  T.NewBlockWithHeader (D.CurrentHeader b.tst.BlockChain)

def SetHead (b : LesApiBackend T D) (number : Nat) : LesApiBackend T D :=
  let pm := { b.tst.protocolManager with downloader := T.Cancel b.tst.protocolManager.downloader }
  { b with tst := { b.tst with protocolManager := pm, blockchain := D.SetHead b.tst.blockchain number } }

def HeaderByNumber (b : LesApiBackend T D) (ctx : T.Ctx) (blockNr : Int) :
    Option T.Header × Option T.Err :=
  if blockNr = T.LatestBlockNumber ∨ blockNr = T.PendingBlockNumber then
    (D.CurrentHeader b.tst.blockchain, none)
  else
    D.GetHeaderByNumberOdr b.tst.blockchain ctx (toUint64 blockNr)

def GetBlock (b : LesApiBackend T D) (ctx : T.Ctx) (blockHash : Hash) :
    Option T.Block × Option T.Err :=
  D.GetBlockByHash b.tst.blockchain ctx blockHash

def BlockByNumber (b : LesApiBackend T D) (ctx : T.Ctx) (blockNr : Int) :
    Option T.Block × Option T.Err :=
  match b.HeaderByNumber ctx blockNr with
  | (some header, none) => b.GetBlock ctx (T.HeaderHash header)
  | (_, err) => (none, err)

def StateAndHeaderByNumber (b : LesApiBackend T D) (ctx : T.Ctx) (blockNr : Int) :
    Option T.StateDB × Option T.Header × Option T.Err :=
  match b.HeaderByNumber ctx blockNr with
  | (some header, none) => (some (D.NewState ctx header b.tst.odr), some header, none)
  | (_, err) => (none, none, err)

def GetReceipts (b : LesApiBackend T D) (ctx : T.Ctx) (blockHash : Hash) :
    List T.Receipt × Option T.Err :=
  D.GetBlockReceipts ctx b.tst.odr blockHash (T.GetBlockNumber b.tst.chainDb blockHash)

def GetLogs (b : LesApiBackend T D) (ctx : T.Ctx) (blockHash : Hash) :
    List (List T.Log) × Option T.Err :=
  D.GetBlockLogs ctx b.tst.odr blockHash (T.GetBlockNumber b.tst.chainDb blockHash)

def GetTd (b : LesApiBackend T D) (blockHash : Hash) : Option Int :=
  D.GetTdByHash b.tst.blockchain blockHash

/-- `GetEVM`: the result triple (EVM, error getter, error) together with the
state database after the call. The error getter is the method value
`state.Error`, read off the state database at the time it is called. -/
def GetEVM (b : LesApiBackend T D) (_ctx : T.Ctx) (msg : T.Message) (state : T.StateDB)
    (header : Option T.Header) (vmCfg : T.VmConfig) :
    (T.EVM × (T.StateDB → Option T.Err) × Option T.Err) × T.StateDB :=
  let state1 := T.SetBalance state (T.MessageFrom msg) T.MaxBig256
  let context := D.NewEVMContext msg header b.tst.blockchain
  ((T.NewEVM context state1 b.tst.chainConfig vmCfg, T.StateError, none), state1)

def SendTx (b : LesApiBackend T D) (ctx : T.Ctx) (signedTx : T.Transaction) :
    Option T.Err × LesApiBackend T D :=
  let r := D.Add b.tst.txPool ctx signedTx
  (r.1, { b with tst := { b.tst with txPool := r.2 } })

def RemoveTx (b : LesApiBackend T D) (txHash : Hash) : LesApiBackend T D :=
  { b with tst := { b.tst with txPool := D.RemoveTx b.tst.txPool txHash } }

def GetPoolTransactions (b : LesApiBackend T D) : List T.Transaction × Option T.Err :=
  D.GetTransactions b.tst.txPool

def GetPoolTransaction (b : LesApiBackend T D) (txHash : Hash) : Option T.Transaction :=
  D.GetTransaction b.tst.txPool txHash

def GetPoolNonce (b : LesApiBackend T D) (ctx : T.Ctx) (addr : Address) : Nat × Option T.Err :=
  D.GetNonce b.tst.txPool ctx addr

def Stats (b : LesApiBackend T D) : Int × Int :=
  (D.Stats b.tst.txPool, 0)

def TxPoolContent (b : LesApiBackend T D) :
    List (Address × List T.Transaction) × List (Address × List T.Transaction) :=
  D.Content b.tst.txPool

def SubscribeTxPreEvent (b : LesApiBackend T D) (ch : T.Chan) :
    T.Subscription × LesApiBackend T D :=
  let r := D.SubscribeTxPreEvent b.tst.txPool ch
  (r.1, { b with tst := { b.tst with txPool := r.2 } })

def SubscribeChainEvent (b : LesApiBackend T D) (ch : T.Chan) :
    T.Subscription × LesApiBackend T D :=
  let r := D.SubscribeChainEvent b.tst.blockchain ch
  (r.1, { b with tst := { b.tst with blockchain := r.2 } })

def SubscribeChainHeadEvent (b : LesApiBackend T D) (ch : T.Chan) :
    T.Subscription × LesApiBackend T D :=
  let r := D.SubscribeChainHeadEvent b.tst.blockchain ch
  (r.1, { b with tst := { b.tst with blockchain := r.2 } })

def SubscribeChainSideEvent (b : LesApiBackend T D) (ch : T.Chan) :
    T.Subscription × LesApiBackend T D :=
  let r := D.SubscribeChainSideEvent b.tst.blockchain ch
  (r.1, { b with tst := { b.tst with blockchain := r.2 } })

def SubscribeLogsEvent (b : LesApiBackend T D) (ch : T.Chan) :
    T.Subscription × LesApiBackend T D :=
  let r := D.SubscribeLogsEvent b.tst.blockchain ch
  (r.1, { b with tst := { b.tst with blockchain := r.2 } })

def SubscribeRemovedLogsEvent (b : LesApiBackend T D) (ch : T.Chan) :
    T.Subscription × LesApiBackend T D :=
  let r := D.SubscribeRemovedLogsEvent b.tst.blockchain ch
  (r.1, { b with tst := { b.tst with blockchain := r.2 } })

def Downloader (b : LesApiBackend T D) : T.Downloader := b.tst.Downloader

/-- `ProtocolVersion`: `b.tst.LesVersion() + 10000` in 64-bit `int` arithmetic. -/
def ProtocolVersion (b : LesApiBackend T D) : Option Int :=
  b.tst.LesVersion.map (fun v => toInt64 (v + 10000))

def SuggestPrice (b : LesApiBackend T D) (ctx : T.Ctx) : Option Int × Option T.Err :=
  T.SuggestPrice b.gpo ctx

def ChainDb (b : LesApiBackend T D) : T.Database := b.tst.chainDb

def EventMux (b : LesApiBackend T D) : T.TypeMux := b.tst.eventMux

def AccountManager (b : LesApiBackend T D) : T.AccountManager := b.tst.accountManager

/-- `BloomStatus`: the result pair together with the backend after the call.
`BloomTrieFrequency` is the constant `light.BloomTrieFrequency`, which is
declared outside the excerpt. -/
def BloomStatus (BloomTrieFrequency : Nat) (b : LesApiBackend T D) :
    (Nat × Nat) × LesApiBackend T D :=
  match b.tst.bloomIndexer with
  | none => ((0, 0), b)
  | some ix =>
    let sections := ix.Sections.1
    ((BloomTrieFrequency, sections), b)

/-- `ServiceFilter`: the loop starts one goroutine per count below
`bloomFilterThreads`; the result lists the `Multiplex` calls they are started
with on the session. The three constants are declared outside the excerpt. -/
def ServiceFilter (b : LesApiBackend T D)
    (bloomFilterThreads bloomRetrievalBatch bloomRetrievalWait : Int) (_ctx : T.Ctx) :
    List (MultiplexCall T) :=
  List.replicate bloomFilterThreads.toNat
    ⟨bloomRetrievalBatch, bloomRetrievalWait, b.tst.bloomRequests⟩

end LesApiBackend

/-! ### The full-node adapter (`tst/api_backend.go`) -/

/-- The packages `core` (BlockChain, TxPool) and `miner` as far as
`TstApiBackend` calls into them. -/
structure TstDeps (T : Types) where
  BlockChain : Type
  TxPool : Type
  Miner : Type
  CurrentBlock : BlockChain → Option T.Block
  GetHeaderByNumber : BlockChain → Nat → Option T.Header
  GetBlockByNumber : BlockChain → Nat → Option T.Block
  GetBlockByHash : BlockChain → Hash → Option T.Block
  GetTdByHash : BlockChain → Hash → Option Int
  StateAt : BlockChain → Hash → Option T.StateDB × Option T.Err
  SetHead : BlockChain → Nat → BlockChain
  SubscribeChainEvent : BlockChain → T.Chan → T.Subscription × BlockChain
  SubscribeChainHeadEvent : BlockChain → T.Chan → T.Subscription × BlockChain
  SubscribeChainSideEvent : BlockChain → T.Chan → T.Subscription × BlockChain
  SubscribeLogsEvent : BlockChain → T.Chan → T.Subscription × BlockChain
  SubscribeRemovedLogsEvent : BlockChain → T.Chan → T.Subscription × BlockChain
  /-- (*miner.Miner).PendingBlock -/
  PendingBlock : Miner → Option T.Block
  /-- (*miner.Miner).Pending -/
  Pending : Miner → Option T.Block × Option T.StateDB
  AddLocal : TxPool → T.Transaction → Option T.Err × TxPool
  /-- (*core.TxPool).Pending: the per-account batches, in the order the map is
  ranged over. -/
  PendingTxs : TxPool → List (Address × List T.Transaction) × Option T.Err
  Get : TxPool → Hash → Option T.Transaction
  /-- `pool.State().GetNonce(addr)` -/
  StateGetNonce : TxPool → Address → Nat
  Stats : TxPool → Int × Int
  Content : TxPool → List (Address × List T.Transaction) × List (Address × List T.Transaction)
  SubscribeTxPreEvent : TxPool → T.Chan → T.Subscription × TxPool
  /-- core.GetBlockReceipts; a nil slice is `none` -/
  GetBlockReceipts : T.Database → Hash → Nat → Option (List T.Receipt)
  /-- core.NewEVMContext applied to a full chain (the author argument is nil) -/
  NewEVMContext : T.Message → Option T.Header → BlockChain → T.EVMContext

/-- The fields of the full node `UTChain` that `TstApiBackend` reads or writes. -/
structure UTChain (T : Types) (D : TstDeps T) where
  chainConfig : T.ChainConfig
  txPool : D.TxPool
  blockchain : D.BlockChain
  protocolManager : ProtocolManager T
  chainDb : T.Database
  eventMux : T.TypeMux
  accountManager : T.AccountManager
  bloomIndexer : ChainIndexer
  miner : D.Miner
  bloomRequests : T.Chan

/-- TstApiBackend implements ethapi.Backend for full nodes. -/
structure TstApiBackend (T : Types) (D : TstDeps T) where
  tst : UTChain T D
  gpo : T.Oracle

namespace UTChain

variable {T : Types} {D : TstDeps T}

def AccountManager (s : UTChain T D) : T.AccountManager := s.accountManager

def BlockChain (s : UTChain T D) : D.BlockChain := s.blockchain

def TxPool (s : UTChain T D) : D.TxPool := s.txPool

def EventMux (s : UTChain T D) : T.TypeMux := s.eventMux

def ChainDb (s : UTChain T D) : T.Database := s.chainDb

/-- `TstVersion()`: `int(s.protocolManager.SubProtocols[0].Version)`; indexing an
empty list panics, which is `none` here. -/
def TstVersion (s : UTChain T D) : Option Int :=
  match s.protocolManager.SubProtocols with
  | [] => none
  | p :: _ => some (toInt64 (p.Version : Int))

def Downloader (s : UTChain T D) : T.Downloader := s.protocolManager.downloader

end UTChain

namespace TstApiBackend

variable {T : Types} {D : TstDeps T}

def ChainConfig (b : TstApiBackend T D) : T.ChainConfig := b.tst.chainConfig

def CurrentBlock (b : TstApiBackend T D) : Option T.Block :=
  D.CurrentBlock b.tst.blockchain

def SetHead (b : TstApiBackend T D) (number : Nat) : TstApiBackend T D :=
  let pm := { b.tst.protocolManager with downloader := T.Cancel b.tst.protocolManager.downloader }
  { b with tst := { b.tst with protocolManager := pm, blockchain := D.SetHead b.tst.blockchain number } }

def HeaderByNumber (b : TstApiBackend T D) (_ctx : T.Ctx) (blockNr : Int) :
    Option T.Header × Option T.Err :=
  if blockNr = T.PendingBlockNumber then
    let block := D.PendingBlock b.tst.miner
    (T.BlockHeader block, none)
  else if blockNr = T.LatestBlockNumber then
    (T.BlockHeader (D.CurrentBlock b.tst.blockchain), none)
  else
    (D.GetHeaderByNumber b.tst.blockchain (toUint64 blockNr), none)

def BlockByNumber (b : TstApiBackend T D) (_ctx : T.Ctx) (blockNr : Int) :
    Option T.Block × Option T.Err :=
  if blockNr = T.PendingBlockNumber then
    let block := D.PendingBlock b.tst.miner
    (block, none)
  else if blockNr = T.LatestBlockNumber then
    (D.CurrentBlock b.tst.blockchain, none)
  else
    (D.GetBlockByNumber b.tst.blockchain (toUint64 blockNr), none)

def StateAndHeaderByNumber (b : TstApiBackend T D) (ctx : T.Ctx) (blockNr : Int) :
    Option T.StateDB × Option T.Header × Option T.Err :=
  if blockNr = T.PendingBlockNumber then
    let r := D.Pending b.tst.miner
    (r.2, T.BlockHeader r.1, none)
  else
    match b.HeaderByNumber ctx blockNr with
    | (some header, none) =>
      let r := D.StateAt b.tst.BlockChain (T.HeaderRoot header)
      (r.1, some header, r.2)
    | (_, err) => (none, none, err)

def GetBlock (b : TstApiBackend T D) (_ctx : T.Ctx) (blockHash : Hash) :
    Option T.Block × Option T.Err :=
  (D.GetBlockByHash b.tst.blockchain blockHash, none)

def GetReceipts (b : TstApiBackend T D) (_ctx : T.Ctx) (blockHash : Hash) :
    Option (List T.Receipt) × Option T.Err :=
  (D.GetBlockReceipts b.tst.chainDb blockHash (T.GetBlockNumber b.tst.chainDb blockHash), none)

def GetLogs (b : TstApiBackend T D) (_ctx : T.Ctx) (blockHash : Hash) :
    Option (List (List T.Log)) × Option T.Err :=
  match D.GetBlockReceipts b.tst.chainDb blockHash (T.GetBlockNumber b.tst.chainDb blockHash) with
  | none => (none, none)
  | some receipts => (some (receipts.map T.ReceiptLogs), none)

def GetTd (b : TstApiBackend T D) (blockHash : Hash) : Option Int :=
  D.GetTdByHash b.tst.blockchain blockHash

/-- `GetEVM`: the result triple (EVM, error getter, error) together with the
state database after the call. The error getter is the constant function
returning nil. -/
def GetEVM (b : TstApiBackend T D) (_ctx : T.Ctx) (msg : T.Message) (state : T.StateDB)
    (header : Option T.Header) (vmCfg : T.VmConfig) :
    (T.EVM × (T.StateDB → Option T.Err) × Option T.Err) × T.StateDB :=
  let state1 := T.SetBalance state (T.MessageFrom msg) T.MaxBig256
  let vmError : T.StateDB → Option T.Err := fun _ => none
  let context := D.NewEVMContext msg header b.tst.BlockChain
  ((T.NewEVM context state1 b.tst.chainConfig vmCfg, vmError, none), state1)

def SubscribeRemovedLogsEvent (b : TstApiBackend T D) (ch : T.Chan) :
    T.Subscription × TstApiBackend T D :=
  let r := D.SubscribeRemovedLogsEvent b.tst.BlockChain ch
  (r.1, { b with tst := { b.tst with blockchain := r.2 } })

def SubscribeChainEvent (b : TstApiBackend T D) (ch : T.Chan) :
    T.Subscription × TstApiBackend T D :=
  let r := D.SubscribeChainEvent b.tst.BlockChain ch
  (r.1, { b with tst := { b.tst with blockchain := r.2 } })

def SubscribeChainHeadEvent (b : TstApiBackend T D) (ch : T.Chan) :
    T.Subscription × TstApiBackend T D :=
  let r := D.SubscribeChainHeadEvent b.tst.BlockChain ch
  (r.1, { b with tst := { b.tst with blockchain := r.2 } })

def SubscribeChainSideEvent (b : TstApiBackend T D) (ch : T.Chan) :
    T.Subscription × TstApiBackend T D :=
  let r := D.SubscribeChainSideEvent b.tst.BlockChain ch
  (r.1, { b with tst := { b.tst with blockchain := r.2 } })

def SubscribeLogsEvent (b : TstApiBackend T D) (ch : T.Chan) :
    T.Subscription × TstApiBackend T D :=
  let r := D.SubscribeLogsEvent b.tst.BlockChain ch
  (r.1, { b with tst := { b.tst with blockchain := r.2 } })

def SendTx (b : TstApiBackend T D) (_ctx : T.Ctx) (signedTx : T.Transaction) :
    Option T.Err × TstApiBackend T D :=
  let r := D.AddLocal b.tst.txPool signedTx
  (r.1, { b with tst := { b.tst with txPool := r.2 } })

def GetPoolTransactions (b : TstApiBackend T D) : List T.Transaction × Option T.Err :=
  match D.PendingTxs b.tst.txPool with
  | (_, some err) => ([], some err)
  | (pending, none) => (pending.foldl (fun txs batch => txs ++ batch.2) [], none)

def GetPoolTransaction (b : TstApiBackend T D) (hash : Hash) : Option T.Transaction :=
  D.Get b.tst.txPool hash

def GetPoolNonce (b : TstApiBackend T D) (_ctx : T.Ctx) (addr : Address) : Nat × Option T.Err :=
  (D.StateGetNonce b.tst.txPool addr, none)

def Stats (b : TstApiBackend T D) : Int × Int :=
  D.Stats b.tst.txPool

def TxPoolContent (b : TstApiBackend T D) :
    List (Address × List T.Transaction) × List (Address × List T.Transaction) :=
  D.Content b.tst.TxPool

def SubscribeTxPreEvent (b : TstApiBackend T D) (ch : T.Chan) :
    T.Subscription × TstApiBackend T D :=
  let r := D.SubscribeTxPreEvent b.tst.TxPool ch
  (r.1, { b with tst := { b.tst with txPool := r.2 } })

def Downloader (b : TstApiBackend T D) : T.Downloader := b.tst.Downloader

def ProtocolVersion (b : TstApiBackend T D) : Option Int := b.tst.TstVersion

def SuggestPrice (b : TstApiBackend T D) (ctx : T.Ctx) : Option Int × Option T.Err :=
  T.SuggestPrice b.gpo ctx

def ChainDb (b : TstApiBackend T D) : T.Database := b.tst.ChainDb

def EventMux (b : TstApiBackend T D) : T.TypeMux := b.tst.EventMux

def AccountManager (b : TstApiBackend T D) : T.AccountManager := b.tst.AccountManager

/-- `BloomStatus`; `BloomBitsBlocks` is the constant `params.BloomBitsBlocks`,
which is declared outside the excerpt. -/
def BloomStatus (BloomBitsBlocks : Nat) (b : TstApiBackend T D) : Nat × Nat :=
  let sections := b.tst.bloomIndexer.Sections.1
  (BloomBitsBlocks, sections)

/-- `ServiceFilter`: the loop starts one goroutine per count below
`bloomFilterThreads`; the result lists the `Multiplex` calls they are started
with on the session. The three constants are declared outside the excerpt. -/
def ServiceFilter (b : TstApiBackend T D)
    (bloomFilterThreads bloomRetrievalBatch bloomRetrievalWait : Int) (_ctx : T.Ctx) :
    List (MultiplexCall T) :=
  List.replicate bloomFilterThreads.toNat
    ⟨bloomRetrievalBatch, bloomRetrievalWait, b.tst.bloomRequests⟩

end TstApiBackend

/-! ### A concrete instance of the outside packages

Every opaque type is a number or a list of numbers, so that the adapters can be
evaluated. A state database is the list of balance writes made to it. -/

/-- Sample data types and helper functions. -/
@[reducible] def sampleTypes : Types where
  Ctx := Unit
  Err := Nat
  Header := Nat
  Block := Nat
  Transaction := Nat
  Receipt := Nat
  Log := Nat
  StateDB := List (Address × Int)
  Message := Address
  VmConfig := Unit
  EVMContext := Address × Option Nat
  EVM := Address × List (Address × Int)
  ChainConfig := Unit
  Database := Unit
  TypeMux := Unit
  AccountManager := Unit
  Downloader := Bool
  Oracle := Int
  Subscription := Nat × Nat
  Chan := Nat
  LatestBlockNumber := -1
  PendingBlockNumber := -2
  MaxBig256 := 2 ^ 256 - 1
  HeaderHash := fun h => h + 1000
  HeaderRoot := fun h => h + 2000
  NewBlockWithHeader := fun h => h
  BlockHeader := fun b => b
  ReceiptLogs := fun r => [r]
  SetBalance := fun st a v => (a, v) :: st
  StateError := fun _ => none
  MessageFrom := fun m => m
  GetBlockNumber := fun _ h => h
  NewEVM := fun c st _ _ => (c.1, st)
  Cancel := fun _ => false
  SuggestPrice := fun o _ => (some o, none)

/-- Sample light-client packages: a chain is its head number together with its
subscriber channels, a pool is its list of transactions. -/
@[reducible] def sampleLesDeps : LesDeps sampleTypes where
  LightChain := Nat × List Nat
  TxPool := List Nat
  Odr := Unit
  CurrentHeader := fun c => some c.1
  GetHeaderByNumberOdr := fun c _ n => if n ≤ c.1 then (some n, none) else (none, some 404)
  GetBlockByHash := fun _ _ h => (some h, none)
  GetTdByHash := fun _ h => some (h : Int)
  SetHead := fun c n => (n, c.2)
  SubscribeChainEvent := fun c ch => ((0, ch), (c.1, ch :: c.2))
  SubscribeChainHeadEvent := fun c ch => ((1, ch), (c.1, ch :: c.2))
  SubscribeChainSideEvent := fun c ch => ((2, ch), (c.1, ch :: c.2))
  SubscribeLogsEvent := fun c ch => ((3, ch), (c.1, ch :: c.2))
  SubscribeRemovedLogsEvent := fun c ch => ((4, ch), (c.1, ch :: c.2))
  Add := fun p _ tx => (none, tx :: p)
  RemoveTx := fun p h => p.filter (fun tx => tx != h)
  GetTransactions := fun p => (p, none)
  GetTransaction := fun p h => p.find? (fun tx => tx == h)
  GetNonce := fun p _ _ => (p.length, none)
  Stats := fun p => (p.length : Int)
  Content := fun p => ([(0, p)], [])
  SubscribeTxPreEvent := fun p ch => ((5, ch), p)
  NewState := fun _ _ _ => []
  GetBlockReceipts := fun _ _ h _ => ([h], none)
  GetBlockLogs := fun _ _ h _ => ([[h]], none)
  NewEVMContext := fun m h _ => (m, h)

/-- Sample full-node packages, of the same shape. -/
@[reducible] def sampleTstDeps : TstDeps sampleTypes where
  BlockChain := Nat × List Nat
  TxPool := List Nat
  Miner := Nat
  CurrentBlock := fun c => some c.1
  GetHeaderByNumber := fun c n => if n ≤ c.1 then some n else none
  GetBlockByNumber := fun c n => if n ≤ c.1 then some n else none
  GetBlockByHash := fun _ h => some h
  GetTdByHash := fun _ h => some (h : Int)
  StateAt := fun _ _ => (some [], none)
  SetHead := fun c n => (n, c.2)
  SubscribeChainEvent := fun c ch => ((0, ch), (c.1, ch :: c.2))
  SubscribeChainHeadEvent := fun c ch => ((1, ch), (c.1, ch :: c.2))
  SubscribeChainSideEvent := fun c ch => ((2, ch), (c.1, ch :: c.2))
  SubscribeLogsEvent := fun c ch => ((3, ch), (c.1, ch :: c.2))
  SubscribeRemovedLogsEvent := fun c ch => ((4, ch), (c.1, ch :: c.2))
  PendingBlock := fun m => some m
  Pending := fun m => (some m, some [])
  AddLocal := fun p tx => (none, tx :: p)
  PendingTxs := fun p => ([(0, p)], none)
  Get := fun p h => p.find? (fun tx => tx == h)
  StateGetNonce := fun p _ => p.length
  Stats := fun p => ((p.length : Int), 0)
  Content := fun p => ([(0, p)], [])
  SubscribeTxPreEvent := fun p ch => ((5, ch), p)
  GetBlockReceipts := fun _ h _ => some [h]
  NewEVMContext := fun m h _ => (m, h)

/-- A light node speaking protocol version 2, with three stored bloom sections. -/
def sampleLesBackend : LesApiBackend sampleTypes sampleLesDeps where
  tst :=
    { odr := ()
      chainConfig := ()
      txPool := [7]
      blockchain := (100, [])
      protocolManager := { downloader := true, SubProtocols := [⟨2⟩, ⟨1⟩] }
      chainDb := ()
      bloomIndexer := some ⟨(3, 12287, 55)⟩
      eventMux := ()
      accountManager := ()
      bloomRequests := 9 }
  gpo := 18

/-- A full node speaking protocol version 63. -/
def sampleTstBackend : TstApiBackend sampleTypes sampleTstDeps where
  tst :=
    { chainConfig := ()
      txPool := [7]
      blockchain := (100, [])
      protocolManager := { downloader := true, SubProtocols := [⟨63⟩, ⟨62⟩] }
      chainDb := ()
      eventMux := ()
      accountManager := ()
      bloomIndexer := ⟨(3, 12287, 55)⟩
      miner := 101
      bloomRequests := 9 }
  gpo := 18

/-! ### The retrieval core wired together by `les.New`

`les/backend.go` only constructs the peer set, the request distributor, the
retrieve manager and the chain indexers (`newPeerSet`, `newRequestDistributor`,
`newRetrieveManager`, `NewChtIndexer`, ...); the files that implement them are
not part of the excerpt. The definitions below follow the specification of
these components, sections 3 to 5 and 8. -/

/-- Modelled from the spec: the Peer record of section 3 (`les/peer.go` is
missing): identity, protocol version, advertised head (hash and total
difficulty), declared service capacity and running request count. -/
structure Peer where
  id : Nat
  version : Nat
  headHash : Hash
  td : Nat
  capacity : Nat
  inFlight : Nat
deriving DecidableEq, Repr

/-- Modelled from the spec: the two failures of the PeerSet contract of section
4.1 (`les/peer.go` is missing). -/
inductive PeerSetError where
  | AlreadyRegistered
  | NotFound
deriving DecidableEq, Repr

/-- Modelled from the spec: the PeerSet of sections 2 and 4.1 (`newPeerSet` and
the type it returns are missing): the currently connected peers, in order of
registration. -/
structure PeerSet where
  peers : List Peer
deriving DecidableEq, Repr

namespace PeerSet

/-- Modelled from the spec: whether a peer id exists in the set (`les/peer.go`
is missing). -/
def contains (ps : PeerSet) (id : Nat) : Bool := ps.peers.any (fun q => q.id == id)

/-- Modelled from the spec: `register(peer)` of section 4.1 (`les/peer.go` is
missing): fails with AlreadyRegistered if the peer id exists, otherwise adds
the peer. The result is the error, if any, and the set after the call. -/
def register (ps : PeerSet) (p : Peer) : Option PeerSetError × PeerSet :=
  if ps.contains p.id then (some .AlreadyRegistered, ps)
  else (none, ⟨ps.peers ++ [p]⟩)

/-- Modelled from the spec: `unregister(id)` of section 4.1 (`les/peer.go` is
missing): fails with NotFound if no peer has the id, otherwise removes it. -/
def unregister (ps : PeerSet) (id : Nat) : Option PeerSetError × PeerSet :=
  if ps.contains id then (none, ⟨ps.peers.filter (fun q => q.id != id)⟩)
  else (some .NotFound, ps)

/-- Modelled from the spec: the scan behind `bestPeer()` (`les/peer.go` is
missing): keeps the peer of highest total difficulty seen so far, the earlier
one on a tie. -/
def bestOf : List Peer → Option Peer
  | [] => none
  | p :: rest =>
    match bestOf rest with
    | none => some p
    | some q => if p.td < q.td then some q else some p

/-- Modelled from the spec: `bestPeer()` of section 4.1 (`les/peer.go` is
missing): the peer with the highest known total difficulty, or none if the set
is empty. -/
def bestPeer (ps : PeerSet) : Option Peer := bestOf ps.peers

/-- Modelled from the spec: request-count bookkeeping of section 3, a dispatch
to peer `id` (`les/distributor.go` is missing). -/
def markBusy (ps : PeerSet) (id : Nat) : PeerSet :=
  ⟨ps.peers.map (fun q => if q.id = id then { q with inFlight := q.inFlight + 1 } else q)⟩

/-- Modelled from the spec: request-count bookkeeping of section 3, a slot of
peer `id` is freed (`les/distributor.go` is missing). -/
def release (ps : PeerSet) (id : Nat) : PeerSet :=
  ⟨ps.peers.map (fun q => if q.id = id then { q with inFlight := q.inFlight - 1 } else q)⟩

end PeerSet

/-- Modelled from the spec: the DistributedRequest of section 3
(`les/distributor.go` is missing): a request identifier standing for the opaque
payload, and the `canPeer` eligibility predicate. The `request` action is
recorded in the send log of the distributor, the `validate` function is an
argument of `retrieve`. -/
structure DistributedRequest where
  id : Nat
  canPeer : Peer → Bool

/-- Modelled from the spec: the handle `distribute` returns (section 4.3,
`les/distributor.go` is missing): the request and the peer chosen for it, as it
was when chosen. -/
structure Handle where
  reqId : Nat
  peer : Peer
deriving DecidableEq, Repr

/-- Modelled from the spec: the errors of `distribute` in the taxonomy of
section 7 (`les/distributor.go` is missing). -/
inductive DistError where
  | NoPeersAvailable
  | Canceled
deriving DecidableEq, Repr

/-- Modelled from the spec: what one non-blocking dispatch attempt of the
distributor yields (section 4.3, `les/distributor.go` is missing): a handle, a
failure, or the need to keep waiting. -/
inductive Attempt where
  | dispatched (h : Handle)
  | failed (e : DistError)
  | blocked
deriving DecidableEq, Repr

/-- Modelled from the spec: the result of the blocking `distribute` (section
4.3, `les/distributor.go` is missing). -/
inductive DistResult where
  | handle (h : Handle)
  | failed (e : DistError)
deriving DecidableEq, Repr

/-- Modelled from the spec: what can happen while a distribution waits (sections
4.1, 4.3 and 5, `les/distributor.go` is missing): a peer registers or
unregisters, a slot of a peer frees, the quit signal closes, or nothing at all
in this tick. -/
inductive Event where
  | register (p : Peer)
  | unregister (id : Nat)
  | slotFreed (id : Nat)
  | quit
  | idle
deriving DecidableEq, Repr

/-- Modelled from the spec: the state of the RequestDistributor of section 4.3
(`newRequestDistributor` and its type are missing): the peer set it selects
from, a logical clock against which deadlines are read, the quit signal, and
the log of `request`actions invoked, as (request id, peer id). -/
structure DistState where
  peers : PeerSet
  now : Nat
  quit : Bool
  sent : List (Nat × Nat)
deriving DecidableEq, Repr

namespace RequestDistributor

/-- Modelled from the spec: spare capacity of a peer (section 4.3,
`les/distributor.go` is missing): fewer requests in flight than declared. -/
def hasSpare (p : Peer) : Bool := decide (p.inFlight < p.capacity)

/-- Modelled from the spec: the tie-break of section 4.3 (`les/distributor.go`
is missing): `a` is preferred to `b` when it has a lower in-flight count, or
the same count and a higher declared capacity. -/
def preferred (a b : Peer) : Bool :=
  decide (a.inFlight < b.inFlight) || (decide (a.inFlight = b.inFlight) && decide (b.capacity < a.capacity))

/-- Modelled from the spec: the scan that applies the tie-break of section 4.3
to a list of candidates (`les/distributor.go` is missing); of two candidates
neither of which is preferred, the earlier one is kept. -/
def pickBest : List Peer → Option Peer
  | [] => none
  | p :: rest =>
    match pickBest rest with
    | none => some p
    | some q => if preferred q p then some q else some p

/-- Modelled from the spec: the candidates for a request (section 4.3,
`les/distributor.go` is missing): registered peers satisfying `canPeer` with
spare capacity. -/
def candidates (ps : PeerSet) (req : DistributedRequest) : List Peer :=
  ps.peers.filter (fun p => req.canPeer p && hasSpare p)

/-- Modelled from the spec: peer selection of section 4.3 (`les/distributor.go`
is missing). -/
def selectPeer (ps : PeerSet) (req : DistributedRequest) : Option Peer :=
  pickBest (candidates ps req)

/-- Modelled from the spec: one attempt of `distribute` (section 4.3 and the
deadline scenario of section 8, `les/distributor.go` is missing). A deadline
that has elapsed fails with NoPeersAvailable before anything else is looked at;
a closed quit signal fails with Canceled; otherwise the selected peer is marked
busy, the `request` action is logged and a handle is returned; with no
candidate the caller has to wait. -/
def tryDistribute (st : DistState) (req : DistributedRequest) (deadline : Nat) :
    Attempt × DistState :=
  if deadline ≤ st.now then (.failed .NoPeersAvailable, st)
  else if st.quit then (.failed .Canceled, st)
  else
    match selectPeer st.peers req with
    | some p =>
      (.dispatched ⟨req.id, p⟩,
        { st with peers := st.peers.markBusy p.id, sent := st.sent ++ [(req.id, p.id)] })
    | none => (.blocked, st)

/-- Modelled from the spec: the effect of one tick of waiting (sections 4.1, 4.3
and 5, `les/distributor.go` is missing): the event is applied and the clock
advances by one. -/
def absorb (st : DistState) (ev : Event) : DistState :=
  let st1 : DistState :=
    match ev with
    | .register p => { st with peers := (st.peers.register p).2 }
    | .unregister id => { st with peers := (st.peers.unregister id).2 }
    | .slotFreed id => { st with peers := st.peers.release id }
    | .quit => { st with quit := true }
    | .idle => st
  { st1 with now := st1.now + 1 }

/-- Modelled from the spec: the waiting loop of `distribute` (section 4.3,
`les/distributor.go` is missing); the first argument is the time left until
the deadline. -/
def distributeLoop : Nat → List Event → DistState → DistributedRequest → Nat →
    DistResult × DistState
  | 0, _, st, req, deadline =>
    match tryDistribute st req deadline with
    | (.dispatched h, st1) => (.handle h, st1)
    | (.failed e, st1) => (.failed e, st1)
    | (.blocked, st1) => (.failed .NoPeersAvailable, st1)
  | left + 1, evs, st, req, deadline =>
    match tryDistribute st req deadline with
    | (.dispatched h, st1) => (.handle h, st1)
    | (.failed e, st1) => (.failed e, st1)
    | (.blocked, st1) => distributeLoop left evs.tail (absorb st1 (evs.headD .idle)) req deadline

/-- Modelled from the spec: `distribute(req, deadline)` of section 4.3
(`les/distributor.go` is missing): blocks until a peer satisfying `canPeer`
becomes available with spare capacity, or the deadline is reached, or the quit
signal closes. `evs` lists what happens in each tick spent waiting. -/
def distribute (evs : List Event) (st : DistState) (req : DistributedRequest) (deadline : Nat) :
    DistResult × DistState :=
  distributeLoop (deadline - st.now) evs st req deadline

/-- Modelled from the spec: the distributor state after `n` ticks have passed
(sections 4.1, 4.3 and 5, `les/distributor.go` is missing): tick by tick, the
next event of `evs` is applied, or nothing once the list is used up. -/
def elapse : Nat → List Event → DistState → DistState
  | 0, _, st => st
  | n + 1, evs, st => elapse n evs.tail (absorb st (evs.headD .idle))

end RequestDistributor

/-- Modelled from the spec: what the wait after a send ends with (section 4.4,
`les/retrieve.go` is missing): a matching response, delivered after so many
ticks, the per-attempt timeout, or global cancellation. -/
inductive WaitOutcome (Resp : Type) where
  | response (r : Resp) (ticks : Nat)
  | timeout
  | canceled

/-- Modelled from the spec: how `retrieve` ends (section 4.4, `les/retrieve.go`
is missing). `Unfinished` is what the loop below yields when its iteration
budget is used up. -/
inductive RetrieveResult (Resp : Type) where
  | Success (r : Resp)
  | Canceled
  | NoPeersAvailable
  | Unfinished

/-- Modelled from the spec: the bookkeeping of one logical request in the
RetrieveManager (sections 3 and 4.4, `les/retrieve.go` is missing): the
distributor state, the peers blacklisted for this request, the ids of the peers
attempted so far in order, the peers whose ServerPool score was penalized, and
the peers attempted as they were when the distributor chose them. -/
structure RetrieveState where
  dist : DistState
  excluded : List Nat
  attempts : List Nat
  penalized : List Nat
  tried : List Peer
deriving DecidableEq, Repr

namespace RetrieveManager

/-- Modelled from the spec: the request as the distributor sees it on a retry
(section 4.4, `les/retrieve.go` is missing): peers blacklisted for this request
are not eligible. -/
def restrict (req : DistributedRequest) (excluded : List Nat) : DistributedRequest :=
  { req with canPeer := fun p => req.canPeer p && !excluded.contains p.id }

/-- Modelled from the spec: the loop of `retrieve` (section 4.4,
`les/retrieve.go` is missing). `evs` lists what happens to the peer set tick by
tick from now on (peers registering, unregistering, slots freeing, the quit
signal); `net k id` is what the wait of attempt number `k`, sent to peer `id`,
ends with; `attemptTimeout` is the length of the per-attempt timeout in ticks.
Each round obtains a peer from the distributor, which may wait and so use up
events, logs the attempt and waits for the outcome while time and events go on;
a valid response is Success; an invalid response or a timeout penalizes the
peer, blacklists it for this request, frees its slot and retries; cancellation
is Canceled. -/
def retrieveLoop {Resp : Type} (net : Nat → Nat → WaitOutcome Resp)
    (validate : Peer → Resp → Bool) (req : DistributedRequest) (deadline attemptTimeout : Nat) :
    Nat → List Event → RetrieveState → RetrieveResult Resp × RetrieveState
  | 0, _, rs => (.Unfinished, rs)
  | rounds + 1, evs, rs =>
    match RequestDistributor.distribute evs rs.dist (restrict req rs.excluded) deadline with
    | (.failed .Canceled, d) => (.Canceled, { rs with dist := d })
    | (.failed .NoPeersAvailable, d) => (.NoPeersAvailable, { rs with dist := d })
    | (.handle h, d) =>
      let evs1 := evs.drop (d.now - rs.dist.now)
      let rs1 : RetrieveState :=
        { rs with dist := d, attempts := rs.attempts ++ [h.peer.id], tried := rs.tried ++ [h.peer] }
      match net rs.attempts.length h.peer.id with
      | .canceled => (.Canceled, rs1)
      | .response r ticks =>
        let d1 := RequestDistributor.elapse ticks evs1 d
        if validate h.peer r then
          (.Success r, { rs1 with dist := { d1 with peers := d1.peers.release h.peer.id } })
        else
          retrieveLoop net validate req deadline attemptTimeout rounds (evs1.drop ticks)
            { rs1 with
              dist := { d1 with peers := d1.peers.release h.peer.id }
              excluded := h.peer.id :: rs.excluded
              penalized := rs.penalized ++ [h.peer.id] }
      | .timeout =>
        let d1 := RequestDistributor.elapse attemptTimeout evs1 d
        retrieveLoop net validate req deadline attemptTimeout rounds (evs1.drop attemptTimeout)
          { rs1 with
            dist := { d1 with peers := d1.peers.release h.peer.id }
            excluded := h.peer.id :: rs.excluded
            penalized := rs.penalized ++ [h.peer.id] }

/-- Modelled from the spec: the peers a retrieval can meet (sections 4.1 and
4.4, `les/retrieve.go` is missing): those registered when it starts and those
that register while it runs. -/
def connected (st : DistState) (evs : List Event) : List Peer :=
  st.peers.peers ++ evs.filterMap (fun ev =>
    match ev with
    | .register p => some p
    | _ => none)

/-- A peer set all of whose peers are peers of `known` up to their running
request count. -/
def Derived (known : List Peer) (ps : PeerSet) : Prop :=
  ∀ p ∈ ps.peers, ∃ q ∈ known, ∃ n, p = { q with inFlight := n }

/-- The bookkeeping of a retrieval is sound with respect to the peers `known`:
no peer id was attempted twice, every penalized peer was attempted, the
attempted ids are those of the peers tried, and every peer tried satisfied
`canPeer` when chosen and is a peer of `known` up to its running request
count. -/
def Sound (known : List Peer) (req : DistributedRequest) (attempts penalized : List Nat)
    (tried : List Peer) : Prop :=
  attempts.Nodup ∧ (∀ id ∈ penalized, id ∈ attempts) ∧
    attempts = tried.map (fun p : Peer => p.id) ∧
    ∀ p ∈ tried, req.canPeer p = true ∧ ∃ q ∈ known, ∃ n, p = { q with inFlight := n }

/-- Modelled from the spec: `retrieve(req, validate)` of section 4.4
(`les/retrieve.go` is missing), started on distributor state `st` with the
deadline of the PendingRetrieval, while the events `evs` happen. The loop is
given one round per peer it can meet and one more to report exhaustion. -/
def retrieve {Resp : Type} (net : Nat → Nat → WaitOutcome Resp)
    (validate : Peer → Resp → Bool) (evs : List Event) (st : DistState)
    (req : DistributedRequest) (deadline attemptTimeout : Nat) :
    RetrieveResult Resp × RetrieveState :=
  retrieveLoop net validate req deadline attemptTimeout ((connected st evs).length + 1) evs
    { dist := st, excluded := [], attempts := [], penalized := [], tried := [] }

end RetrieveManager

/-- Modelled from the spec: the canonical-chain accessor of section 6 (package
`light` is missing): the current head number and the canonical block hash at
each number. -/
structure CanonicalChain where
  head : Nat
  hashAt : Nat → Hash

namespace ChainIndexer

/-- Modelled from the spec: the parameters of an indexer (sections 3 and 4.5,
`core/chain_indexer.go` is missing): the section size, the confirmation depth,
and the function that summarizes the block hashes of a section into a root. -/
structure Config where
  sectionSize : Nat
  confirmsReq : Nat
  rootOf : List Hash → Hash

/-- Modelled from the spec: the confirmed sections an indexer has stored
(section 3, `core/chain_indexer.go` is missing), as (section index, root)
entries, the latest write first. -/
structure State where
  roots : List (Nat × Hash)
deriving DecidableEq, Repr

/-- Modelled from the spec: the outcome of `processSection` (sections 4.5 and 7,
`core/chain_indexer.go` is missing). -/
inductive SectionResult where
  | root (r : Hash)
  | SectionNotReady
deriving DecidableEq, Repr

/-- Modelled from the spec: the confirmation test of section 4.5
(`core/chain_indexer.go` is missing): the last block of section `i`, number
`(i + 1) * sectionSize - 1`, has `confirmsReq` blocks of the canonical chain at
or above it. -/
def sectionReady (cfg : Config) (chain : CanonicalChain) (i : Nat) : Bool :=
  decide ((i + 1) * cfg.sectionSize + cfg.confirmsReq ≤ chain.head + 1)

/-- Modelled from the spec: the number of sections the chain head confirms
(section 8, `core/chain_indexer.go` is missing). -/
def confirmedSections (cfg : Config) (chain : CanonicalChain) : Nat :=
  (chain.head + 1 - cfg.confirmsReq) / cfg.sectionSize

/-- Modelled from the spec: the contiguous block range of section `i` (section
3, `core/chain_indexer.go` is missing), as canonical hashes. -/
def sectionHashes (cfg : Config) (chain : CanonicalChain) (i : Nat) : List Hash :=
  (List.range cfg.sectionSize).map (fun k => chain.hashAt (i * cfg.sectionSize + k))

/-- Modelled from the spec: the stored root of a section, if confirmed (section
3, `core/chain_indexer.go` is missing). -/
def storedRoot (st : State) (i : Nat) : Option Hash := st.roots.lookup i

/-- Modelled from the spec: `processSection(sectionIndex)` of section 4.5
(`core/chain_indexer.go` is missing): fails with SectionNotReady, leaving the
indexer as it was, if the chain has not reached the confirmation depth of the
section; otherwise recomputes the root from the canonical chain and stores
it. -/
def processSection (cfg : Config) (chain : CanonicalChain) (st : State) (i : Nat) :
    SectionResult × State :=
  if sectionReady cfg chain i then
    let r := cfg.rootOf (sectionHashes cfg chain i)
    (.root r, ⟨(i, r) :: st.roots⟩)
  else (.SectionNotReady, st)

end ChainIndexer

/-- Modelled from the spec: the state machine of one request in section 4.3
(`les/distributor.go` and `les/retrieve.go` are missing): Queued, Dispatched to
a peer, Completed, Canceled, or finally failed with NoPeersAvailable. -/
inductive ReqStatus where
  | Queued
  | Dispatched (peer : Nat)
  | Completed
  | Canceled
  | Exhausted
deriving DecidableEq, Repr

/-- Modelled from the spec: the PendingRetrieval of section 3 (`les/retrieve.go`
is missing): a DistributedRequest plus a deadline, a retry counter, the peers
blacklisted for it, and its place in the state machine of section 4.3. -/
structure PendingRetrieval where
  id : Nat
  req : DistributedRequest
  deadline : Nat
  retries : Nat
  excluded : List Nat
  status : ReqStatus

/-- Modelled from the spec: the shared state of the retrieval core (sections 2
to 5; `les/peer.go`, `les/distributor.go` and `les/retrieve.go` are missing):
the distributor with its peer set, the pending retrievals, the network requests
that were sent and neither answered, timed out nor withdrawn, as (retrieval id,
peer id), and the next retrieval id to hand out. -/
structure System where
  dist : DistState
  pending : List PendingRetrieval
  outstanding : List (Nat × Nat)
  nextId : Nat

/-- Modelled from the spec: the operations that drive the retrieval core
(sections 4.1 to 4.4 and 5; the implementing files are missing). -/
inductive Op where
  | register (p : Peer)
  | unregister (id : Nat)
  | submit (req : DistributedRequest) (deadline : Nat)
  | dispatch (rid : Nat)
  | deliver (rid : Nat) (valid : Bool)
  | timeout (rid : Nat)
  | tick
  | quit

namespace System

/-- Modelled from the spec: the retrieval core right after `les.New`: no peer,
nothing pending, clock at zero. -/
def init : System :=
  { dist := { peers := ⟨[]⟩, now := 0, quit := false, sent := [] }
    pending := []
    outstanding := []
    nextId := 0 }

/-- Modelled from the spec: the requeueing of section 4.1 on one retrieval: if
it is assigned to peer `id` it becomes Queued again. -/
def requeue (id : Nat) (r : PendingRetrieval) : PendingRetrieval :=
  if r.status = .Dispatched id then { r with status := .Queued } else r

/-- Modelled from the spec: the transition Queued → Dispatched of section 4.3 on
one retrieval: the queued retrieval `rid` becomes assigned to peer `pid`. -/
def markDispatched (rid pid : Nat) (q : PendingRetrieval) : PendingRetrieval :=
  if q.id = rid ∧ q.status = .Queued then { q with status := .Dispatched pid } else q

/-- Modelled from the spec: a failed distribution of section 4.3 on one
retrieval: the queued retrieval `rid` ends Canceled, or with NoPeersAvailable. -/
def markFailed (rid : Nat) (e : DistError) (q : PendingRetrieval) : PendingRetrieval :=
  if q.id = rid ∧ q.status = .Queued then
    { q with status := (if e = .Canceled then .Canceled else .Exhausted) }
  else q

/-- Modelled from the spec: the end of an attempt of section 4.4 on one
retrieval: retrieval `rid`, if it is still assigned, is completed by a valid
response, and otherwise blacklists peer `pid` and is requeued. -/
def settleOne (rid pid : Nat) (valid : Bool) (q : PendingRetrieval) : PendingRetrieval :=
  if q.id = rid then
    match q.status with
    | .Dispatched _ =>
      if valid then { q with status := .Completed }
      else { q with status := .Queued, excluded := pid :: q.excluded, retries := q.retries + 1 }
    | _ => q
  else q

/-- Modelled from the spec: cancellation of section 4.3 on one retrieval: a
queued or dispatched retrieval becomes Canceled. -/
def cancelOne (q : PendingRetrieval) : PendingRetrieval :=
  match q.status with
  | .Queued => { q with status := .Canceled }
  | .Dispatched _ => { q with status := .Canceled }
  | _ => q

/-- Modelled from the spec: a handshake (section 3): the peer joins with a
running request count of zero; a failed registration changes nothing. -/
def register (s : System) (p : Peer) : System :=
  { s with dist := { s.dist with peers := (s.dist.peers.register { p with inFlight := 0 }).2 } }

/-- Modelled from the spec: the side effect of section 4.1: unregistering a peer
cancels all PendingRetrievals currently assigned to it, causing them to be
requeued; the requests sent to it are withdrawn. A failed unregistration
changes nothing. -/
def unregister (s : System) (id : Nat) : System :=
  match s.dist.peers.unregister id with
  | (some _, _) => s
  | (none, ps) =>
    { s with
      dist := { s.dist with peers := ps }
      pending := s.pending.map (requeue id)
      outstanding := s.outstanding.filter (fun e => e.2 != id) }

/-- Modelled from the spec: a caller creates a PendingRetrieval (sections 3 and
4.4); it starts Queued. -/
def submit (s : System) (req : DistributedRequest) (deadline : Nat) : System :=
  { s with
    pending := s.pending ++
      [{ id := s.nextId, req := req, deadline := deadline, retries := 0, excluded := [],
         status := .Queued }]
    nextId := s.nextId + 1 }

/-- Modelled from the spec: the distributor takes up retrieval `rid` (section
4.3): only a Queued retrieval is dispatched; the attempt either sends the
request to the selected peer, or ends the retrieval with NoPeersAvailable or
Canceled, or leaves it queued. -/
def dispatch (s : System) (rid : Nat) : System :=
  match s.pending.find? (fun r => r.id == rid && r.status == .Queued) with
  | none => s
  | some r =>
    match RequestDistributor.tryDistribute s.dist (RetrieveManager.restrict r.req r.excluded)
        r.deadline with
    | (.blocked, _) => s
    | (.failed e, d) =>
      { s with
        dist := d
        pending := s.pending.map (markFailed rid e) }
    | (.dispatched h, d) =>
      { s with
        dist := d
        pending := s.pending.map (markDispatched rid h.peer.id)
        outstanding := s.outstanding ++ [(rid, h.peer.id)] }

/-- Modelled from the spec: the attempt of retrieval `rid` ends (section 4.4):
the network request is no longer outstanding and the slot of its peer is freed;
a valid response completes the retrieval, an invalid response or a timeout
blacklists the peer for this request and requeues it; the response to a
retrieval that is no longer waiting is discarded. -/
def settle (s : System) (rid : Nat) (valid : Bool) : System :=
  match s.outstanding.find? (fun e => e.1 == rid) with
  | none => s
  | some e =>
    { s with
      dist := { s.dist with peers := s.dist.peers.release e.2 }
      outstanding := s.outstanding.filter (fun x => x.1 != rid)
      pending := s.pending.map (settleOne rid e.2 valid) }

/-- Modelled from the spec: cancellation of section 4.3: closing the quit signal
fails all queued and in-flight distributions with Canceled; network calls that
were already dispatched are not aborted. -/
def quit (s : System) : System :=
  { s with
    dist := { s.dist with quit := true }
    pending := s.pending.map cancelOne }

/-- Modelled from the spec: one operation applied to the retrieval core. -/
def step (s : System) : Op → System
  | .register p => s.register p
  | .unregister id => s.unregister id
  | .submit req deadline => s.submit req deadline
  | .dispatch rid => s.dispatch rid
  | .deliver rid valid => s.settle rid valid
  | .timeout rid => s.settle rid false
  | .tick => { s with dist := { s.dist with now := s.dist.now + 1 } }
  | .quit => s.quit

/-- Modelled from the spec: the state reached from `init` by a sequence of
operations. -/
def run (ops : List Op) : System := ops.foldl step init

/-- Modelled from the spec: the number of outstanding network requests of
retrieval `rid`. -/
def outstandingOf (s : System) (rid : Nat) : Nat :=
  (s.outstanding.filter (fun e => e.1 == rid)).length

end System

/-- The invariant of the retrieval core that the operations of `System.step`
maintain: a retrieval is only assigned to a registered peer, a retrieval has at
most one outstanding network request and none while it is queued, an
outstanding request of an assigned retrieval went to the peer it is assigned
to, and retrieval ids are handed out once. -/
structure System.Inv (s : System) : Prop where
  assigned : ∀ r ∈ s.pending, ∀ pid, r.status = .Dispatched pid →
    s.dist.peers.contains pid = true
  single : ∀ rid, s.outstandingOf rid ≤ 1
  queued : ∀ r ∈ s.pending, r.status = .Queued → ∀ e ∈ s.outstanding, e.1 ≠ r.id
  ids : (s.pending.map (fun r => r.id)).Nodup
  fresh : ∀ r ∈ s.pending, r.id < s.nextId
  freshOut : ∀ e ∈ s.outstanding, e.1 < s.nextId
  target : ∀ e ∈ s.outstanding, ∀ r ∈ s.pending, r.id = e.1 →
    ∀ pid, r.status = .Dispatched pid → e.2 = pid

/-! ### Sample inputs of the retrieval core -/

/-- Three peers: A (id 1) with one request in flight, B (id 2) and C (id 3)
idle, of declared capacities 2, 1 and 3. -/
def samplePeers : PeerSet :=
  ⟨[⟨1, 2, 0, 50, 2, 1⟩, ⟨2, 2, 0, 70, 1, 0⟩, ⟨3, 2, 0, 60, 3, 0⟩]⟩

/-- A distributor over `samplePeers` at time 0, quit signal open. -/
def sampleDist : DistState :=
  { peers := samplePeers, now := 0, quit := false, sent := [] }

/-- A request every peer can serve. -/
def sampleRequest : DistributedRequest :=
  { id := 7, canPeer := fun _ => true }

/-- A distributor without peers at time 0, quit signal open. -/
def sampleEmptyDist : DistState :=
  { peers := ⟨[]⟩, now := 0, quit := false, sent := [] }

/-- Nothing happens in the first tick, peer C (id 3) registers in the second,
peer B (id 2) in the third. -/
def sampleArrivals : List Event :=
  [.idle, .register ⟨3, 2, 0, 60, 3, 0⟩, .register ⟨2, 2, 0, 70, 1, 0⟩]

/-- Peer C (id 3) never answers; every other peer answers 42 at once. -/
def sampleNet : Nat → Nat → WaitOutcome Nat :=
  fun _ id => if id = 3 then .timeout else .response 42 0

/-- Only the response 42 is valid. -/
def sampleValidate : Peer → Nat → Bool := fun _ r => r == 42

/-- A chain with head 21 on which the hash of block `n` is `n + 100`. -/
def sampleChain : CanonicalChain :=
  { head := 21, hashAt := fun n => n + 100 }

/-- The same chain after it advanced to head 25. -/
def sampleChainLater : CanonicalChain :=
  { head := 25, hashAt := fun n => n + 100 }

/-- Sections of 4 blocks, confirmed 2 blocks deep, summarized by the sum of the
hashes. -/
def sampleIndexer : ChainIndexer.Config :=
  { sectionSize := 4, confirmsReq := 2, rootOf := List.sum }

/-- Modelled from the spec: the number of requests concurrently dispatched to
peer `pid` (section 8; `les/distributor.go` is missing): the outstanding
network requests that went to it. -/
def System.dispatchedTo (s : System) (pid : Nat) : Nat :=
  (s.outstanding.filter (fun e => e.2 == pid)).length

/-- The bookkeeping invariant of the retrieval core: registered peers have
distinct ids, outstanding requests went to registered peers, the running
request count of a peer is the number of requests dispatched to it, and it is
within the declared capacity. -/
structure System.Accounted (s : System) : Prop where
  peerIds : (s.dist.peers.peers.map (fun p => p.id)).Nodup
  known : ∀ e ∈ s.outstanding, s.dist.peers.contains e.2 = true
  counted : ∀ p ∈ s.dist.peers.peers, p.inFlight = s.dispatchedTo p.id
  bounded : ∀ p ∈ s.dist.peers.peers, p.inFlight ≤ p.capacity

/-- The scenario of section 8: peers A (id 1, capacity 2) and B (id 2, capacity
1) register, three retrievals of distinct requests that any peer can serve are
issued with deadline 10, and the distributor takes them up in order. -/
def scenarioOps : List Op :=
  [ .register ⟨1, 2, 0, 50, 2, 0⟩, .register ⟨2, 2, 0, 70, 1, 0⟩,
    .submit ⟨100, fun _ => true⟩ 10, .submit ⟨101, fun _ => true⟩ 10,
    .submit ⟨102, fun _ => true⟩ 10,
    .dispatch 0, .dispatch 1, .dispatch 2 ]

/-- The scenario of section 8 with a third request that only peer B can serve:
peers A (id 1, capacity 2) and B (id 2, capacity 1) register, three retrievals
of distinct requests are issued with deadline 10, and the distributor takes
them up in order. -/
def scenarioQueuedOps : List Op :=
  [ .register ⟨1, 2, 0, 50, 2, 0⟩, .register ⟨2, 2, 0, 70, 1, 0⟩,
    .submit ⟨100, fun _ => true⟩ 10, .submit ⟨101, fun _ => true⟩ 10,
    .submit ⟨102, fun p => p.id == 2⟩ 10,
    .dispatch 0, .dispatch 1, .dispatch 2 ]

/-! ### FUSE protocol versions (`vendor/bazil.org/fuse/protocol.go`) -/

namespace fuse

/-- Protocol is a FUSE protocol version number. The two fields are `uint32` in
the source; they are only compared, never computed with. -/
structure Protocol where
  Major : Nat
  Minor : Nat
deriving DecidableEq, Repr

namespace Protocol

/-- LT returns whether a is less than b. -/
def LT (a b : Protocol) : Bool :=
  decide (a.Major < b.Major) || (decide (a.Major = b.Major) && decide (a.Minor < b.Minor))

/-- GE returns whether a is greater than or equal to b. -/
def GE (a b : Protocol) : Bool :=
  decide (a.Major > b.Major) || (decide (a.Major = b.Major) && decide (a.Minor ≥ b.Minor))

def is79 (a : Protocol) : Bool := a.GE ⟨7, 9⟩

/-- HasAttrBlockSize returns whether Attr.BlockSize is respected by the kernel. -/
def HasAttrBlockSize (a : Protocol) : Bool := a.is79

/-- HasReadWriteFlags returns whether ReadRequest/WriteRequest fields Flags and
FileFlags are valid. -/
def HasReadWriteFlags (a : Protocol) : Bool := a.is79

/-- HasGetattrFlags returns whether GetattrRequest field Flags is valid. -/
def HasGetattrFlags (a : Protocol) : Bool := a.is79

def is710 (a : Protocol) : Bool := a.GE ⟨7, 10⟩

/-- HasOpenNonSeekable returns whether OpenResponse field Flags flag
OpenNonSeekable is supported. -/
def HasOpenNonSeekable (a : Protocol) : Bool := a.is710

def is712 (a : Protocol) : Bool := a.GE ⟨7, 12⟩

/-- HasUmask returns whether CreateRequest/MkdirRequest/MknodRequest field Umask
is valid. -/
def HasUmask (a : Protocol) : Bool := a.is712

/-- HasInvalidate returns whether InvalidateNode/InvalidateEntry are supported. -/
def HasInvalidate (a : Protocol) : Bool := a.is712

/-- The version as a pair in the lexicographic order on (Major, Minor). -/
def key (a : Protocol) : Lex (Nat × Nat) := toLex (a.Major, a.Minor)

end Protocol

end fuse

/-! ### The full-node service (`tst/backend.go`) -/

namespace tst

/-- The fields of `tst.Config` that `New` and `Start` read; all three are `int`
values in the source. -/
structure Config where
  SyncMode : Int
  LightServ : Int
  LightPeers : Int
deriving DecidableEq, Repr

/-- p2p.Server, of which `Start` reads the peer limit. -/
structure Server where
  MaxPeers : Int
deriving DecidableEq, Repr

/-- A value behind the `LesServer` interface: the protocols it offers and the
server it was started on, if it was. -/
structure LesServer where
  protocols : List Protocol
  startedOn : Option Server
deriving DecidableEq, Repr

/-- The protocol manager as the service methods see it: its sub-protocols and
the peer limit it was started with, if it was. -/
structure ProtocolManager where
  SubProtocols : List Protocol
  started : Option Int
deriving DecidableEq, Repr

/-- The fields of the full node `UTChain` that `Start`, `Protocols`, `Tsterbase`
and `SetTsterbase` read or write. `wallets` is what
`AccountManager().Wallets()` returns, each wallet given by the addresses of its
`Accounts()`; `minerTsterbase` is the address last handed to the miner;
`netRPCService` is the network id the net API was created with. -/
structure UTChain where
  config : Config
  protocolManager : ProtocolManager
  lesServer : Option LesServer
  tsterbase : Address
  wallets : List (List Address)
  minerTsterbase : Address
  networkId : Nat
  netRPCService : Option Nat
  bloomHandlers : Bool
deriving DecidableEq, Repr

/-- The part of `New` that lies outside the excerpt: the sync-mode constants of
package `downloader`, `CreateDB`, which may open a database and reports the
databases open afterwards, and everything `New` does once the database is
there. -/
structure NewDeps where
  Ctx : Type
  Db : Type
  /-- downloader.LightSync -/
  LightSync : Int
  /-- (downloader.SyncMode).IsValid -/
  IsValid : Int → Bool
  CreateDB : List String → Ctx → Config → String → Except String Db × List String
  setup : List String → Ctx → Config → Db → (Option UTChain × Option String) × List String

/-- `New` creates a new UTChain object. The first argument lists the databases
that are open before the call, the last component of the result those open
after it. -/
def New (d : NewDeps) (opened : List String) (ctx : d.Ctx) (config : Config) :
    (Option UTChain × Option String) × List String :=
  if config.SyncMode = d.LightSync then
    ((none, some "can't run tst.UTChain in light sync mode, use les.LightUTChain"), opened)
  else if !d.IsValid config.SyncMode then
    ((none, some ("invalid sync mode " ++ toString config.SyncMode)), opened)
  else
    match d.CreateDB opened ctx config "chaindata" with
    | (.error err, opened1) => ((none, some err), opened1)
    | (.ok chainDb, opened1) => d.setup opened1 ctx config chainDb

namespace UTChain

def NetVersion (s : UTChain) : Nat := s.networkId

/-- `Tsterbase`: the result pair (address, error) and the node after the call.
The zero address is 0. -/
def Tsterbase (s : UTChain) : (Address × Option String) × UTChain :=
  let tsterbase := s.tsterbase
  if tsterbase ≠ 0 then ((tsterbase, none), s)
  else
    match s.wallets with
    | (a :: _) :: _ => ((a, none), { s with tsterbase := a })
    | _ => ((0, some "tsterbase must be explicitly specified"), s)

/-- `SetTsterbase`: stores the address and hands it to the miner. -/
def SetTsterbase (self : UTChain) (tsterbase : Address) : UTChain :=
  { self with tsterbase := tsterbase, minerTsterbase := tsterbase }

/-- Protocols implements node.Service, returning all the currently configured
network protocols to start. -/
def Protocols (s : UTChain) : List Protocol :=
  match s.lesServer with
  | none => s.protocolManager.SubProtocols
  | some ls => s.protocolManager.SubProtocols ++ ls.protocols

/-- Start implements node.Service: the error, if any, and the node after the
call. `maxPeers -= LightPeers` is 64-bit `int` arithmetic. -/
def Start (s : UTChain) (srvr : Server) : Option String × UTChain :=
  let s1 : UTChain := { s with bloomHandlers := true }
  let s2 : UTChain := { s1 with netRPCService := some s1.NetVersion }
  let maxPeers := srvr.MaxPeers
  if s2.config.LightServ > 0 then
    if s2.config.LightPeers ≥ srvr.MaxPeers then
      (some ("invalid peer config: light peer count (" ++ toString s2.config.LightPeers
          ++ ") >= total peer count (" ++ toString srvr.MaxPeers ++ ")"), s2)
    else
      let maxPeers1 := toInt64 (maxPeers - s2.config.LightPeers)
      (none,
        { s2 with
          protocolManager := { s2.protocolManager with started := some maxPeers1 }
          lesServer := s2.lesServer.map (fun ls => { ls with startedOn := some srvr }) })
  else
    (none,
      { s2 with
        protocolManager := { s2.protocolManager with started := some maxPeers }
        lesServer := s2.lesServer.map (fun ls => { ls with startedOn := some srvr }) })

end UTChain

/-- The sync modes of package `downloader` (FullSync 0, FastSync 1, LightSync
2) with a database layer that records the name of each database it opens. -/
def sampleNewDeps : NewDeps where
  Ctx := Unit
  Db := String
  LightSync := 2
  IsValid := fun m => decide (0 ≤ m ∧ m ≤ 2)
  CreateDB := fun opened _ _ name => (.ok name, name :: opened)
  setup := fun opened _ config _ =>
    ((some { config := config, protocolManager := ⟨[⟨63⟩, ⟨62⟩], none⟩, lesServer := none,
             tsterbase := 0, wallets := [], minerTsterbase := 0, networkId := 1,
             netRPCService := none, bloomHandlers := false }, none), opened)

/-- A full node with light serving enabled for 10 light peers, an attached LES
server, no stored tsterbase and one wallet with two accounts. -/
def sampleNode : UTChain :=
  { config := { SyncMode := 0, LightServ := 20, LightPeers := 10 }
    protocolManager := ⟨[⟨63⟩, ⟨62⟩], none⟩
    lesServer := some ⟨[⟨2⟩, ⟨1⟩], none⟩
    tsterbase := 0
    wallets := [[41, 42], [43]]
    minerTsterbase := 0
    networkId := 1
    netRPCService := none
    bloomHandlers := false }

end tst

/-! ### The mobile node wrapper (`mobile/geth.go`) -/

namespace mobile

/-- NodeConfig represents the collection of configuration values to fine tune
the node embedded into a mobile process. `BootstrapNodes` is a pointer to a list
of enode URLs; `MaxPeers` and `UTChainDatabaseCache` are `int`, the network id is
`int64`. -/
structure NodeConfig where
  BootstrapNodes : Option (List String)
  MaxPeers : Int
  UTChainEnabled : Bool
  UTChainNetworkID : Int
  UTChainGenesis : String
  UTChainDatabaseCache : Int
  UTChainNetStats : String
  WhisperEnabled : Bool
deriving DecidableEq, Repr

/-- p2p.Config as `NewNode` fills it in (the NAT mechanism is left out). -/
structure P2PConfig where
  NoDiscovery : Bool
  DiscoveryV5 : Bool
  BootstrapNodesV5 : List String
  ListenAddr : String
  MaxPeers : Int
deriving DecidableEq, Repr

/-- node.Config as `NewNode` fills it in. -/
structure NodeConf where
  Name : String
  Version : String
  DataDir : String
  KeyStoreDir : String
  P2P : P2PConfig
deriving DecidableEq, Repr

/-- tst.Config as `NewNode` fills it in: the four fields it assigns, and the
remaining fields of `tst.DefaultConfig` as one opaque value. -/
structure TstConfig (Genesis Other : Type) where
  Genesis : Option Genesis
  SyncMode : Int
  NetworkId : Nat
  DatabaseCache : Int
  other : Other

/-- The packages `node`, `core`, `params`, `tst` and `encoding/json` as far as
`NewNode` calls into them, and the constants of package `mobile` declared in
other files. -/
structure Deps where
  Genesis : Type
  /-- the fields of tst.Config that `NewNode` leaves alone -/
  TstOther : Type
  clientIdentifier : String
  /-- params.Version -/
  Version : String
  /-- FoundationBootnodes() -/
  FoundationBootnodes : List String
  /-- TestnetGenesis() -/
  TestnetGenesis : String
  /-- filepath.Join -/
  joinPath : String → String → String
  /-- node.New: the error, if any -/
  nodeNew : NodeConf → Option String
  /-- json.Unmarshal into a core.Genesis -/
  unmarshal : String → Except String Genesis
  /-- the assignment `genesis.Config = params.TestnetChainConfig` -/
  withTestnetConfig : Genesis → Genesis
  /-- tst.DefaultConfig -/
  DefaultConfig : TstConfig Genesis TstOther
  /-- downloader.LightSync -/
  LightSync : Int
  /-- whether `rawStack.Register` fails for the n-th service, and with what -/
  registerError : Nat → Option String

/-- A service constructor registered on the stack. -/
inductive Service (d : Deps) where
  | les (tstConf : TstConfig d.Genesis d.TstOther)
  | netstats (url : String)
  | whisper

/-- Node represents a node instance: the configuration the stack was created
with and the services registered on it, in order. -/
structure Node (d : Deps) where
  conf : NodeConf
  services : List (Service d)

/-- defaultNodeConfig contains the default node configuration values to use if
all or some fields are missing from the user's specified list. -/
def defaultNodeConfig (d : Deps) : NodeConfig :=
  { BootstrapNodes := some d.FoundationBootnodes
    MaxPeers := 25
    UTChainEnabled := true
    UTChainNetworkID := 1
    UTChainGenesis := ""
    UTChainDatabaseCache := 16
    UTChainNetStats := ""
    WhisperEnabled := false }

/-- NewNodeConfig creates a new node option set, initialized to the default
values. -/
def NewNodeConfig (d : Deps) : NodeConfig := defaultNodeConfig d

/-- The first step of `NewNode`: missing values are replaced by defaults. -/
def fillDefaults (d : Deps) (config : Option NodeConfig) : NodeConfig :=
  let config0 := match config with
    | none => NewNodeConfig d
    | some c => c
  let config1 := if config0.MaxPeers = 0 then
      { config0 with MaxPeers := (defaultNodeConfig d).MaxPeers } else config0
  match config1.BootstrapNodes with
  | none => { config1 with BootstrapNodes := (defaultNodeConfig d).BootstrapNodes }
  | some [] => { config1 with BootstrapNodes := (defaultNodeConfig d).BootstrapNodes }
  | some _ => config1

/-- The second step of `NewNode`: the configuration of the networking stack. -/
def nodeConfOf (d : Deps) (datadir : String) (config : NodeConfig) : NodeConf :=
  { Name := d.clientIdentifier
    Version := d.Version
    DataDir := datadir
    KeyStoreDir := d.joinPath datadir "keystore"
    P2P :=
      { NoDiscovery := true
        DiscoveryV5 := true
        BootstrapNodesV5 := config.BootstrapNodes.getD []
        ListenAddr := ":0"
        MaxPeers := config.MaxPeers } }

/-- The configuration `NewNode` hands to the light service. -/
def tstConfOf (d : Deps) (genesis : Option d.Genesis) (config : NodeConfig) :
    TstConfig d.Genesis d.TstOther :=
  let tstConf := d.DefaultConfig
  let tstConf := { tstConf with Genesis := genesis }
  let tstConf := { tstConf with SyncMode := d.LightSync }
  let tstConf := { tstConf with NetworkId := toUint64 config.UTChainNetworkID }
  { tstConf with DatabaseCache := config.UTChainDatabaseCache }

/-- The registrations at the end of `NewNode`: the light service and netstats if
UTChain is enabled, Whisper if enabled; the first failing registration ends the
call with its error. -/
def registerAll (d : Deps) (conf : NodeConf) (genesis : Option d.Genesis) (config : NodeConfig) :
    Option (Node d) × Option String :=
  let afterLes : Except String (List (Service d)) :=
    if config.UTChainEnabled then
      match d.registerError 0 with
      | some err => .error ("utereum init: " ++ err)
      | none =>
        if config.UTChainNetStats ≠ "" then
          match d.registerError 1 with
          | some err => .error ("netstats init: " ++ err)
          | none => .ok [.les (tstConfOf d genesis config), .netstats config.UTChainNetStats]
        else .ok [.les (tstConfOf d genesis config)]
    else .ok []
  match afterLes with
  | .error e => (none, some e)
  | .ok services =>
    if config.WhisperEnabled then
      match d.registerError services.length with
      | some err => (none, some ("whisper init: " ++ err))
      | none => (some ⟨conf, services ++ [.whisper]⟩, none)
    else (some ⟨conf, services⟩, none)

/-- NewNode creates and configures a new node: the node or the error, and the
configuration record, which the call updates in place. -/
def NewNode (d : Deps) (datadir : String) (config : Option NodeConfig) :
    (Option (Node d) × Option String) × NodeConfig :=
  let config1 := fillDefaults d config
  let nodeConf := nodeConfOf d datadir config1
  match d.nodeNew nodeConf with
  | some err => ((none, some err), config1)
  | none =>
    if config1.UTChainGenesis ≠ "" then
      match d.unmarshal config1.UTChainGenesis with
      | .error err => ((none, some ("invalid genesis spec: " ++ err)), config1)
      | .ok genesis =>
        if config1.UTChainGenesis = d.TestnetGenesis then
          let config2 := if config1.UTChainNetworkID = 1 then
              { config1 with UTChainNetworkID := 3 } else config1
          (registerAll d nodeConf (some (d.withTestnetConfig genesis)) config2, config2)
        else (registerAll d nodeConf (some genesis) config1, config1)
    else (registerAll d nodeConf none config1, config1)

/-- The database cache sizes of the light services registered on a node. -/
def lesCaches {d : Deps} (n : Node d) : List Int :=
  n.services.filterMap (fun sv =>
    match sv with
    | .les tstConf => some tstConf.DatabaseCache
    | _ => none)

/-- Sample outside packages: a genesis is its JSON text, the default
light-service configuration has a cache of 128 MB, and nothing fails. -/
@[reducible] def sampleDeps : Deps where
  Genesis := String
  TstOther := Unit
  clientIdentifier := "GtstMobile"
  Version := "1.8.0"
  FoundationBootnodes := ["enode://2a37@47.74.229.190:8080"]
  TestnetGenesis := "testnet"
  joinPath := fun a b => a ++ "/" ++ b
  nodeNew := fun _ => none
  unmarshal := fun s => .ok s
  withTestnetConfig := fun g => g
  DefaultConfig := { Genesis := none, SyncMode := 1, NetworkId := 1, DatabaseCache := 128,
                     other := () }
  LightSync := 2
  registerError := fun _ => none

/-- A configuration that asks for no peers and no database cache. -/
def sampleConfig : NodeConfig :=
  { BootstrapNodes := some ["enode://aa@10.0.0.1:30303"]
    MaxPeers := 0
    UTChainEnabled := true
    UTChainNetworkID := 7
    UTChainGenesis := ""
    UTChainDatabaseCache := 0
    UTChainNetStats := ""
    WhisperEnabled := false }

end mobile

/-! ### The trie comparison of the light-client tests (`light/trie_test.go`) -/

namespace light

/-- A byte slice; a nil slice and an empty slice are both the empty list, which
is how `bytes.Equal` treats them. -/
abbrev Bytes := List Nat

/-- A `state.Trie` as `diffTries` sees it: the key/value pairs its node iterator
yields, in iteration order, and the error the node iterator reports once it
stops, if any. Packages `state` and `trie` lie outside the excerpt. -/
structure Trie where
  leaves : List (Bytes × Bytes)
  failure : Option String
deriving DecidableEq, Repr

/-- The key/value iterator of package `trie` (outside the excerpt), with the
fields `diffTries` reads: the pair it is positioned on and the error. `pending`
is what the underlying node iterator has yet to yield, `failure` the error it
reports when it stops. -/
structure Iterator where
  pending : List (Bytes × Bytes)
  failure : Option String
  Key : Bytes
  Value : Bytes
  Err : Option String
deriving DecidableEq, Repr

/-- `trie.NewIterator(t.NodeIterator(nil))`: an iterator before the first pair. -/
def NewIterator (t : Trie) : Iterator :=
  { pending := t.leaves, failure := t.failure, Key := [], Value := [], Err := none }

/-- `Next` moves the iterator to the next key/value pair and reports whether
there was one; when there is none it clears Key and Value and records the
error of the node iterator. -/
def Iterator.Next (it : Iterator) : Bool × Iterator :=
  match it.pending with
  | (k, v) :: rest => (true, { it with pending := rest, Key := k, Value := v })
  | [] => (false, { it with Key := [], Value := [], Err := it.failure })

/-- The errors `diffTries` returns, one constructor per `fmt.Errorf` call, with
the values the message is formatted from:
"tries have different keys %x, %x", "tries differ at key %x",
"full trie iterator error: %v", "light trie iterator error: %v",
"full trie iterator has more k/v pairs", "light trie iterator has more k/v
pairs". -/
inductive DiffError where
  | differentKeys (k1 k2 : Bytes)
  | differAtKey (k : Bytes)
  | fullIteratorError (e : Option String)
  | lightIteratorError (e : Option String)
  | fullHasMore
  | lightHasMore
deriving DecidableEq, Repr

/-- How the `for` loop of `diffTries` ends: with a `return` from its body, or
with its condition false, leaving the two iterators where they are. -/
inductive LoopExit where
  | failed (e : DiffError)
  | done (i1 i2 : Iterator)
deriving DecidableEq, Repr

/-- The loop `for i1.Next() && i2.Next() { ... }` of `diffTries`. The condition
advances `i1` first and advances `i2` only if `i1` had a pair; the body compares
the keys and then, as written in the source, `i2.Value` with `i2.Value`. (The
debugging dump of `i2` before the first `return` is left out.) -/
def diffLoop (i1 i2 : Iterator) : LoopExit :=
  if h : i1.Next.1 = true then
    if i2.Next.1 = true then
      if i1.Next.2.Key ≠ i2.Next.2.Key then
        .failed (.differentKeys i1.Next.2.Key i2.Next.2.Key)
      else if i2.Next.2.Value ≠ i2.Next.2.Value then
        .failed (.differAtKey i1.Next.2.Key)
      else
        have : i1.Next.2.pending.length < i1.pending.length := by
          unfold Iterator.Next at h ⊢
          cases hp : i1.pending with
          | nil => simp [hp] at h
          | cons x rest => simp
        diffLoop i1.Next.2 i2.Next.2
    else .done i1.Next.2 i2.Next.2
  else .done i1.Next.2 i2
termination_by i1.pending.length

/-- `diffTries(t1, t2)`: the error, or none for nil. After the loop the `switch`
looks at `i1.Err`, then `i2.Err`, then calls `i1.Next()`, then `i2.Next()`; the
light-iterator error message is formatted from `i1.Err`, as in the source. -/
def diffTries (t1 t2 : Trie) : Option DiffError :=
  let i1 := NewIterator t1
  let i2 := NewIterator t2
  match diffLoop i1 i2 with
  | .failed e => some e
  | .done i1 i2 =>
    if i1.Err ≠ none then some (.fullIteratorError i1.Err)
    else if i2.Err ≠ none then some (.lightIteratorError i1.Err)
    else if i1.Next.1 = true then some .fullHasMore
    else if i2.Next.1 = true then some .lightHasMore
    else none

end light

/-! ## Part II. Theorems -/

/-! ### The adapters -/

/-- C1: `LesApiBackend.BloomStatus` returns (0, 0) when the light node has no
bloom indexer, and otherwise (light.BloomTrieFrequency, n) with n the number of
sections reported by `bloomIndexer.Sections()`; in both cases the backend after
the call is the backend before it. -/
theorem LesApiBackend.BloomStatus_spec {T : Types} {D : LesDeps T} (BloomTrieFrequency : Nat)
    (s : LightUTChain T D) (gpo : T.Oracle) (ix : ChainIndexer) :
    LesApiBackend.BloomStatus BloomTrieFrequency ⟨{ s with bloomIndexer := none }, gpo⟩
        = ((0, 0), ⟨{ s with bloomIndexer := none }, gpo⟩) ∧
      LesApiBackend.BloomStatus BloomTrieFrequency ⟨{ s with bloomIndexer := some ix }, gpo⟩
        = ((BloomTrieFrequency, ix.Sections.1), ⟨{ s with bloomIndexer := some ix }, gpo⟩) :=
  ⟨rfl, rfl⟩

/-- C2: each of the five chain subscription hooks of `LesApiBackend` returns
exactly the subscription the light chain returns for the same channel, and
leaves the backend as it was except for the chain state that call produced;
`TstApiBackend` does the same against the full blockchain. -/
theorem Subscribe_forwarded {T : Types} {D : LesDeps T} {E : TstDeps T}
    (b : LesApiBackend T D) (f : TstApiBackend T E) (ch : T.Chan) :
    (b.SubscribeChainHeadEvent ch
        = ((D.SubscribeChainHeadEvent b.tst.blockchain ch).1,
           { b with tst := { b.tst with
              blockchain := (D.SubscribeChainHeadEvent b.tst.blockchain ch).2 } })) ∧
      (b.SubscribeLogsEvent ch
        = ((D.SubscribeLogsEvent b.tst.blockchain ch).1,
           { b with tst := { b.tst with
              blockchain := (D.SubscribeLogsEvent b.tst.blockchain ch).2 } })) ∧
      (b.SubscribeChainEvent ch
        = ((D.SubscribeChainEvent b.tst.blockchain ch).1,
           { b with tst := { b.tst with
              blockchain := (D.SubscribeChainEvent b.tst.blockchain ch).2 } })) ∧
      (b.SubscribeChainSideEvent ch
        = ((D.SubscribeChainSideEvent b.tst.blockchain ch).1,
           { b with tst := { b.tst with
              blockchain := (D.SubscribeChainSideEvent b.tst.blockchain ch).2 } })) ∧
      (b.SubscribeRemovedLogsEvent ch
        = ((D.SubscribeRemovedLogsEvent b.tst.blockchain ch).1,
           { b with tst := { b.tst with
              blockchain := (D.SubscribeRemovedLogsEvent b.tst.blockchain ch).2 } })) ∧
      (f.SubscribeChainHeadEvent ch
        = ((E.SubscribeChainHeadEvent f.tst.blockchain ch).1,
           { f with tst := { f.tst with
              blockchain := (E.SubscribeChainHeadEvent f.tst.blockchain ch).2 } })) ∧
      (f.SubscribeLogsEvent ch
        = ((E.SubscribeLogsEvent f.tst.blockchain ch).1,
           { f with tst := { f.tst with
              blockchain := (E.SubscribeLogsEvent f.tst.blockchain ch).2 } })) ∧
      (f.SubscribeChainEvent ch
        = ((E.SubscribeChainEvent f.tst.blockchain ch).1,
           { f with tst := { f.tst with
              blockchain := (E.SubscribeChainEvent f.tst.blockchain ch).2 } })) ∧
      (f.SubscribeChainSideEvent ch
        = ((E.SubscribeChainSideEvent f.tst.blockchain ch).1,
           { f with tst := { f.tst with
              blockchain := (E.SubscribeChainSideEvent f.tst.blockchain ch).2 } })) ∧
      (f.SubscribeRemovedLogsEvent ch
        = ((E.SubscribeRemovedLogsEvent f.tst.blockchain ch).1,
           { f with tst := { f.tst with
              blockchain := (E.SubscribeRemovedLogsEvent f.tst.blockchain ch).2 } })) :=
  ⟨rfl, rfl, rfl, rfl, rfl, rfl, rfl, rfl, rfl, rfl⟩

/-- C3, as stated, fails: on a light node speaking protocol version 2,
`LesApiBackend.ProtocolVersion` returns 10002 where the backing call
`LesVersion()` returns 2; and `GetEVM` of either backend hands back a state
database that differs from the one it was given (the sender's balance has been
set to MaxBig256), although no backing component is asked to change it. -/
theorem forwarding_counterexample :
    sampleLesBackend.tst.LesVersion = some 2 ∧
      sampleLesBackend.ProtocolVersion = some 10002 ∧
      sampleLesBackend.ProtocolVersion ≠ sampleLesBackend.tst.LesVersion ∧
      (sampleLesBackend.GetEVM () (5 : Nat) ([] : List (Address × Int)) none ()).2
        = [(5, 2 ^ 256 - 1)] ∧
      (sampleLesBackend.GetEVM () (5 : Nat) ([] : List (Address × Int)) none ()).2
        ≠ ([] : List (Address × Int)) ∧
      (sampleTstBackend.GetEVM () (5 : Nat) ([] : List (Address × Int)) none ()).2
        ≠ ([] : List (Address × Int)) := by
  refine ⟨by decide, by decide, by decide, rfl, ?_, ?_⟩
  · intro h; cases h
  · intro h; cases h

/-- C3, amended: every method of `LesApiBackend` and of `TstApiBackend` is
accounted for. Most return exactly what one call on, or one field of, the
backing node, chain, pool or oracle returns for the same arguments (with a nil
error added where that call has none) and change no state beyond what that
call does. The composite ones only select among, chain or pair such calls:
`CurrentBlock` of the light client, `SetHead`, `HeaderByNumber`,
`BlockByNumber`, `StateAndHeaderByNumber`, `GetReceipts`, `GetLogs`, `Stats`
of the light client, `GetPoolNonce` and `GetPoolTransactions` of the full node,
`BloomStatus` and `ServiceFilter`. Three methods do something of their own:
`LesApiBackend.ProtocolVersion` returns `LesVersion() + 10000`, and `GetEVM` of
both backends sets the balance of the message sender to MaxBig256 in the state
database it was given before it builds the EVM over that state. -/
theorem forwarding_amended {T : Types} {D : LesDeps T} {E : TstDeps T}
    (b : LesApiBackend T D) (f : TstApiBackend T E) (ctx : T.Ctx) (h : Hash) (a : Address)
    (tx : T.Transaction) (ch : T.Chan) (n : Nat) (nr : Int) (msg : T.Message)
    (state : T.StateDB) (header : Option T.Header) (vmCfg : T.VmConfig)
    (BloomTrieFrequency BloomBitsBlocks : Nat)
    (bloomFilterThreads bloomRetrievalBatch bloomRetrievalWait : Int) :
    -- one call or one field, light client
    (b.ChainConfig = b.tst.chainConfig) ∧
      (b.GetBlock ctx h = D.GetBlockByHash b.tst.blockchain ctx h) ∧
      (b.GetTd h = D.GetTdByHash b.tst.blockchain h) ∧
      (b.SendTx ctx tx = ((D.Add b.tst.txPool ctx tx).1,
          { b with tst := { b.tst with txPool := (D.Add b.tst.txPool ctx tx).2 } })) ∧
      (b.RemoveTx h = { b with tst := { b.tst with txPool := D.RemoveTx b.tst.txPool h } }) ∧
      (b.GetPoolTransactions = D.GetTransactions b.tst.txPool) ∧
      (b.GetPoolTransaction h = D.GetTransaction b.tst.txPool h) ∧
      (b.GetPoolNonce ctx a = D.GetNonce b.tst.txPool ctx a) ∧
      (b.TxPoolContent = D.Content b.tst.txPool) ∧
      (b.SubscribeTxPreEvent ch = ((D.SubscribeTxPreEvent b.tst.txPool ch).1,
          { b with tst := { b.tst with txPool := (D.SubscribeTxPreEvent b.tst.txPool ch).2 } })) ∧
      (b.SubscribeChainEvent ch = ((D.SubscribeChainEvent b.tst.blockchain ch).1,
          { b with tst := { b.tst with
              blockchain := (D.SubscribeChainEvent b.tst.blockchain ch).2 } })) ∧
      (b.SubscribeChainHeadEvent ch = ((D.SubscribeChainHeadEvent b.tst.blockchain ch).1,
          { b with tst := { b.tst with
              blockchain := (D.SubscribeChainHeadEvent b.tst.blockchain ch).2 } })) ∧
      (b.SubscribeChainSideEvent ch = ((D.SubscribeChainSideEvent b.tst.blockchain ch).1,
          { b with tst := { b.tst with
              blockchain := (D.SubscribeChainSideEvent b.tst.blockchain ch).2 } })) ∧
      (b.SubscribeLogsEvent ch = ((D.SubscribeLogsEvent b.tst.blockchain ch).1,
          { b with tst := { b.tst with
              blockchain := (D.SubscribeLogsEvent b.tst.blockchain ch).2 } })) ∧
      (b.SubscribeRemovedLogsEvent ch = ((D.SubscribeRemovedLogsEvent b.tst.blockchain ch).1,
          { b with tst := { b.tst with
              blockchain := (D.SubscribeRemovedLogsEvent b.tst.blockchain ch).2 } })) ∧
      (b.Downloader = b.tst.protocolManager.downloader) ∧
      (b.SuggestPrice ctx = T.SuggestPrice b.gpo ctx) ∧
      (b.ChainDb = b.tst.chainDb) ∧
      (b.EventMux = b.tst.eventMux) ∧
      (b.AccountManager = b.tst.accountManager) ∧
      -- one call or one field, full node
      (f.ChainConfig = f.tst.chainConfig) ∧
      (f.CurrentBlock = E.CurrentBlock f.tst.blockchain) ∧
      (f.GetBlock ctx h = (E.GetBlockByHash f.tst.blockchain h, none)) ∧
      (f.GetTd h = E.GetTdByHash f.tst.blockchain h) ∧
      (f.SendTx ctx tx = ((E.AddLocal f.tst.txPool tx).1,
          { f with tst := { f.tst with txPool := (E.AddLocal f.tst.txPool tx).2 } })) ∧
      (f.GetPoolTransaction h = E.Get f.tst.txPool h) ∧
      (f.Stats = E.Stats f.tst.txPool) ∧
      (f.TxPoolContent = E.Content f.tst.txPool) ∧
      (f.SubscribeTxPreEvent ch = ((E.SubscribeTxPreEvent f.tst.txPool ch).1,
          { f with tst := { f.tst with txPool := (E.SubscribeTxPreEvent f.tst.txPool ch).2 } })) ∧
      (f.SubscribeChainEvent ch = ((E.SubscribeChainEvent f.tst.blockchain ch).1,
          { f with tst := { f.tst with
              blockchain := (E.SubscribeChainEvent f.tst.blockchain ch).2 } })) ∧
      (f.SubscribeChainHeadEvent ch = ((E.SubscribeChainHeadEvent f.tst.blockchain ch).1,
          { f with tst := { f.tst with
              blockchain := (E.SubscribeChainHeadEvent f.tst.blockchain ch).2 } })) ∧
      (f.SubscribeChainSideEvent ch = ((E.SubscribeChainSideEvent f.tst.blockchain ch).1,
          { f with tst := { f.tst with
              blockchain := (E.SubscribeChainSideEvent f.tst.blockchain ch).2 } })) ∧
      (f.SubscribeLogsEvent ch = ((E.SubscribeLogsEvent f.tst.blockchain ch).1,
          { f with tst := { f.tst with
              blockchain := (E.SubscribeLogsEvent f.tst.blockchain ch).2 } })) ∧
      (f.SubscribeRemovedLogsEvent ch = ((E.SubscribeRemovedLogsEvent f.tst.blockchain ch).1,
          { f with tst := { f.tst with
              blockchain := (E.SubscribeRemovedLogsEvent f.tst.blockchain ch).2 } })) ∧
      (f.Downloader = f.tst.protocolManager.downloader) ∧
      (f.ProtocolVersion = f.tst.TstVersion) ∧
      (f.SuggestPrice ctx = T.SuggestPrice f.gpo ctx) ∧
      (f.ChainDb = f.tst.chainDb) ∧
      (f.EventMux = f.tst.eventMux) ∧
      (f.AccountManager = f.tst.accountManager) ∧
      -- composite, light client
      (b.CurrentBlock = T.NewBlockWithHeader (D.CurrentHeader b.tst.blockchain)) ∧
      (b.SetHead n = { b with tst := { b.tst with
          protocolManager :=
            { b.tst.protocolManager with downloader := T.Cancel b.tst.protocolManager.downloader }
          blockchain := D.SetHead b.tst.blockchain n } }) ∧
      (b.HeaderByNumber ctx nr =
        if nr = T.LatestBlockNumber ∨ nr = T.PendingBlockNumber then
          (D.CurrentHeader b.tst.blockchain, none)
        else D.GetHeaderByNumberOdr b.tst.blockchain ctx (toUint64 nr)) ∧
      (b.BlockByNumber ctx nr =
        match b.HeaderByNumber ctx nr with
        | (some hd, none) => D.GetBlockByHash b.tst.blockchain ctx (T.HeaderHash hd)
        | (_, err) => (none, err)) ∧
      (b.StateAndHeaderByNumber ctx nr =
        match b.HeaderByNumber ctx nr with
        | (some hd, none) => (some (D.NewState ctx hd b.tst.odr), some hd, none)
        | (_, err) => (none, none, err)) ∧
      (b.GetReceipts ctx h
        = D.GetBlockReceipts ctx b.tst.odr h (T.GetBlockNumber b.tst.chainDb h)) ∧
      (b.GetLogs ctx h = D.GetBlockLogs ctx b.tst.odr h (T.GetBlockNumber b.tst.chainDb h)) ∧
      (b.Stats = (D.Stats b.tst.txPool, 0)) ∧
      (LesApiBackend.BloomStatus BloomTrieFrequency b =
        match b.tst.bloomIndexer with
        | none => ((0, 0), b)
        | some ix => ((BloomTrieFrequency, ix.Sections.1), b)) ∧
      (b.ServiceFilter bloomFilterThreads bloomRetrievalBatch bloomRetrievalWait ctx
        = List.replicate bloomFilterThreads.toNat
            ⟨bloomRetrievalBatch, bloomRetrievalWait, b.tst.bloomRequests⟩) ∧
      -- composite, full node
      (f.SetHead n = { f with tst := { f.tst with
          protocolManager :=
            { f.tst.protocolManager with downloader := T.Cancel f.tst.protocolManager.downloader }
          blockchain := E.SetHead f.tst.blockchain n } }) ∧
      (f.HeaderByNumber ctx nr =
        if nr = T.PendingBlockNumber then (T.BlockHeader (E.PendingBlock f.tst.miner), none)
        else if nr = T.LatestBlockNumber then
          (T.BlockHeader (E.CurrentBlock f.tst.blockchain), none)
        else (E.GetHeaderByNumber f.tst.blockchain (toUint64 nr), none)) ∧
      (f.BlockByNumber ctx nr =
        if nr = T.PendingBlockNumber then (E.PendingBlock f.tst.miner, none)
        else if nr = T.LatestBlockNumber then (E.CurrentBlock f.tst.blockchain, none)
        else (E.GetBlockByNumber f.tst.blockchain (toUint64 nr), none)) ∧
      (f.StateAndHeaderByNumber ctx nr =
        if nr = T.PendingBlockNumber then
          ((E.Pending f.tst.miner).2, T.BlockHeader (E.Pending f.tst.miner).1, none)
        else
          match f.HeaderByNumber ctx nr with
          | (some hd, none) =>
            ((E.StateAt f.tst.blockchain (T.HeaderRoot hd)).1, some hd,
              (E.StateAt f.tst.blockchain (T.HeaderRoot hd)).2)
          | (_, err) => (none, none, err)) ∧
      (f.GetReceipts ctx h
        = (E.GetBlockReceipts f.tst.chainDb h (T.GetBlockNumber f.tst.chainDb h), none)) ∧
      (f.GetLogs ctx h =
        match E.GetBlockReceipts f.tst.chainDb h (T.GetBlockNumber f.tst.chainDb h) with
        | none => (none, none)
        | some receipts => (some (receipts.map T.ReceiptLogs), none)) ∧
      (f.GetPoolNonce ctx a = (E.StateGetNonce f.tst.txPool a, none)) ∧
      (f.GetPoolTransactions =
        match E.PendingTxs f.tst.txPool with
        | (_, some err) => ([], some err)
        | (pending, none) => (pending.foldl (fun txs batch => txs ++ batch.2) [], none)) ∧
      (TstApiBackend.BloomStatus BloomBitsBlocks f
        = (BloomBitsBlocks, f.tst.bloomIndexer.Sections.1)) ∧
      (f.ServiceFilter bloomFilterThreads bloomRetrievalBatch bloomRetrievalWait ctx
        = List.replicate bloomFilterThreads.toNat
            ⟨bloomRetrievalBatch, bloomRetrievalWait, f.tst.bloomRequests⟩) ∧
      -- the methods that do something of their own
      (b.ProtocolVersion = b.tst.LesVersion.map (fun v => toInt64 (v + 10000))) ∧
      (b.GetEVM ctx msg state header vmCfg
        = ((T.NewEVM (D.NewEVMContext msg header b.tst.blockchain)
              (T.SetBalance state (T.MessageFrom msg) T.MaxBig256) b.tst.chainConfig vmCfg,
            T.StateError, none),
           T.SetBalance state (T.MessageFrom msg) T.MaxBig256)) ∧
      (f.GetEVM ctx msg state header vmCfg
        = ((T.NewEVM (E.NewEVMContext msg header f.tst.blockchain)
              (T.SetBalance state (T.MessageFrom msg) T.MaxBig256) f.tst.chainConfig vmCfg,
            fun _ => none, none),
           T.SetBalance state (T.MessageFrom msg) T.MaxBig256)) :=
  ⟨rfl, rfl, rfl, rfl, rfl, rfl, rfl, rfl, rfl, rfl, rfl, rfl, rfl, rfl, rfl, rfl, rfl, rfl,
    rfl, rfl, rfl, rfl, rfl, rfl, rfl, rfl, rfl, rfl, rfl, rfl, rfl, rfl, rfl, rfl, rfl, rfl,
    rfl, rfl, rfl, rfl, rfl, rfl, rfl, rfl, rfl, rfl, rfl, rfl, rfl, rfl, rfl, rfl, rfl, rfl,
    rfl, rfl, rfl, rfl, rfl, rfl, rfl, rfl, rfl⟩

/-! ### The peer set -/

theorem PeerSet.contains_iff (ps : PeerSet) (id : Nat) :
    ps.contains id = true ↔ ∃ q ∈ ps.peers, q.id = id := by
  simp [PeerSet.contains]

theorem PeerSet.bestOf_eq_none (l : List Peer) : PeerSet.bestOf l = none ↔ l = [] := by
  cases l with
  | nil => simp [PeerSet.bestOf]
  | cons p rest =>
    simp only [PeerSet.bestOf]
    cases PeerSet.bestOf rest with
    | none => simp
    | some q => by_cases h : p.td < q.td <;> simp [h]

theorem PeerSet.bestOf_max (l : List Peer) (b : Peer) (hb : PeerSet.bestOf l = some b) :
    b ∈ l ∧ ∀ q ∈ l, q.td ≤ b.td := by
  induction l generalizing b with
  | nil => simp [PeerSet.bestOf] at hb
  | cons p rest ih =>
    simp only [PeerSet.bestOf] at hb
    cases hr : PeerSet.bestOf rest with
    | none =>
      rw [hr] at hb
      have hnil : rest = [] := (PeerSet.bestOf_eq_none rest).1 hr
      simp only [Option.some.injEq] at hb
      subst hb; subst hnil
      simp
    | some q0 =>
      rw [hr] at hb
      obtain ⟨hmem, hmax⟩ := ih q0 hr
      by_cases hlt : p.td < q0.td
      · simp only [hlt, if_true, Option.some.injEq] at hb
        subst hb
        refine ⟨List.mem_cons_of_mem _ hmem, ?_⟩
        intro q hq
        rcases List.mem_cons.1 hq with h | h
        · subst h; omega
        · exact hmax q h
      · simp only [hlt, if_false, Option.some.injEq] at hb
        subst hb
        refine ⟨List.mem_cons_self _ _, ?_⟩
        intro q hq
        rcases List.mem_cons.1 hq with h | h
        · subst h; exact Nat.le_refl _
        · have := hmax q h; omega

/-- C6: `register(p)` fails with AlreadyRegistered iff a peer with the id of `p`
is in the set and otherwise appends `p`; `unregister(id)` fails with NotFound
iff no peer has that id and otherwise removes exactly the peers with that id; a
failed call leaves the set unchanged; `bestPeer()` is none iff the set is empty
and otherwise a member whose total difficulty is the maximum over the set. -/
theorem PeerSet.contract (ps : PeerSet) (p : Peer) (id : Nat) :
    ((ps.register p).1 = some .AlreadyRegistered ↔ ∃ q ∈ ps.peers, q.id = p.id) ∧
      ((ps.register p).1 = none ↔ ¬ ∃ q ∈ ps.peers, q.id = p.id) ∧
      ((ps.register p).1 = none → (ps.register p).2.peers = ps.peers ++ [p]) ∧
      ((ps.register p).1 ≠ none → (ps.register p).2 = ps) ∧
      ((ps.unregister id).1 = some .NotFound ↔ ¬ ∃ q ∈ ps.peers, q.id = id) ∧
      ((ps.unregister id).1 = none ↔ ∃ q ∈ ps.peers, q.id = id) ∧
      ((ps.unregister id).1 = none →
        ∀ q, q ∈ (ps.unregister id).2.peers ↔ q ∈ ps.peers ∧ q.id ≠ id) ∧
      ((ps.unregister id).1 ≠ none → (ps.unregister id).2 = ps) ∧
      (ps.bestPeer = none ↔ ps.peers = []) ∧
      (∀ b, ps.bestPeer = some b → b ∈ ps.peers ∧ ∀ q ∈ ps.peers, q.td ≤ b.td) := by
  have hreg := PeerSet.contains_iff ps p.id
  have hun := PeerSet.contains_iff ps id
  refine ⟨?_, ?_, ?_, ?_, ?_, ?_, ?_, ?_, ?_, ?_⟩
  · rw [← hreg]; unfold PeerSet.register
    by_cases h : ps.contains p.id = true <;> simp [h]
  · rw [← hreg]; unfold PeerSet.register
    by_cases h : ps.contains p.id = true <;> simp [h]
  · unfold PeerSet.register
    by_cases h : ps.contains p.id = true <;> simp [h]
  · unfold PeerSet.register
    by_cases h : ps.contains p.id = true <;> simp [h]
  · rw [← hun]; unfold PeerSet.unregister
    by_cases h : ps.contains id = true <;> simp [h]
  · rw [← hun]; unfold PeerSet.unregister
    by_cases h : ps.contains id = true <;> simp [h]
  · unfold PeerSet.unregister
    by_cases h : ps.contains id = true <;> simp [h]
  · unfold PeerSet.unregister
    by_cases h : ps.contains id = true <;> simp [h]
  · exact PeerSet.bestOf_eq_none ps.peers
  · intro b hb; exact PeerSet.bestOf_max ps.peers b hb

/-- The contract of C6 at a set of two peers: registering a third peer, removing
the first, and the best of the two. -/
theorem PeerSet.contract_witness :
    (PeerSet.register ⟨[⟨1, 2, 0, 50, 2, 0⟩, ⟨2, 2, 0, 70, 1, 0⟩]⟩ ⟨3, 2, 0, 10, 1, 0⟩).2.peers
        = [⟨1, 2, 0, 50, 2, 0⟩, ⟨2, 2, 0, 70, 1, 0⟩, ⟨3, 2, 0, 10, 1, 0⟩] ∧
      (∀ q, q ∈ (PeerSet.unregister ⟨[⟨1, 2, 0, 50, 2, 0⟩, ⟨2, 2, 0, 70, 1, 0⟩]⟩ 1).2.peers ↔
        q ∈ [(⟨1, 2, 0, 50, 2, 0⟩ : Peer), ⟨2, 2, 0, 70, 1, 0⟩] ∧ q.id ≠ 1) ∧
      ((⟨2, 2, 0, 70, 1, 0⟩ : Peer) ∈ [(⟨1, 2, 0, 50, 2, 0⟩ : Peer), ⟨2, 2, 0, 70, 1, 0⟩] ∧
        ∀ q ∈ [(⟨1, 2, 0, 50, 2, 0⟩ : Peer), ⟨2, 2, 0, 70, 1, 0⟩], q.td ≤ 70) :=
  have c := PeerSet.contract ⟨[⟨1, 2, 0, 50, 2, 0⟩, ⟨2, 2, 0, 70, 1, 0⟩]⟩ ⟨3, 2, 0, 10, 1, 0⟩ 1
  ⟨c.2.2.1 (by decide), c.2.2.2.2.2.2.1 (by decide), c.2.2.2.2.2.2.2.2.2 ⟨2, 2, 0, 70, 1, 0⟩ (by decide)⟩

/-! ### The request distributor -/

theorem RequestDistributor.preferred_iff (a b : Peer) :
    RequestDistributor.preferred a b = true ↔
      a.inFlight < b.inFlight ∨ (a.inFlight = b.inFlight ∧ b.capacity < a.capacity) := by
  simp [RequestDistributor.preferred]

theorem RequestDistributor.pickBest_eq_none (l : List Peer) :
    RequestDistributor.pickBest l = none ↔ l = [] := by
  cases l with
  | nil => simp [RequestDistributor.pickBest]
  | cons p rest =>
    simp only [RequestDistributor.pickBest]
    cases RequestDistributor.pickBest rest with
    | none => simp
    | some q => by_cases h : RequestDistributor.preferred q p = true <;> simp [h]

theorem RequestDistributor.pickBest_best (l : List Peer) (m : Peer)
    (hm : RequestDistributor.pickBest l = some m) :
    m ∈ l ∧ ∀ q ∈ l, ¬ RequestDistributor.preferred q m = true := by
  induction l generalizing m with
  | nil => simp [RequestDistributor.pickBest] at hm
  | cons p rest ih =>
    simp only [RequestDistributor.pickBest] at hm
    cases hr : RequestDistributor.pickBest rest with
    | none =>
      rw [hr] at hm
      have hnil : rest = [] := (RequestDistributor.pickBest_eq_none rest).1 hr
      simp only [Option.some.injEq] at hm
      subst hm; subst hnil
      refine ⟨List.mem_cons_self _ _, ?_⟩
      intro q hq
      simp only [List.mem_singleton] at hq
      subst hq
      rw [RequestDistributor.preferred_iff]; omega
    | some q0 =>
      rw [hr] at hm
      dsimp only at hm
      obtain ⟨hmem, hbest⟩ := ih q0 hr
      by_cases hp : RequestDistributor.preferred q0 p = true
      · rw [if_pos hp] at hm
        simp only [Option.some.injEq] at hm
        subst hm
        refine ⟨List.mem_cons_of_mem _ hmem, ?_⟩
        intro q hq
        rcases List.mem_cons.1 hq with h | h
        · subst h
          rw [RequestDistributor.preferred_iff] at hp ⊢; omega
        · exact hbest q h
      · rw [if_neg hp] at hm
        simp only [Option.some.injEq] at hm
        subst hm
        refine ⟨List.mem_cons_self _ _, ?_⟩
        intro q hq
        rcases List.mem_cons.1 hq with h | h
        · subst h
          rw [RequestDistributor.preferred_iff]; omega
        · have h1 := hbest q h
          rw [RequestDistributor.preferred_iff] at hp h1 ⊢; omega

theorem RequestDistributor.mem_candidates (ps : PeerSet) (req : DistributedRequest) (q : Peer) :
    q ∈ RequestDistributor.candidates ps req ↔
      q ∈ ps.peers ∧ req.canPeer q = true ∧ q.inFlight < q.capacity := by
  simp [RequestDistributor.candidates, RequestDistributor.hasSpare]

theorem RequestDistributor.selectPeer_spec (ps : PeerSet) (req : DistributedRequest) (m : Peer)
    (hm : RequestDistributor.selectPeer ps req = some m) :
    (m ∈ ps.peers ∧ req.canPeer m = true ∧ m.inFlight < m.capacity) ∧
      ∀ q ∈ ps.peers, req.canPeer q = true → q.inFlight < q.capacity →
        m.inFlight ≤ q.inFlight ∧ (q.inFlight = m.inFlight → q.capacity ≤ m.capacity) := by
  obtain ⟨hmem, hbest⟩ := RequestDistributor.pickBest_best _ m hm
  refine ⟨(RequestDistributor.mem_candidates ps req m).1 hmem, ?_⟩
  intro q hq hc hs
  have h1 := hbest q ((RequestDistributor.mem_candidates ps req q).2 ⟨hq, hc, hs⟩)
  rw [RequestDistributor.preferred_iff] at h1
  constructor
  · omega
  · intro; omega

theorem RequestDistributor.tryDistribute_dispatched (st st1 : DistState)
    (req : DistributedRequest) (deadline : Nat) (h : Handle)
    (hd : RequestDistributor.tryDistribute st req deadline = (.dispatched h, st1)) :
    st.now < deadline ∧ st.quit = false ∧ h.reqId = req.id ∧
      RequestDistributor.selectPeer st.peers req = some h.peer ∧
      st1 = { st with peers := st.peers.markBusy h.peer.id,
                      sent := st.sent ++ [(req.id, h.peer.id)] } := by
  unfold RequestDistributor.tryDistribute at hd
  by_cases h1 : deadline ≤ st.now
  · simp [h1] at hd
  · by_cases h2 : st.quit = true
    · simp [h1, h2] at hd
    · cases hs : RequestDistributor.selectPeer st.peers req with
      | none => simp [h1, h2, hs] at hd
      | some p =>
        rw [if_neg h1, if_neg h2] at hd
        simp only [hs, Prod.mk.injEq, Attempt.dispatched.injEq] at hd
        obtain ⟨hh, hst⟩ := hd
        subst hh
        refine ⟨by omega, by simpa using h2, rfl, rfl, hst.symm⟩

/-- C4: `distribute` called with a deadline of 0 fails with NoPeersAvailable at
once, whatever the request, the peer set and the events that would follow: the
distributor state after the call (peer set with its request counts, send log,
clock) is the state before it. -/
theorem RequestDistributor.distribute_deadline_zero (evs : List Event) (st : DistState)
    (req : DistributedRequest) :
    RequestDistributor.distribute evs st req 0 = (.failed .NoPeersAvailable, st) := by
  simp [RequestDistributor.distribute, RequestDistributor.distributeLoop,
    RequestDistributor.tryDistribute]

theorem PeerSet.release_markBusy (ps : PeerSet) (id : Nat) :
    (ps.markBusy id).release id = ps := by
  cases ps with
  | mk l =>
    simp only [PeerSet.markBusy, PeerSet.release, PeerSet.mk.injEq]
    induction l with
    | nil => rfl
    | cons q rest ih =>
      simp only [List.map_cons, List.cons.injEq]
      refine ⟨?_, ih⟩
      by_cases hq : q.id = id
      · subst hq; cases q; simp
      · simp [hq]

theorem RequestDistributor.tryDistribute_cases (st : DistState) (req : DistributedRequest)
    (deadline : Nat) :
    (∃ e, RequestDistributor.tryDistribute st req deadline = (.failed e, st)) ∨
      RequestDistributor.tryDistribute st req deadline = (.blocked, st) ∨
      ∃ p, RequestDistributor.selectPeer st.peers req = some p ∧
        RequestDistributor.tryDistribute st req deadline
          = (.dispatched ⟨req.id, p⟩,
              { st with peers := st.peers.markBusy p.id, sent := st.sent ++ [(req.id, p.id)] }) := by
  unfold RequestDistributor.tryDistribute
  by_cases h1 : deadline ≤ st.now
  · left; exact ⟨.NoPeersAvailable, by rw [if_pos h1]⟩
  · by_cases h2 : st.quit = true
    · left; exact ⟨.Canceled, by rw [if_neg h1, if_pos h2]⟩
    · rw [if_neg h1, if_neg h2]
      cases hs : RequestDistributor.selectPeer st.peers req with
      | none => right; left; rfl
      | some p => right; right; exact ⟨p, rfl, rfl⟩

theorem RetrieveManager.selected_fresh (P : PeerSet) (req : DistributedRequest)
    (excluded : List Nat) (p : Peer)
    (hs : RequestDistributor.selectPeer P (RetrieveManager.restrict req excluded) = some p) :
    p ∈ P.peers ∧ req.canPeer p = true ∧ p.id ∉ excluded := by
  obtain ⟨⟨hm, hc, _⟩, _⟩ := RequestDistributor.selectPeer_spec _ _ _ hs
  simp only [RetrieveManager.restrict, Bool.and_eq_true, Bool.not_eq_true', List.contains_eq_any_beq,
    List.any_eq_false, beq_iff_eq] at hc
  refine ⟨hm, hc.1, ?_⟩
  intro hin
  exact hc.2 p.id hin rfl

theorem RequestDistributor.absorb_now (st : DistState) (ev : Event) :
    (RequestDistributor.absorb st ev).now = st.now + 1 := by
  cases ev <;> rfl

theorem RequestDistributor.elapse_now (n : Nat) (evs : List Event) (st : DistState) :
    (RequestDistributor.elapse n evs st).now = st.now + n := by
  induction n generalizing evs st with
  | zero => rfl
  | succ n ih =>
    show (RequestDistributor.elapse n evs.tail _).now = _
    rw [ih, RequestDistributor.absorb_now]
    omega

theorem RequestDistributor.distributeLoop_at (left : Nat) (evs : List Event) (st : DistState)
    (req : DistributedRequest) (deadline : Nat) :
    ∃ k, k ≤ left ∧
      (∀ j, j < k →
        RequestDistributor.tryDistribute (RequestDistributor.elapse j evs st) req deadline
          = (.blocked, RequestDistributor.elapse j evs st)) ∧
      ((∃ e, RequestDistributor.distributeLoop left evs st req deadline
            = (.failed e, RequestDistributor.elapse k evs st)) ∨
        ∃ p, RequestDistributor.selectPeer (RequestDistributor.elapse k evs st).peers req = some p ∧
          RequestDistributor.tryDistribute (RequestDistributor.elapse k evs st) req deadline
            = (.dispatched ⟨req.id, p⟩,
                { RequestDistributor.elapse k evs st with
                  peers := (RequestDistributor.elapse k evs st).peers.markBusy p.id
                  sent := (RequestDistributor.elapse k evs st).sent ++ [(req.id, p.id)] }) ∧
          RequestDistributor.distributeLoop left evs st req deadline
            = (.handle ⟨req.id, p⟩,
                { RequestDistributor.elapse k evs st with
                  peers := (RequestDistributor.elapse k evs st).peers.markBusy p.id
                  sent := (RequestDistributor.elapse k evs st).sent ++ [(req.id, p.id)] })) := by
  induction left generalizing evs st with
  | zero =>
    refine ⟨0, Nat.le_refl _, fun j hj => absurd hj (Nat.not_lt_zero j), ?_⟩
    unfold RequestDistributor.distributeLoop
    rcases RequestDistributor.tryDistribute_cases st req deadline with ⟨e, h⟩ | h | ⟨p, hs, h⟩
    · rw [h]; exact Or.inl ⟨e, rfl⟩
    · rw [h]; exact Or.inl ⟨.NoPeersAvailable, rfl⟩
    · rw [h]; exact Or.inr ⟨p, hs, h, rfl⟩
  | succ n ih =>
    rcases RequestDistributor.tryDistribute_cases st req deadline with ⟨e, h⟩ | h | ⟨p, hs, h⟩
    · refine ⟨0, Nat.zero_le _, fun j hj => absurd hj (Nat.not_lt_zero j), ?_⟩
      unfold RequestDistributor.distributeLoop
      rw [h]; exact Or.inl ⟨e, rfl⟩
    · obtain ⟨k, hk, hb, hres⟩ := ih evs.tail (RequestDistributor.absorb st (evs.headD .idle))
      refine ⟨k + 1, Nat.succ_le_succ hk, ?_, ?_⟩
      · intro j hj
        cases j with
        | zero => exact h
        | succ j => exact hb j (Nat.lt_of_succ_lt_succ hj)
      · have hstep : RequestDistributor.distributeLoop (n + 1) evs st req deadline
            = RequestDistributor.distributeLoop n evs.tail
                (RequestDistributor.absorb st (evs.headD .idle)) req deadline := by
          rw [RequestDistributor.distributeLoop, h]
        rw [hstep]
        exact hres
    · refine ⟨0, Nat.zero_le _, fun j hj => absurd hj (Nat.not_lt_zero j), ?_⟩
      unfold RequestDistributor.distributeLoop
      rw [h]; exact Or.inr ⟨p, hs, h, rfl⟩

/-- C7: when `distribute` hands out a handle, it has waited
`st1.now - st.now` ticks, finding no candidate at any of them, and has made the
dispatch in the state the distributor had reached by then from `st` through the
events `evs`: in that state the chosen peer was registered, satisfied `canPeer`
and had spare capacity, and every registered peer satisfying `canPeer` with
spare capacity had at least as many requests in flight and, if it had equally
many, at most the declared capacity of the chosen peer; the state returned is
that state with the chosen peer marked busy and the send logged. -/
theorem RequestDistributor.dispatch_prefers (evs : List Event) (st st1 : DistState)
    (req : DistributedRequest) (deadline : Nat) (h : Handle)
    (hd : RequestDistributor.distribute evs st req deadline = (.handle h, st1)) :
    RequestDistributor.tryDistribute (RequestDistributor.elapse (st1.now - st.now) evs st) req
        deadline = (.dispatched h, st1) ∧
      (∀ j, j < st1.now - st.now →
        RequestDistributor.tryDistribute (RequestDistributor.elapse j evs st) req deadline
          = (.blocked, RequestDistributor.elapse j evs st)) ∧
      (h.peer ∈ (RequestDistributor.elapse (st1.now - st.now) evs st).peers.peers ∧
        req.canPeer h.peer = true ∧ h.peer.inFlight < h.peer.capacity) ∧
      (∀ q ∈ (RequestDistributor.elapse (st1.now - st.now) evs st).peers.peers,
        req.canPeer q = true → q.inFlight < q.capacity →
        h.peer.inFlight ≤ q.inFlight ∧
          (q.inFlight = h.peer.inFlight → q.capacity ≤ h.peer.capacity)) ∧
      st1 = { RequestDistributor.elapse (st1.now - st.now) evs st with
              peers := (RequestDistributor.elapse (st1.now - st.now) evs st).peers.markBusy
                h.peer.id
              sent := (RequestDistributor.elapse (st1.now - st.now) evs st).sent
                ++ [(req.id, h.peer.id)] } := by
  unfold RequestDistributor.distribute at hd
  obtain ⟨k, _, hb, hres⟩ :=
    RequestDistributor.distributeLoop_at (deadline - st.now) evs st req deadline
  rcases hres with ⟨e, he⟩ | ⟨p, hs, ht, hp⟩
  · rw [he] at hd
    simp at hd
  · rw [hp] at hd
    simp only [Prod.mk.injEq, DistResult.handle.injEq] at hd
    obtain ⟨hh, hst⟩ := hd
    have hnow : st1.now = st.now + k := by
      rw [← hst]
      exact RequestDistributor.elapse_now k evs st
    have hk : st1.now - st.now = k := by omega
    rw [hk]
    subst hh
    obtain ⟨hm, hq⟩ := RequestDistributor.selectPeer_spec _ _ _ hs
    exact ⟨by rw [ht, hst], hb, hm, hq, hst.symm⟩

/-- C7 at work. On `samplePeers` at time 0: A (id 1) with one request in flight
loses to B and C with none, and C (capacity 3) wins over B (capacity 1), so
the request goes to C at once. On an empty peer set with `sampleArrivals`:
nothing can be dispatched for two ticks, then C has registered and gets the
request at time 2. -/
theorem RequestDistributor.dispatch_prefers_witness :
    (RequestDistributor.distribute [] sampleDist sampleRequest 5
        = (.handle ⟨7, ⟨3, 2, 0, 60, 3, 0⟩⟩,
            { peers := ⟨[⟨1, 2, 0, 50, 2, 1⟩, ⟨2, 2, 0, 70, 1, 0⟩, ⟨3, 2, 0, 60, 3, 1⟩]⟩
              now := 0, quit := false, sent := [(7, 3)] })) ∧
      (RequestDistributor.distribute sampleArrivals sampleEmptyDist sampleRequest 5
        = (.handle ⟨7, ⟨3, 2, 0, 60, 3, 0⟩⟩,
            { peers := ⟨[⟨3, 2, 0, 60, 3, 1⟩]⟩, now := 2, quit := false, sent := [(7, 3)] })) ∧
      (RequestDistributor.tryDistribute
          (RequestDistributor.elapse 2 sampleArrivals sampleEmptyDist) sampleRequest 5
        = (.dispatched ⟨7, ⟨3, 2, 0, 60, 3, 0⟩⟩,
            { peers := ⟨[⟨3, 2, 0, 60, 3, 1⟩]⟩, now := 2, quit := false, sent := [(7, 3)] })) ∧
      (∀ j, j < 2 →
        RequestDistributor.tryDistribute
            (RequestDistributor.elapse j sampleArrivals sampleEmptyDist) sampleRequest 5
          = (.blocked, RequestDistributor.elapse j sampleArrivals sampleEmptyDist)) ∧
      (∀ q ∈ sampleDist.peers.peers, sampleRequest.canPeer q = true → q.inFlight < q.capacity →
        0 ≤ q.inFlight ∧ (q.inFlight = 0 → q.capacity ≤ 3)) :=
  ⟨by decide, by decide,
    (RequestDistributor.dispatch_prefers sampleArrivals sampleEmptyDist
      { peers := ⟨[⟨3, 2, 0, 60, 3, 1⟩]⟩, now := 2, quit := false, sent := [(7, 3)] }
      sampleRequest 5 ⟨7, ⟨3, 2, 0, 60, 3, 0⟩⟩ (by decide)).1,
    (RequestDistributor.dispatch_prefers sampleArrivals sampleEmptyDist
      { peers := ⟨[⟨3, 2, 0, 60, 3, 1⟩]⟩, now := 2, quit := false, sent := [(7, 3)] }
      sampleRequest 5 ⟨7, ⟨3, 2, 0, 60, 3, 0⟩⟩ (by decide)).2.1,
    (RequestDistributor.dispatch_prefers [] sampleDist
      { peers := ⟨[⟨1, 2, 0, 50, 2, 1⟩, ⟨2, 2, 0, 70, 1, 0⟩, ⟨3, 2, 0, 60, 3, 1⟩]⟩
        now := 0, quit := false, sent := [(7, 3)] }
      sampleRequest 5 ⟨7, ⟨3, 2, 0, 60, 3, 0⟩⟩ (by decide)).2.2.2.1⟩


/-! ### The retrieve manager -/

theorem RetrieveManager.derived_markBusy (U : List Peer) (ps : PeerSet) (id : Nat)
    (hD : RetrieveManager.Derived U ps) : RetrieveManager.Derived U (ps.markBusy id) := by
  intro p hp
  simp only [PeerSet.markBusy, List.mem_map] at hp
  obtain ⟨p0, hp0, rfl⟩ := hp
  obtain ⟨q, hq, n, hn⟩ := hD p0 hp0
  by_cases h : p0.id = id
  · rw [if_pos h]
    subst hn
    exact ⟨q, hq, _, rfl⟩
  · rw [if_neg h]
    exact ⟨q, hq, n, hn⟩

theorem RetrieveManager.derived_release (U : List Peer) (ps : PeerSet) (id : Nat)
    (hD : RetrieveManager.Derived U ps) : RetrieveManager.Derived U (ps.release id) := by
  intro p hp
  simp only [PeerSet.release, List.mem_map] at hp
  obtain ⟨p0, hp0, rfl⟩ := hp
  obtain ⟨q, hq, n, hn⟩ := hD p0 hp0
  by_cases h : p0.id = id
  · rw [if_pos h]
    subst hn
    exact ⟨q, hq, _, rfl⟩
  · rw [if_neg h]
    exact ⟨q, hq, n, hn⟩

theorem RetrieveManager.derived_register (U : List Peer) (ps : PeerSet) (p : Peer)
    (hp : p ∈ U) (hD : RetrieveManager.Derived U ps) :
    RetrieveManager.Derived U (ps.register p).2 := by
  intro x hx
  unfold PeerSet.register at hx
  by_cases h : ps.contains p.id = true
  · rw [if_pos h] at hx
    exact hD x hx
  · rw [if_neg h] at hx
    simp only [List.mem_append, List.mem_singleton] at hx
    rcases hx with hx | hx
    · exact hD x hx
    · subst hx
      exact ⟨x, hp, x.inFlight, rfl⟩

theorem RetrieveManager.derived_unregister (U : List Peer) (ps : PeerSet) (id : Nat)
    (hD : RetrieveManager.Derived U ps) :
    RetrieveManager.Derived U (ps.unregister id).2 := by
  intro x hx
  unfold PeerSet.unregister at hx
  by_cases h : ps.contains id = true
  · rw [if_pos h] at hx
    exact hD x (List.mem_of_mem_filter hx)
  · rw [if_neg h] at hx
    exact hD x hx

theorem RetrieveManager.derived_absorb (U : List Peer) (st : DistState) (ev : Event)
    (hE : ∀ p, ev = .register p → p ∈ U) (hD : RetrieveManager.Derived U st.peers) :
    RetrieveManager.Derived U (RequestDistributor.absorb st ev).peers := by
  cases ev with
  | register p => exact RetrieveManager.derived_register U st.peers p (hE p rfl) hD
  | unregister id => exact RetrieveManager.derived_unregister U st.peers id hD
  | slotFreed id => exact RetrieveManager.derived_release U st.peers id hD
  | quit => exact hD
  | idle => exact hD

theorem RetrieveManager.derived_elapse (U : List Peer) (n : Nat) (evs : List Event)
    (st : DistState) (hE : ∀ p, Event.register p ∈ evs → p ∈ U)
    (hD : RetrieveManager.Derived U st.peers) :
    RetrieveManager.Derived U (RequestDistributor.elapse n evs st).peers := by
  induction n generalizing evs st with
  | zero => exact hD
  | succ n ih =>
    show RetrieveManager.Derived U
      (RequestDistributor.elapse n evs.tail (RequestDistributor.absorb st (evs.headD .idle))).peers
    apply ih
    · intro p hp
      exact hE p (List.mem_of_mem_tail hp)
    · apply RetrieveManager.derived_absorb U st _ _ hD
      intro p hp
      cases evs with
      | nil => cases hp
      | cons e rest =>
        apply hE
        simp only [List.headD_cons] at hp
        rw [hp]
        exact List.mem_cons_self _ _

theorem RetrieveManager.distribute_cases (U : List Peer) (evs : List Event) (st : DistState)
    (req : DistributedRequest) (excluded : List Nat) (deadline : Nat)
    (hD : RetrieveManager.Derived U st.peers) (hE : ∀ p, Event.register p ∈ evs → p ∈ U) :
    (∃ e d, RequestDistributor.distribute evs st (RetrieveManager.restrict req excluded) deadline
        = (.failed e, d)) ∨
      ∃ p d, RequestDistributor.distribute evs st (RetrieveManager.restrict req excluded) deadline
          = (.handle ⟨req.id, p⟩, d) ∧
        RetrieveManager.Derived U d.peers ∧ req.canPeer p = true ∧ p.id ∉ excluded ∧
        ∃ q ∈ U, ∃ n, p = { q with inFlight := n } := by
  unfold RequestDistributor.distribute
  obtain ⟨k, _, _, hres⟩ := RequestDistributor.distributeLoop_at (deadline - st.now) evs st
    (RetrieveManager.restrict req excluded) deadline
  have hDk := RetrieveManager.derived_elapse U k evs st hE hD
  rcases hres with ⟨e, he⟩ | ⟨p, hs, _, hp⟩
  · exact Or.inl ⟨e, _, he⟩
  · obtain ⟨hmem, hcan, hfresh⟩ := RetrieveManager.selected_fresh _ req excluded p hs
    exact Or.inr ⟨p, _, hp, RetrieveManager.derived_markBusy U _ p.id hDk, hcan, hfresh,
      hDk p hmem⟩

theorem RetrieveManager.sound_bound (U : List Peer) (req : DistributedRequest)
    (attempts penalized : List Nat) (tried : List Peer)
    (hS : RetrieveManager.Sound U req attempts penalized tried) :
    attempts.length ≤ (U.map (fun q : Peer => q.id)).dedup.length := by
  obtain ⟨hN, _, hT, hC⟩ := hS
  have hsub : attempts ⊆ (U.map (fun q : Peer => q.id)).dedup := by
    intro a ha
    rw [hT] at ha
    obtain ⟨p, hp, hpa⟩ := List.mem_map.1 ha
    obtain ⟨_, q, hq, n, hn⟩ := hC p hp
    rw [List.mem_dedup]
    refine List.mem_map.2 ⟨q, hq, ?_⟩
    rw [← hpa, hn]
  exact (List.Nodup.subperm hN hsub).length_le

theorem RetrieveManager.dedup_ids_le (U : List Peer) :
    (U.map (fun q : Peer => q.id)).dedup.length ≤ U.length := by
  have h := (List.dedup_sublist (U.map (fun q : Peer => q.id))).length_le
  simpa using h

theorem RetrieveManager.sound_attempt (U : List Peer) (req : DistributedRequest)
    (attempts penalized : List Nat) (tried : List Peer) (p : Peer)
    (hS : RetrieveManager.Sound U req attempts penalized tried)
    (hnew : p.id ∉ attempts) (hcan : req.canPeer p = true)
    (hq : ∃ q ∈ U, ∃ n, p = { q with inFlight := n }) :
    RetrieveManager.Sound U req (attempts ++ [p.id]) penalized (tried ++ [p]) := by
  obtain ⟨hN, hP, hT, hC⟩ := hS
  refine ⟨?_, fun id hid => List.mem_append_left _ (hP id hid), ?_, ?_⟩
  · rw [List.nodup_append]
    refine ⟨hN, List.nodup_singleton _, ?_⟩
    intro a ha hb
    simp only [List.mem_singleton] at hb
    subst hb
    exact hnew ha
  · rw [hT]; simp
  · intro x hx
    rcases List.mem_append.1 hx with h | h
    · exact hC x h
    · simp only [List.mem_singleton] at h
      subst h
      exact ⟨hcan, hq⟩

theorem RetrieveManager.sound_penalize (U : List Peer) (req : DistributedRequest)
    (attempts penalized : List Nat) (tried : List Peer) (x : Nat)
    (hS : RetrieveManager.Sound U req (attempts ++ [x]) penalized tried) :
    RetrieveManager.Sound U req (attempts ++ [x]) (penalized ++ [x]) tried := by
  obtain ⟨hN, hP, hT, hC⟩ := hS
  refine ⟨hN, ?_, hT, hC⟩
  intro id hid
  rcases List.mem_append.1 hid with h | h
  · exact hP id h
  · exact List.mem_append_right _ h

theorem RetrieveManager.retrieveLoop_inv {Resp : Type} (net : Nat → Nat → WaitOutcome Resp)
    (validate : Peer → Resp → Bool) (req : DistributedRequest) (deadline attemptTimeout : Nat)
    (U : List Peer) (rounds : Nat) (evs : List Event) (rs : RetrieveState)
    (hD : RetrieveManager.Derived U rs.dist.peers)
    (hE : ∀ p, Event.register p ∈ evs → p ∈ U)
    (hex : ∀ a, a ∈ rs.attempts → a ∈ rs.excluded)
    (hS : RetrieveManager.Sound U req rs.attempts rs.penalized rs.tried)
    (hfuel : U.length < rs.attempts.length + rounds) :
    (RetrieveManager.retrieveLoop net validate req deadline attemptTimeout rounds evs rs).1
        ≠ .Unfinished ∧
      RetrieveManager.Sound U req
        (RetrieveManager.retrieveLoop net validate req deadline attemptTimeout rounds evs
          rs).2.attempts
        (RetrieveManager.retrieveLoop net validate req deadline attemptTimeout rounds evs
          rs).2.penalized
        (RetrieveManager.retrieveLoop net validate req deadline attemptTimeout rounds evs
          rs).2.tried := by
  induction rounds generalizing evs rs with
  | zero =>
    have h1 := RetrieveManager.sound_bound U req _ _ _ hS
    have h2 := RetrieveManager.dedup_ids_le U
    omega
  | succ n ih =>
    unfold RetrieveManager.retrieveLoop
    rcases RetrieveManager.distribute_cases U evs rs.dist req rs.excluded deadline hD hE with
      ⟨e, d, hd⟩ | ⟨p, d, hd, hDd, hcan, hfresh, hq⟩
    · rw [hd]
      cases e with
      | NoPeersAvailable => exact ⟨by simp, hS⟩
      | Canceled => exact ⟨by simp, hS⟩
    · rw [hd]
      have hnew : p.id ∉ rs.attempts := fun h => hfresh (hex _ h)
      have hS1 := RetrieveManager.sound_attempt U req _ _ _ p hS hnew hcan hq
      have hS2 := RetrieveManager.sound_penalize U req _ _ _ _ hS1
      have hE1 : ∀ x, Event.register x ∈ evs.drop (d.now - rs.dist.now) → x ∈ U :=
        fun x hx => hE x (List.mem_of_mem_drop hx)
      have hE2 : ∀ t x, Event.register x ∈ (evs.drop (d.now - rs.dist.now)).drop t → x ∈ U :=
        fun t x hx => hE1 x (List.mem_of_mem_drop hx)
      have hD1 : ∀ t, RetrieveManager.Derived U
          ((RequestDistributor.elapse t (evs.drop (d.now - rs.dist.now)) d).peers.release p.id) :=
        fun t => RetrieveManager.derived_release U _ p.id
          (RetrieveManager.derived_elapse U t _ d hE1 hDd)
      have hex1 : ∀ a, a ∈ rs.attempts ++ [p.id] → a ∈ p.id :: rs.excluded := by
        intro a ha
        rcases List.mem_append.1 ha with h | h
        · exact List.mem_cons_of_mem _ (hex a h)
        · simp only [List.mem_singleton] at h
          subst h
          exact List.mem_cons_self _ _
      have hfuel1 : U.length < (rs.attempts ++ [p.id]).length + n := by
        simp only [List.length_append, List.length_singleton]
        omega
      dsimp only
      cases hnet : net rs.attempts.length p.id with
      | canceled => exact ⟨by simp, hS1⟩
      | timeout =>
        exact ih _ _ (hD1 _) (hE2 _) hex1 hS2 hfuel1
      | response r ticks =>
        dsimp only
        by_cases hv : validate p r = true
        · rw [if_pos hv]
          exact ⟨by simp, hS1⟩
        · rw [if_neg hv]
          exact ih _ _ (hD1 _) (hE2 _) hex1 hS2 hfuel1

/-- C5: whatever happens to the peer set while it runs (the events `evs`),
`retrieve` ends in Success, Canceled or NoPeersAvailable, never with its round
budget used up; no peer is attempted twice, so a peer whose attempt failed (the
penalized ones) was attempted exactly once; the attempts are the peers tried,
each of which satisfied `canPeer` when the distributor chose it and is, up to
its running request count, a peer that was registered at the start or
registered during the retrieval; the number of attempts is at most the number
of distinct such peers and, `canPeer` not depending on the running request
count, at most the number of distinct ones among them that satisfy
`canPeer`. -/
theorem RetrieveManager.retrieve_bounded {Resp : Type} (net : Nat → Nat → WaitOutcome Resp)
    (validate : Peer → Resp → Bool) (evs : List Event) (st : DistState)
    (req : DistributedRequest) (deadline attemptTimeout : Nat) :
    ((∃ r, (RetrieveManager.retrieve net validate evs st req deadline attemptTimeout).1
          = .Success r) ∨
        (RetrieveManager.retrieve net validate evs st req deadline attemptTimeout).1 = .Canceled ∨
        (RetrieveManager.retrieve net validate evs st req deadline attemptTimeout).1
          = .NoPeersAvailable) ∧
      (RetrieveManager.retrieve net validate evs st req deadline attemptTimeout).2.attempts.Nodup ∧
      (∀ id ∈ (RetrieveManager.retrieve net validate evs st req deadline
          attemptTimeout).2.penalized,
        (RetrieveManager.retrieve net validate evs st req deadline
          attemptTimeout).2.attempts.count id = 1) ∧
      (RetrieveManager.retrieve net validate evs st req deadline attemptTimeout).2.attempts
        = (RetrieveManager.retrieve net validate evs st req deadline attemptTimeout).2.tried.map
            (fun p : Peer => p.id) ∧
      (∀ p ∈ (RetrieveManager.retrieve net validate evs st req deadline attemptTimeout).2.tried,
        req.canPeer p = true ∧
          ∃ q ∈ RetrieveManager.connected st evs, ∃ n, p = { q with inFlight := n }) ∧
      (RetrieveManager.retrieve net validate evs st req deadline attemptTimeout).2.attempts.length
        ≤ ((RetrieveManager.connected st evs).map (fun q : Peer => q.id)).dedup.length ∧
      ((∀ (q : Peer) (n : Nat), req.canPeer { q with inFlight := n } = req.canPeer q) →
        (RetrieveManager.retrieve net validate evs st req deadline
            attemptTimeout).2.attempts.length
          ≤ (((RetrieveManager.connected st evs).filter (fun q => req.canPeer q)).map
              (fun q : Peer => q.id)).dedup.length) := by
  have hD : RetrieveManager.Derived (RetrieveManager.connected st evs) st.peers := by
    intro p hp
    exact ⟨p, List.mem_append_left _ hp, p.inFlight, rfl⟩
  have hE : ∀ p, Event.register p ∈ evs → p ∈ RetrieveManager.connected st evs := by
    intro p hp
    exact List.mem_append_right _ (List.mem_filterMap.2 ⟨_, hp, rfl⟩)
  have hS0 : RetrieveManager.Sound (RetrieveManager.connected st evs) req [] [] [] := by
    refine ⟨List.nodup_nil, ?_, rfl, ?_⟩ <;> intro a ha <;> cases ha
  obtain ⟨h1, hS⟩ := RetrieveManager.retrieveLoop_inv net validate req deadline attemptTimeout
    (RetrieveManager.connected st evs) ((RetrieveManager.connected st evs).length + 1) evs
    { dist := st, excluded := [], attempts := [], penalized := [], tried := [] } hD hE
    (by intro a ha; cases ha) hS0 (by simp)
  have hB := RetrieveManager.sound_bound _ _ _ _ _ hS
  obtain ⟨hN, hP, hT, hC⟩ := hS
  refine ⟨?_, hN, ?_, hT, hC, hB, ?_⟩
  · unfold RetrieveManager.retrieve
    cases hres : (RetrieveManager.retrieveLoop net validate req deadline attemptTimeout
        ((RetrieveManager.connected st evs).length + 1) evs
        { dist := st, excluded := [], attempts := [], penalized := [], tried := [] }).1 with
    | Success r => exact Or.inl ⟨r, rfl⟩
    | Canceled => exact Or.inr (Or.inl rfl)
    | NoPeersAvailable => exact Or.inr (Or.inr rfl)
    | Unfinished => exact absurd hres h1
  · intro id hid
    exact List.count_eq_one_of_mem hN (hP id hid)
  · intro hstable
    have hsub : (RetrieveManager.retrieve net validate evs st req deadline
          attemptTimeout).2.attempts
        ⊆ (((RetrieveManager.connected st evs).filter (fun q => req.canPeer q)).map
            (fun q : Peer => q.id)).dedup := by
      intro a ha
      have ha1 := ha
      rw [show (RetrieveManager.retrieve net validate evs st req deadline
          attemptTimeout).2.attempts = _ from hT] at ha1
      obtain ⟨p, hp, hpa⟩ := List.mem_map.1 ha1
      obtain ⟨hcan, q, hq, n, hn⟩ := hC p hp
      rw [List.mem_dedup]
      refine List.mem_map.2 ⟨q, List.mem_filter.2 ⟨hq, ?_⟩, ?_⟩
      · rw [hn, hstable] at hcan
        simpa using hcan
      · rw [← hpa, hn]
    exact (List.Nodup.subperm hN hsub).length_le

/-- C5 at work: no peer is registered when the retrieval starts; C registers in
the second tick and is tried at time 2 but never answers, B registers
meanwhile and answers 42: Success after two attempts, only C penalized, and
the bound of two eligible peers is met. -/
theorem RetrieveManager.retrieve_bounded_witness :
    (RetrieveManager.retrieve sampleNet sampleValidate sampleArrivals sampleEmptyDist
        sampleRequest 10 1).2.attempts = [3, 2] ∧
      (RetrieveManager.retrieve sampleNet sampleValidate sampleArrivals sampleEmptyDist
        sampleRequest 10 1).2.penalized = [3] ∧
      (RetrieveManager.retrieve sampleNet sampleValidate sampleArrivals sampleEmptyDist
        sampleRequest 10 1).2.dist.now = 3 ∧
      ((RetrieveManager.connected sampleEmptyDist sampleArrivals).filter
        (fun q => sampleRequest.canPeer q)).map (fun q : Peer => q.id) = [3, 2] ∧
      (∃ r, (RetrieveManager.retrieve sampleNet sampleValidate sampleArrivals sampleEmptyDist
        sampleRequest 10 1).1 = .Success r) ∧
      (RetrieveManager.retrieve sampleNet sampleValidate sampleArrivals sampleEmptyDist
          sampleRequest 10 1).2.attempts.length
        ≤ (((RetrieveManager.connected sampleEmptyDist sampleArrivals).filter
            (fun q => sampleRequest.canPeer q)).map (fun q : Peer => q.id)).dedup.length :=
  ⟨by decide, by decide, by decide, by decide, ⟨42, rfl⟩,
    (RetrieveManager.retrieve_bounded sampleNet sampleValidate sampleArrivals sampleEmptyDist
      sampleRequest 10 1).2.2.2.2.2.2 (fun _ _ => rfl)⟩

/-! ### The chain indexer -/

/-- C8: the outcome of `processSection(i)` depends only on the chain, not on
what the indexer has stored, so two calls against an unchanged chain, the
second on the indexer state the first one left, return the same root; a
successful call stores the root it returns; and processing a later section `j`,
against any chain, leaves the stored root of the earlier section `i` as it
was. -/
theorem ChainIndexer.processSection_stable (cfg : ChainIndexer.Config)
    (chain chain1 : CanonicalChain) (st st1 : ChainIndexer.State) (i j : Nat) (hij : i < j) :
    (ChainIndexer.processSection cfg chain
        (ChainIndexer.processSection cfg chain st i).2 i).1
        = (ChainIndexer.processSection cfg chain st i).1 ∧
      (ChainIndexer.processSection cfg chain st1 i).1
        = (ChainIndexer.processSection cfg chain st i).1 ∧
      (∀ r, (ChainIndexer.processSection cfg chain st i).1 = .root r →
        ChainIndexer.storedRoot (ChainIndexer.processSection cfg chain st i).2 i = some r) ∧
      ChainIndexer.storedRoot (ChainIndexer.processSection cfg chain1 st j).2 i
        = ChainIndexer.storedRoot st i ∧
      (ChainIndexer.processSection cfg chain
        (ChainIndexer.processSection cfg chain1
          (ChainIndexer.processSection cfg chain st i).2 j).2 i).1
        = (ChainIndexer.processSection cfg chain st i).1 := by
  have hstate : ∀ s s1 : ChainIndexer.State,
      (ChainIndexer.processSection cfg chain s1 i).1
        = (ChainIndexer.processSection cfg chain s i).1 := by
    intro s s1
    unfold ChainIndexer.processSection
    by_cases h : ChainIndexer.sectionReady cfg chain i = true <;> simp [h]
  refine ⟨hstate _ _, hstate _ _, ?_, ?_, hstate _ _⟩
  · intro r hr
    unfold ChainIndexer.processSection at hr ⊢
    by_cases h : ChainIndexer.sectionReady cfg chain i = true
    · rw [if_pos h] at hr ⊢
      simp only [SectionResult.root.injEq] at hr
      simp [ChainIndexer.storedRoot, List.lookup, hr]
    · rw [if_neg h] at hr
      cases hr
  · unfold ChainIndexer.processSection
    by_cases h : ChainIndexer.sectionReady cfg chain1 j = true
    · rw [if_pos h]
      have hne : (i == j) = false := by simp; omega
      simp [ChainIndexer.storedRoot, List.lookup, hne]
    · rw [if_neg h]

/-- C8 on the sample chain at head 25: section 0 is processed, then section 5;
the stored root of section 0 is still the one returned for it. -/
theorem ChainIndexer.processSection_stable_witness :
    (0 : Nat) < 5 ∧
      ChainIndexer.storedRoot
        (ChainIndexer.processSection sampleIndexer sampleChainLater
          (ChainIndexer.processSection sampleIndexer sampleChainLater ⟨[]⟩ 0).2 5).2 0
        = ChainIndexer.storedRoot
            (ChainIndexer.processSection sampleIndexer sampleChainLater ⟨[]⟩ 0).2 0 :=
  ⟨by decide,
    (ChainIndexer.processSection_stable sampleIndexer sampleChainLater sampleChainLater
      (ChainIndexer.processSection sampleIndexer sampleChainLater ⟨[]⟩ 0).2 ⟨[]⟩ 0 5
      (by decide)).2.2.2.1⟩

/-- C9: `processSection(i)` fails with SectionNotReady iff the chain head is
below the confirmation depth of section `i`, that is iff
`head + 1 < (i + 1) * sectionSize + confirmsReq`, which for a positive section
size says that the head confirms at most `i` sections; a failed call leaves the
indexer unchanged; otherwise the call returns the root of the section's block
range; and once it succeeds it succeeds for every chain whose head is at least
as high. -/
theorem ChainIndexer.processSection_ready (cfg : ChainIndexer.Config)
    (chain chain1 : CanonicalChain) (st st1 : ChainIndexer.State) (i : Nat)
    (hsize : 0 < cfg.sectionSize) (hadv : chain.head ≤ chain1.head) :
    ((ChainIndexer.processSection cfg chain st i).1 = .SectionNotReady ↔
        chain.head + 1 < (i + 1) * cfg.sectionSize + cfg.confirmsReq) ∧
      ((ChainIndexer.processSection cfg chain st i).1 = .SectionNotReady ↔
        ChainIndexer.confirmedSections cfg chain ≤ i) ∧
      ((ChainIndexer.processSection cfg chain st i).1 = .SectionNotReady →
        (ChainIndexer.processSection cfg chain st i).2 = st) ∧
      ((ChainIndexer.processSection cfg chain st i).1 ≠ .SectionNotReady →
        (ChainIndexer.processSection cfg chain st i).1
          = .root (cfg.rootOf (ChainIndexer.sectionHashes cfg chain i))) ∧
      ((ChainIndexer.processSection cfg chain st i).1 ≠ .SectionNotReady →
        (ChainIndexer.processSection cfg chain1 st1 i).1 ≠ .SectionNotReady) := by
  have hready : ∀ (c : CanonicalChain) (s : ChainIndexer.State),
      ((ChainIndexer.processSection cfg c s i).1 = .SectionNotReady ↔
        c.head + 1 < (i + 1) * cfg.sectionSize + cfg.confirmsReq) := by
    intro c s
    unfold ChainIndexer.processSection ChainIndexer.sectionReady
    by_cases h : (i + 1) * cfg.sectionSize + cfg.confirmsReq ≤ c.head + 1
    · simp [h]
    · simp [h]; omega
  refine ⟨hready chain st, ?_, ?_, ?_, ?_⟩
  · rw [hready chain st]
    unfold ChainIndexer.confirmedSections
    rw [Nat.div_le_iff_le_mul_add_pred hsize]
    constructor
    · intro h
      have : (i + 1) * cfg.sectionSize = cfg.sectionSize * i + cfg.sectionSize := by ring
      omega
    · intro h
      have : (i + 1) * cfg.sectionSize = cfg.sectionSize * i + cfg.sectionSize := by ring
      omega
  · unfold ChainIndexer.processSection
    by_cases h : ChainIndexer.sectionReady cfg chain i = true <;> simp [h]
  · unfold ChainIndexer.processSection
    by_cases h : ChainIndexer.sectionReady cfg chain i = true <;> simp [h]
  · intro h h1
    rw [hready chain1 st1] at h1
    exact h ((hready chain st).2 (by omega))

/-- The scenario of C9 on sections of 4 blocks confirmed 2 deep: at head 21 the
chain confirms 5 sections (0 to 4), so section 5 is not ready and the indexer
is left as it was; at head 25 the same call returns the root of blocks 20 to
23. -/
theorem ChainIndexer.processSection_ready_witness :
    ((0 : Nat) < 4 ∧ (21 : Nat) ≤ 25) ∧
      ChainIndexer.confirmedSections sampleIndexer sampleChain = 5 ∧
      ChainIndexer.processSection sampleIndexer sampleChain ⟨[]⟩ 5 = (.SectionNotReady, ⟨[]⟩) ∧
      (ChainIndexer.processSection sampleIndexer sampleChainLater ⟨[]⟩ 5).1 = .root 486 ∧
      ((ChainIndexer.processSection sampleIndexer sampleChain ⟨[]⟩ 5).1 = .SectionNotReady ↔
        ChainIndexer.confirmedSections sampleIndexer sampleChain ≤ 5) :=
  ⟨⟨by decide, by decide⟩, by decide, by decide, by decide,
    (ChainIndexer.processSection_ready sampleIndexer sampleChain sampleChainLater ⟨[]⟩ ⟨[]⟩ 5
      (by decide) (by decide)).2.1⟩


/-! ### The retrieval core as a state machine -/

theorem PeerSet.contains_markBusy (ps : PeerSet) (id x : Nat) :
    (ps.markBusy id).contains x = ps.contains x := by
  simp only [PeerSet.contains, PeerSet.markBusy, List.any_map]
  congr 1
  funext q
  by_cases hq : q.id = id <;> simp [hq]

theorem PeerSet.contains_release (ps : PeerSet) (id x : Nat) :
    (ps.release id).contains x = ps.contains x := by
  simp only [PeerSet.contains, PeerSet.release, List.any_map]
  congr 1
  funext q
  by_cases hq : q.id = id <;> simp [hq]

theorem PeerSet.contains_register (ps : PeerSet) (p : Peer) (x : Nat)
    (hx : ps.contains x = true) : (ps.register p).2.contains x = true := by
  unfold PeerSet.register
  by_cases hc : ps.contains p.id = true
  · rw [if_pos hc]; exact hx
  · rw [if_neg hc]
    rw [PeerSet.contains_iff] at hx ⊢
    obtain ⟨q, hq, hqx⟩ := hx
    exact ⟨q, List.mem_append_left _ hq, hqx⟩

theorem System.unregister_eq (s : System) (id : Nat) :
    (s.dist.peers.contains id = false ∧ s.unregister id = s) ∨
      (s.dist.peers.contains id = true ∧
        s.unregister id =
          { s with
            dist := { s.dist with peers := ⟨s.dist.peers.peers.filter (fun q => q.id != id)⟩ }
            pending := s.pending.map (System.requeue id)
            outstanding := s.outstanding.filter (fun e => e.2 != id) }) := by
  unfold System.unregister PeerSet.unregister
  by_cases hc : s.dist.peers.contains id = true
  · right; exact ⟨hc, by rw [if_pos hc]⟩
  · left; exact ⟨by simpa using hc, by rw [if_neg hc]⟩

theorem System.count_filter_le (l : List (Nat × Nat)) (keep : Nat × Nat → Bool) (rid : Nat) :
    ((l.filter keep).filter (fun e => e.1 == rid)).length
      ≤ (l.filter (fun e => e.1 == rid)).length := by
  rw [List.filter_filter]
  have hcomm : l.filter (fun a => (a.1 == rid) && keep a)
      = (l.filter (fun e => e.1 == rid)).filter keep := by
    rw [List.filter_filter]
    apply List.filter_congr
    intro a _
    exact Bool.and_comm _ _
  rw [hcomm]
  exact List.length_filter_le _ _

theorem System.inv_init : System.init.Inv := by
  refine ⟨?_, ?_, ?_, ?_, ?_, ?_, ?_⟩
  · intro r hr; cases hr
  · intro rid; simp [System.outstandingOf, System.init]
  · intro r hr; cases hr
  · exact List.nodup_nil
  · intro r hr; cases hr
  · intro e he; cases he
  · intro e he; cases he

theorem System.inv_register (s : System) (p : Peer) (h : s.Inv) : (s.register p).Inv := by
  refine ⟨?_, h.single, h.queued, h.ids, h.fresh, h.freshOut, h.target⟩
  intro r hr pid hs
  exact PeerSet.contains_register _ _ _ (h.assigned r hr pid hs)

theorem System.inv_tick (s : System) (h : s.Inv) :
    (System.step s .tick).Inv :=
  ⟨h.assigned, h.single, h.queued, h.ids, h.fresh, h.freshOut, h.target⟩

theorem System.inv_submit (s : System) (req : DistributedRequest) (deadline : Nat)
    (h : s.Inv) : (s.submit req deadline).Inv := by
  refine ⟨?_, h.single, ?_, ?_, ?_, ?_, ?_⟩
  · intro r hr pid hs
    rcases List.mem_append.1 hr with hr | hr
    · exact h.assigned r hr pid hs
    · simp only [List.mem_singleton] at hr
      subst hr
      cases hs
  · intro r hr hs e he
    rcases List.mem_append.1 hr with hr | hr
    · exact h.queued r hr hs e he
    · simp only [List.mem_singleton] at hr
      subst hr
      exact Nat.ne_of_lt (h.freshOut e he)
  · show ((s.pending ++ _).map (fun r : PendingRetrieval => r.id)).Nodup
    rw [List.map_append, List.nodup_append]
    refine ⟨h.ids, by simp, ?_⟩
    intro a ha hb
    simp only [List.map_cons, List.map_nil, List.mem_singleton] at hb
    obtain ⟨r, hr, hra⟩ := List.mem_map.1 ha
    have := h.fresh r hr
    omega
  · intro r hr
    show r.id < s.nextId + 1
    rcases List.mem_append.1 hr with hr | hr
    · exact Nat.lt_succ_of_lt (h.fresh r hr)
    · simp only [List.mem_singleton] at hr
      subst hr
      exact Nat.lt_succ_self _
  · intro e he
    exact Nat.lt_succ_of_lt (h.freshOut e he)
  · intro e he r hr hid pid hs
    rcases List.mem_append.1 hr with hr | hr
    · exact h.target e he r hr hid pid hs
    · simp only [List.mem_singleton] at hr
      subst hr
      cases hs

theorem System.cancelOne_status (q : PendingRetrieval) :
    (System.cancelOne q).id = q.id ∧ (System.cancelOne q).status ≠ .Queued ∧
      ∀ pid, (System.cancelOne q).status ≠ .Dispatched pid := by
  rcases q with ⟨id, req, dl, rt, ex, st⟩
  cases st <;> simp [System.cancelOne]

theorem System.inv_quit (s : System) (h : s.Inv) : s.quit.Inv := by
  refine ⟨?_, h.single, ?_, ?_, ?_, h.freshOut, ?_⟩
  · intro r hr pid hs
    obtain ⟨q, _, hq⟩ := List.mem_map.1 hr
    subst hq
    exact absurd hs ((System.cancelOne_status q).2.2 pid)
  · intro r hr hs
    obtain ⟨q, _, hq⟩ := List.mem_map.1 hr
    subst hq
    exact absurd hs (System.cancelOne_status q).2.1
  · show ((s.pending.map _).map (fun r : PendingRetrieval => r.id)).Nodup
    rw [List.map_map]
    have hfun : ((fun r : PendingRetrieval => r.id) ∘ System.cancelOne) = fun r => r.id := by
      funext q
      exact (System.cancelOne_status q).1
    rw [hfun]
    exact h.ids
  · intro r hr
    obtain ⟨q, hq, hqr⟩ := List.mem_map.1 hr
    subst hqr
    rw [(System.cancelOne_status q).1]
    exact h.fresh q hq
  · intro e _ r hr _ pid hs
    obtain ⟨q, _, hq⟩ := List.mem_map.1 hr
    subst hq
    exact absurd hs ((System.cancelOne_status q).2.2 pid)


theorem System.map_ids (l : List PendingRetrieval) (g : PendingRetrieval → PendingRetrieval)
    (hg : ∀ q, (g q).id = q.id) :
    (l.map g).map (fun r : PendingRetrieval => r.id) = l.map (fun r : PendingRetrieval => r.id) := by
  rw [List.map_map]
  apply List.map_congr_left
  intro q _
  exact hg q

theorem System.requeue_id (id : Nat) (q : PendingRetrieval) : (System.requeue id q).id = q.id := by
  unfold System.requeue
  by_cases h : q.status = .Dispatched id
  · rw [if_pos h]
  · rw [if_neg h]

theorem System.markDispatched_id (rid pid : Nat) (q : PendingRetrieval) :
    (System.markDispatched rid pid q).id = q.id := by
  unfold System.markDispatched
  by_cases h : q.id = rid ∧ q.status = .Queued
  · rw [if_pos h]
  · rw [if_neg h]

theorem System.markFailed_id (rid : Nat) (e : DistError) (q : PendingRetrieval) :
    (System.markFailed rid e q).id = q.id := by
  unfold System.markFailed
  by_cases h : q.id = rid ∧ q.status = .Queued
  · rw [if_pos h]
  · rw [if_neg h]

theorem System.markFailed_status (rid : Nat) (e : DistError) (q : PendingRetrieval) :
    System.markFailed rid e q = q ∨
      ((System.markFailed rid e q).status = .Canceled ∨
        (System.markFailed rid e q).status = .Exhausted) := by
  unfold System.markFailed
  by_cases h : q.id = rid ∧ q.status = .Queued
  · rw [if_pos h]
    right
    by_cases he : e = .Canceled
    · left; simp [he]
    · right; simp [he]
  · rw [if_neg h]; left; rfl

theorem System.settleOne_spec (rid pid : Nat) (valid : Bool) (q : PendingRetrieval) :
    (System.settleOne rid pid valid q).id = q.id ∧
      (q.id ≠ rid → System.settleOne rid pid valid q = q) ∧
      (q.id = rid → ∀ p, (System.settleOne rid pid valid q).status ≠ .Dispatched p) := by
  rcases q with ⟨id, req, dl, rt, ex, st⟩
  unfold System.settleOne
  by_cases h : id = rid
  · cases st <;> cases valid <;> simp [h]
  · simp [h]

theorem System.inv_unregister (s : System) (id : Nat) (h : s.Inv) : (s.unregister id).Inv := by
  rcases System.unregister_eq s id with ⟨_, he⟩ | ⟨_, he⟩
  · rw [he]; exact h
  · rw [he]
    refine ⟨?_, ?_, ?_, ?_, ?_, ?_, ?_⟩
    · intro r hr pid hs
      obtain ⟨q, hq, hqr⟩ := List.mem_map.1 hr
      subst hqr
      unfold System.requeue at hs
      by_cases hd : q.status = .Dispatched id
      · rw [if_pos hd] at hs; cases hs
      · rw [if_neg hd] at hs
        have hpid : pid ≠ id := by
          rintro rfl
          exact hd hs
        have hc := h.assigned q hq pid hs
        rw [PeerSet.contains_iff] at hc ⊢
        obtain ⟨x, hx, hxp⟩ := hc
        refine ⟨x, ?_, hxp⟩
        show x ∈ s.dist.peers.peers.filter (fun q => q.id != id)
        simp [List.mem_filter, hx, hxp, hpid]
    · intro rid
      exact le_trans (System.count_filter_le _ _ _) (h.single rid)
    · intro r hr hs e he
      obtain ⟨q, hq, hqr⟩ := List.mem_map.1 hr
      subst hqr
      obtain ⟨he1, he2⟩ := List.mem_filter.1 he
      rw [System.requeue_id]
      unfold System.requeue at hs
      by_cases hd : q.status = .Dispatched id
      · intro heq
        have := h.target e he1 q hq heq.symm id hd
        simp [this] at he2
      · rw [if_neg hd] at hs
        exact h.queued q hq hs e he1
    · show ((s.pending.map (System.requeue id)).map (fun r : PendingRetrieval => r.id)).Nodup
      rw [System.map_ids _ _ (System.requeue_id id)]
      exact h.ids
    · intro r hr
      obtain ⟨q, hq, hqr⟩ := List.mem_map.1 hr
      subst hqr
      rw [System.requeue_id]
      exact h.fresh q hq
    · intro e he
      exact h.freshOut e (List.mem_filter.1 he).1
    · intro e he r hr hid pid hs
      obtain ⟨q, hq, hqr⟩ := List.mem_map.1 hr
      subst hqr
      rw [System.requeue_id] at hid
      unfold System.requeue at hs
      by_cases hd : q.status = .Dispatched id
      · rw [if_pos hd] at hs; cases hs
      · rw [if_neg hd] at hs
        exact h.target e (List.mem_filter.1 he).1 q hq hid pid hs

theorem System.settle_cases (s : System) (rid : Nat) (valid : Bool) :
    s.settle rid valid = s ∨
      ∃ e ∈ s.outstanding, e.1 = rid ∧
        s.settle rid valid =
          { s with
            dist := { s.dist with peers := s.dist.peers.release e.2 }
            outstanding := s.outstanding.filter (fun x => x.1 != rid)
            pending := s.pending.map (System.settleOne rid e.2 valid) } := by
  unfold System.settle
  cases hf : s.outstanding.find? (fun e => e.1 == rid) with
  | none => left; rfl
  | some e =>
    right
    refine ⟨e, List.mem_of_find?_eq_some hf, ?_, rfl⟩
    have := List.find?_some hf
    simpa using this

theorem System.inv_settle (s : System) (rid : Nat) (valid : Bool) (h : s.Inv) :
    (s.settle rid valid).Inv := by
  rcases System.settle_cases s rid valid with he | ⟨e0, _, _, he⟩
  · rw [he]; exact h
  · rw [he]
    refine ⟨?_, ?_, ?_, ?_, ?_, ?_, ?_⟩
    · intro r hr pid hs
      obtain ⟨q, hq, hqr⟩ := List.mem_map.1 hr
      subst hqr
      obtain ⟨_, hne, heq⟩ := System.settleOne_spec rid e0.2 valid q
      by_cases hid : q.id = rid
      · exact absurd hs (heq hid pid)
      · rw [hne hid] at hs
        show (s.dist.peers.release e0.2).contains pid = true
        rw [PeerSet.contains_release]
        exact h.assigned q hq pid hs
    · intro x
      exact le_trans (System.count_filter_le _ _ _) (h.single x)
    · intro r hr hs e he
      obtain ⟨q, hq, hqr⟩ := List.mem_map.1 hr
      subst hqr
      obtain ⟨hidq, hne, _⟩ := System.settleOne_spec rid e0.2 valid q
      obtain ⟨he1, he2⟩ := List.mem_filter.1 he
      rw [hidq]
      by_cases hid : q.id = rid
      · rw [hid]
        simpa using he2
      · rw [hne hid] at hs
        exact h.queued q hq hs e he1
    · show ((s.pending.map (System.settleOne rid e0.2 valid)).map
        (fun r : PendingRetrieval => r.id)).Nodup
      rw [System.map_ids _ _ (fun q => (System.settleOne_spec rid e0.2 valid q).1)]
      exact h.ids
    · intro r hr
      obtain ⟨q, hq, hqr⟩ := List.mem_map.1 hr
      subst hqr
      rw [(System.settleOne_spec rid e0.2 valid q).1]
      exact h.fresh q hq
    · intro e he
      exact h.freshOut e (List.mem_filter.1 he).1
    · intro e he r hr hid pid hs
      obtain ⟨q, hq, hqr⟩ := List.mem_map.1 hr
      subst hqr
      obtain ⟨hidq, hne, _⟩ := System.settleOne_spec rid e0.2 valid q
      obtain ⟨he1, he2⟩ := List.mem_filter.1 he
      rw [hidq] at hid
      have hq_ne : q.id ≠ rid := by
        intro hc
        rw [hid] at hc
        simp [hc] at he2
      rw [hne hq_ne] at hs
      exact h.target e he1 q hq hid pid hs


theorem System.markDispatched_spec (rid pid : Nat) (q : PendingRetrieval) :
    (q.id = rid ∧ q.status = .Queued ∧
        (System.markDispatched rid pid q).status = .Dispatched pid) ∨
      (¬ (q.id = rid ∧ q.status = .Queued) ∧ System.markDispatched rid pid q = q) := by
  unfold System.markDispatched
  by_cases h : q.id = rid ∧ q.status = .Queued
  · rw [if_pos h]; left; exact ⟨h.1, h.2, rfl⟩
  · rw [if_neg h]; right; exact ⟨h, rfl⟩

theorem System.dispatch_cases (s : System) (rid : Nat) :
    s.dispatch rid = s ∨
      ∃ r ∈ s.pending, r.id = rid ∧ r.status = .Queued ∧
        ((∃ e, s.dispatch rid = { s with pending := s.pending.map (System.markFailed rid e) }) ∨
          ∃ p, RequestDistributor.selectPeer s.dist.peers
                (RetrieveManager.restrict r.req r.excluded) = some p ∧
            s.dispatch rid =
              { s with
                dist := { s.dist with
                  peers := s.dist.peers.markBusy p.id
                  sent := s.dist.sent ++ [((RetrieveManager.restrict r.req r.excluded).id, p.id)] }
                pending := s.pending.map (System.markDispatched rid p.id)
                outstanding := s.outstanding ++ [(rid, p.id)] }) := by
  cases hf : s.pending.find? (fun r => r.id == rid && r.status == .Queued) with
  | none =>
    left
    unfold System.dispatch
    rw [hf]
  | some r =>
    have hmem := List.mem_of_find?_eq_some hf
    have hpred := List.find?_some hf
    simp only [Bool.and_eq_true, beq_iff_eq] at hpred
    rcases RequestDistributor.tryDistribute_cases s.dist
        (RetrieveManager.restrict r.req r.excluded) r.deadline with ⟨e, h⟩ | h | ⟨p, hs, h⟩
    · right
      refine ⟨r, hmem, hpred.1, hpred.2, Or.inl ⟨e, ?_⟩⟩
      unfold System.dispatch
      rw [hf]
      dsimp only
      rw [h]
    · left
      unfold System.dispatch
      rw [hf]
      dsimp only
      rw [h]
    · right
      refine ⟨r, hmem, hpred.1, hpred.2, Or.inr ⟨p, hs, ?_⟩⟩
      unfold System.dispatch
      rw [hf]
      dsimp only
      rw [h]

theorem System.inv_dispatch (s : System) (rid : Nat) (h : s.Inv) : (s.dispatch rid).Inv := by
  rcases System.dispatch_cases s rid with he | ⟨r, hr, hrid, hrq, ⟨e, he⟩ | ⟨p, hsel, he⟩⟩
  · rw [he]; exact h
  · rw [he]
    refine ⟨?_, h.single, ?_, ?_, ?_, h.freshOut, ?_⟩
    · intro x hx pid hs
      obtain ⟨q, hq, hqx⟩ := List.mem_map.1 hx
      subst hqx
      rcases System.markFailed_status rid e q with hsame | hc | hc
      · rw [hsame] at hs; exact h.assigned q hq pid hs
      · rw [hc] at hs; cases hs
      · rw [hc] at hs; cases hs
    · intro x hx hs o ho
      obtain ⟨q, hq, hqx⟩ := List.mem_map.1 hx
      subst hqx
      rw [System.markFailed_id]
      rcases System.markFailed_status rid e q with hsame | hc | hc
      · rw [hsame] at hs; exact h.queued q hq hs o ho
      · rw [hc] at hs; cases hs
      · rw [hc] at hs; cases hs
    · show ((s.pending.map (System.markFailed rid e)).map
        (fun r : PendingRetrieval => r.id)).Nodup
      rw [System.map_ids _ _ (System.markFailed_id rid e)]
      exact h.ids
    · intro x hx
      obtain ⟨q, hq, hqx⟩ := List.mem_map.1 hx
      subst hqx
      rw [System.markFailed_id]
      exact h.fresh q hq
    · intro o ho x hx hid pid hs
      obtain ⟨q, hq, hqx⟩ := List.mem_map.1 hx
      subst hqx
      rw [System.markFailed_id] at hid
      rcases System.markFailed_status rid e q with hsame | hc | hc
      · rw [hsame] at hs; exact h.target o ho q hq hid pid hs
      · rw [hc] at hs; cases hs
      · rw [hc] at hs; cases hs
  · rw [he]
    have hpmem : s.dist.peers.contains p.id = true := by
      rw [PeerSet.contains_iff]
      exact ⟨p, (RequestDistributor.selectPeer_spec _ _ _ hsel).1.1, rfl⟩
    have hnone : ∀ o ∈ s.outstanding, o.1 ≠ rid := by
      intro o ho
      rw [← hrid]
      exact h.queued r hr hrq o ho
    refine ⟨?_, ?_, ?_, ?_, ?_, ?_, ?_⟩
    · intro x hx pid hs
      obtain ⟨q, hq, hqx⟩ := List.mem_map.1 hx
      subst hqx
      show (s.dist.peers.markBusy p.id).contains pid = true
      rw [PeerSet.contains_markBusy]
      rcases System.markDispatched_spec rid p.id q with ⟨_, _, hst⟩ | ⟨_, hsame⟩
      · rw [hst] at hs
        cases hs
        exact hpmem
      · rw [hsame] at hs; exact h.assigned q hq pid hs
    · intro x
      show ((s.outstanding ++ [(rid, p.id)]).filter (fun o => o.1 == x)).length ≤ 1
      rw [List.filter_append, List.length_append]
      by_cases hx : rid = x
      · subst hx
        have hnil : s.outstanding.filter (fun o => o.1 == rid) = [] := by
          rw [List.filter_eq_nil_iff]
          intro o ho
          simpa using hnone o ho
        rw [hnil]
        simp
      · have hlast : [(rid, p.id)].filter (fun o => o.1 == x) = [] := by
          simp [List.filter_cons, hx]
        rw [hlast]
        simpa using h.single x
    · intro x hx hs o ho
      obtain ⟨q, hq, hqx⟩ := List.mem_map.1 hx
      subst hqx
      rw [System.markDispatched_id]
      rcases System.markDispatched_spec rid p.id q with ⟨_, _, hst⟩ | ⟨hnot, hsame⟩
      · rw [hst] at hs; cases hs
      · rw [hsame] at hs
        rcases List.mem_append.1 ho with ho | ho
        · exact h.queued q hq hs o ho
        · simp only [List.mem_singleton] at ho
          subst ho
          intro hc
          exact hnot ⟨hc.symm, hs⟩
    · show ((s.pending.map (System.markDispatched rid p.id)).map
        (fun r : PendingRetrieval => r.id)).Nodup
      rw [System.map_ids _ _ (System.markDispatched_id rid p.id)]
      exact h.ids
    · intro x hx
      obtain ⟨q, hq, hqx⟩ := List.mem_map.1 hx
      subst hqx
      rw [System.markDispatched_id]
      exact h.fresh q hq
    · intro o ho
      rcases List.mem_append.1 ho with ho | ho
      · exact h.freshOut o ho
      · simp only [List.mem_singleton] at ho
        subst ho
        show rid < s.nextId
        rw [← hrid]
        exact h.fresh r hr
    · intro o ho x hx hid pid hs
      obtain ⟨q, hq, hqx⟩ := List.mem_map.1 hx
      subst hqx
      rw [System.markDispatched_id] at hid
      rcases List.mem_append.1 ho with ho | ho
      · rcases System.markDispatched_spec rid p.id q with ⟨hqid, _, _⟩ | ⟨_, hsame⟩
        · exact absurd (hid.symm.trans hqid) (hnone o ho)
        · rw [hsame] at hs; exact h.target o ho q hq hid pid hs
      · simp only [List.mem_singleton] at ho
        subst ho
        rcases System.markDispatched_spec rid p.id q with ⟨_, _, hst⟩ | ⟨_, hsame⟩
        · rw [hst] at hs
          cases hs
          rfl
        · rw [hsame] at hs
          have hqr : q = r := List.inj_on_of_nodup_map h.ids hq hr (hid.trans hrid.symm)
          rw [hqr, hrq] at hs
          cases hs

theorem System.inv_step (s : System) (op : Op) (h : s.Inv) : (s.step op).Inv := by
  cases op with
  | register p => exact System.inv_register s p h
  | unregister id => exact System.inv_unregister s id h
  | submit req deadline => exact System.inv_submit s req deadline h
  | dispatch rid => exact System.inv_dispatch s rid h
  | deliver rid valid => exact System.inv_settle s rid valid h
  | timeout rid => exact System.inv_settle s rid false h
  | tick => exact System.inv_tick s h
  | quit => exact System.inv_quit s h

theorem System.inv_foldl (ops : List Op) (s : System) (h : s.Inv) :
    (ops.foldl System.step s).Inv := by
  induction ops generalizing s with
  | nil => exact h
  | cons op rest ih => exact ih _ (System.inv_step s op h)

theorem System.inv_run (ops : List Op) : (System.run ops).Inv :=
  System.inv_foldl ops System.init System.inv_init

theorem System.run_snoc (ops : List Op) (op : Op) :
    System.run (ops ++ [op]) = (System.run ops).step op := by
  simp [System.run, List.foldl_append]

theorem System.unregister_removes (s : System) (id : Nat) :
    (s.unregister id).dist.peers.contains id = false := by
  rcases System.unregister_eq s id with ⟨hc, he⟩ | ⟨_, he⟩
  · rw [he]; exact hc
  · rw [he]
    simp [PeerSet.contains]

/-- C10: in every state reached from the initial one by a sequence of
operations (register, unregister, submit, dispatch, deliver, timeout, tick,
quit), a retrieval that is assigned to a peer is assigned to a registered peer,
and every retrieval has at most one outstanding network request; right after
`unregister(id)` no retrieval is assigned to `id`, each retrieval that was
assigned to it being Queued again and all others keeping their status. -/
theorem System.no_orphan_retrieval (ops : List Op) (id rid : Nat) :
    (∀ r ∈ (System.run ops).pending, ∀ pid, r.status = .Dispatched pid →
        (System.run ops).dist.peers.contains pid = true) ∧
      (System.run ops).outstandingOf rid ≤ 1 ∧
      (∀ r ∈ (System.run (ops ++ [.unregister id])).pending, r.status ≠ .Dispatched id) ∧
      (System.run (ops ++ [.unregister id])).pending.map (fun r => r.status)
        = (System.run ops).pending.map
            (fun r => if r.status = .Dispatched id then ReqStatus.Queued else r.status) := by
  have hinv := System.inv_run ops
  have hinv1 := System.inv_run (ops ++ [.unregister id])
  refine ⟨hinv.assigned, hinv.single rid, ?_, ?_⟩
  · intro r hr hs
    have hc := hinv1.assigned r hr id hs
    rw [System.run_snoc] at hc
    have hrem := System.unregister_removes (System.run ops) id
    have hstep : (System.run ops).step (.unregister id) = (System.run ops).unregister id := rfl
    rw [hstep, hrem] at hc
    cases hc
  · rw [System.run_snoc]
    show ((System.run ops).unregister id).pending.map (fun r => r.status) = _
    rcases System.unregister_eq (System.run ops) id with ⟨hc, he⟩ | ⟨_, he⟩
    · rw [he]
      apply List.map_congr_left
      intro r hr
      by_cases hd : r.status = .Dispatched id
      · have := hinv.assigned r hr id hd
        rw [hc] at this
        cases this
      · rw [if_neg hd]
    · rw [he]
      show ((System.run ops).pending.map (System.requeue id)).map (fun r => r.status) = _
      rw [List.map_map]
      apply List.map_congr_left
      intro r _
      unfold System.requeue
      by_cases hd : r.status = .Dispatched id
      · simp [hd]
      · simp [hd]


/-! ### FUSE protocol versions -/

theorem fuse.Protocol.LT_iff_explicit (a b : fuse.Protocol) :
    a.LT b = true ↔ (a.Major < b.Major ∨ (a.Major = b.Major ∧ a.Minor < b.Minor)) := by
  simp [fuse.Protocol.LT]

theorem fuse.Protocol.GE_iff_explicit (a b : fuse.Protocol) :
    a.GE b = true ↔ (b.Major < a.Major ∨ (a.Major = b.Major ∧ b.Minor ≤ a.Minor)) := by
  simp [fuse.Protocol.GE]

theorem fuse.Protocol.key_lt (a b : fuse.Protocol) :
    a.key < b.key ↔ (a.Major < b.Major ∨ (a.Major = b.Major ∧ a.Minor < b.Minor)) := by
  simp [fuse.Protocol.key, Prod.Lex.lt_iff]

theorem fuse.Protocol.key_le (a b : fuse.Protocol) :
    a.key ≤ b.key ↔ (a.Major < b.Major ∨ (a.Major = b.Major ∧ a.Minor ≤ b.Minor)) := by
  simp [fuse.Protocol.key, Prod.Lex.le_iff]

/-- C18: `a.LT(b)` is true iff `a.Major < b.Major`, or `a.Major = b.Major` and
`a.Minor < b.Minor`, that is iff `a` is less than `b` in the lexicographic order
on (Major, Minor). -/
theorem fuse.Protocol.LT_lex (a b : fuse.Protocol) :
    (a.LT b = true ↔ (a.Major < b.Major ∨ (a.Major = b.Major ∧ a.Minor < b.Minor))) ∧
      (a.LT b = true ↔ a.key < b.key) := by
  refine ⟨fuse.Protocol.LT_iff_explicit a b, ?_⟩
  rw [fuse.Protocol.key_lt]
  exact fuse.Protocol.LT_iff_explicit a b

/-- C19: `a.GE(b)` is true iff `a` is greater than or equal to `b` in the
lexicographic order on (Major, Minor), and `a.GE(b)` is the negation of
`a.LT(b)`. -/
theorem fuse.Protocol.GE_lex (a b : fuse.Protocol) :
    (a.GE b = true ↔ b.key ≤ a.key) ∧ a.GE b = !a.LT b := by
  constructor
  · rw [fuse.Protocol.key_le, fuse.Protocol.GE_iff_explicit]
    constructor
    · rintro (h | ⟨h1, h2⟩)
      · exact Or.inl h
      · exact Or.inr ⟨h1.symm, h2⟩
    · rintro (h | ⟨h1, h2⟩)
      · exact Or.inl h
      · exact Or.inr ⟨h1.symm, h2⟩
  · rw [Bool.eq_iff_iff]
    simp only [Bool.not_eq_true', ← Bool.not_eq_true]
    rw [fuse.Protocol.GE_iff_explicit, fuse.Protocol.LT_iff_explicit]
    omega

/-- C20: HasAttrBlockSize, HasReadWriteFlags and HasGetattrFlags hold iff the
version is at least 7.9, HasOpenNonSeekable iff it is at least 7.10, HasUmask
and HasInvalidate iff it is at least 7.12, in the lexicographic order on
(Major, Minor); so 7.10 has what 7.9 has, and every 8.x has what 7.12 has. -/
theorem fuse.Protocol.feature_thresholds (p : fuse.Protocol) (x : Nat) :
    (p.HasAttrBlockSize = true ↔ (⟨7, 9⟩ : fuse.Protocol).key ≤ p.key) ∧
      (p.HasReadWriteFlags = true ↔ (⟨7, 9⟩ : fuse.Protocol).key ≤ p.key) ∧
      (p.HasGetattrFlags = true ↔ (⟨7, 9⟩ : fuse.Protocol).key ≤ p.key) ∧
      (p.HasOpenNonSeekable = true ↔ (⟨7, 10⟩ : fuse.Protocol).key ≤ p.key) ∧
      (p.HasUmask = true ↔ (⟨7, 12⟩ : fuse.Protocol).key ≤ p.key) ∧
      (p.HasInvalidate = true ↔ (⟨7, 12⟩ : fuse.Protocol).key ≤ p.key) ∧
      (⟨7, 10⟩ : fuse.Protocol).HasAttrBlockSize = true ∧
      (⟨7, 9⟩ : fuse.Protocol).HasOpenNonSeekable = false ∧
      (⟨7, 10⟩ : fuse.Protocol).HasUmask = false ∧
      (⟨8, x⟩ : fuse.Protocol).HasUmask = true ∧
      (⟨8, x⟩ : fuse.Protocol).HasInvalidate = true ∧
      (⟨6, x⟩ : fuse.Protocol).HasAttrBlockSize = false := by
  have h := fun t : fuse.Protocol => (fuse.Protocol.GE_lex p t).1
  refine ⟨h _, h _, h _, h _, h _, h _, by decide, by decide, by decide, ?_, ?_, ?_⟩
  · simp [fuse.Protocol.HasUmask, fuse.Protocol.is712, fuse.Protocol.GE]
  · simp [fuse.Protocol.HasInvalidate, fuse.Protocol.is712, fuse.Protocol.GE]
  · simp [fuse.Protocol.HasAttrBlockSize, fuse.Protocol.is79, fuse.Protocol.GE]

/-! ### The full-node service -/

/-- C14: when `config.SyncMode` is LightSync, or is not a valid sync mode,
`New` returns no service and an error, and the databases open after the call
are those open before it; the error is the light-sync message in the first
case and the invalid-sync-mode message otherwise. -/
theorem tst.New_rejects_sync_mode (d : tst.NewDeps) (opened : List String) (ctx : d.Ctx)
    (config : tst.Config)
    (h : config.SyncMode = d.LightSync ∨ d.IsValid config.SyncMode = false) :
    (tst.New d opened ctx config).1.1 = none ∧
      (tst.New d opened ctx config).1.2 ≠ none ∧
      (tst.New d opened ctx config).2 = opened ∧
      (tst.New d opened ctx config).1.2 =
        (if config.SyncMode = d.LightSync then
          some "can't run tst.UTChain in light sync mode, use les.LightUTChain"
        else some ("invalid sync mode " ++ toString config.SyncMode)) := by
  unfold tst.New
  by_cases h1 : config.SyncMode = d.LightSync
  · simp [h1]
  · rcases h with h | h
    · exact absurd h h1
    · simp [h1, h]

/-- C14 on the sync modes of package `downloader`: light sync (2) and the
invalid mode 7 are both rejected with nothing opened. -/
theorem tst.New_rejects_sync_mode_witness :
    ((tst.New tst.sampleNewDeps [] () ⟨2, 0, 0⟩).1.1 = none ∧
        (tst.New tst.sampleNewDeps [] () ⟨2, 0, 0⟩).1.2 ≠ none ∧
        (tst.New tst.sampleNewDeps [] () ⟨2, 0, 0⟩).2 = [] ∧
        (tst.New tst.sampleNewDeps [] () ⟨2, 0, 0⟩).1.2 =
          (if (2 : Int) = 2 then
            some "can't run tst.UTChain in light sync mode, use les.LightUTChain"
          else some ("invalid sync mode " ++ toString (2 : Int)))) ∧
      (tst.New tst.sampleNewDeps [] () ⟨7, 0, 0⟩).1.2 = some "invalid sync mode 7" ∧
      (tst.New tst.sampleNewDeps [] () ⟨0, 0, 0⟩).2 = ["chaindata"] :=
  ⟨tst.New_rejects_sync_mode tst.sampleNewDeps [] () ⟨2, 0, 0⟩ (Or.inl rfl), by decide, by decide⟩

theorem toInt64_of_range (n : Int) (h0 : -(2 ^ 63) ≤ n) (h1 : n < 2 ^ 63) : toInt64 n = n := by
  unfold toInt64
  have h2 : (n + 2 ^ 63) % 2 ^ 64 = n + 2 ^ 63 := by
    apply Int.emod_eq_of_lt
    · omega
    · omega
  rw [h2]
  omega

/-- C15, as stated, fails: with light serving enabled, a server limit of 1 and a
configured light peer count of -2^63 (the least `int`), `Start` returns nil and
starts the protocol manager with limit -9223372036854775807, which is neither
`M - l` nor at least 1: the subtraction wraps. -/
theorem tst.Start_limit_counterexample :
    (tst.UTChain.Start
        { tst.sampleNode with config := { SyncMode := 0, LightServ := 1, LightPeers := -(2 ^ 63) } }
        ⟨1⟩).1 = none ∧
      (tst.UTChain.Start
        { tst.sampleNode with config := { SyncMode := 0, LightServ := 1, LightPeers := -(2 ^ 63) } }
        ⟨1⟩).2.protocolManager.started = some (-9223372036854775807) ∧
      ¬ ((1 : Int) ≤ -9223372036854775807) ∧
      (-9223372036854775807 : Int) ≠ 1 - -(2 ^ 63) := by
  refine ⟨by decide, by decide, by decide, by decide⟩

/-- C15, amended: `Start` returns the "invalid peer config" error, leaving the
protocol manager as it was, iff `LightServ > 0` and `LightPeers >= MaxPeers`;
otherwise it returns nil and starts the protocol manager with `MaxPeers` when
`LightServ <= 0` and with `MaxPeers - LightPeers` in 64-bit `int` arithmetic when
`LightServ > 0`; whenever that difference is below 2^63, as it is for every
non-negative `LightPeers`, the limit passed is `MaxPeers - LightPeers` itself and
at least 1. -/
theorem tst.Start_peer_limit (s : tst.UTChain) (srvr : tst.Server)
    (hM : srvr.MaxPeers < 2 ^ 63) :
    ((s.Start srvr).1 ≠ none ↔
        (s.config.LightServ > 0 ∧ s.config.LightPeers ≥ srvr.MaxPeers)) ∧
      ((s.Start srvr).1 ≠ none → (s.Start srvr).2.protocolManager = s.protocolManager) ∧
      ((s.Start srvr).1 = none →
        (s.Start srvr).2.protocolManager.started
          = some (if s.config.LightServ > 0 then toInt64 (srvr.MaxPeers - s.config.LightPeers)
                  else srvr.MaxPeers)) ∧
      ((s.Start srvr).1 = none → s.config.LightServ > 0 →
        srvr.MaxPeers - s.config.LightPeers < 2 ^ 63 →
        (s.Start srvr).2.protocolManager.started = some (srvr.MaxPeers - s.config.LightPeers) ∧
          1 ≤ srvr.MaxPeers - s.config.LightPeers) ∧
      ((s.Start srvr).1 = none → s.config.LightServ > 0 → 0 ≤ s.config.LightPeers →
        (s.Start srvr).2.protocolManager.started = some (srvr.MaxPeers - s.config.LightPeers) ∧
          1 ≤ srvr.MaxPeers - s.config.LightPeers) := by
  have key : (s.Start srvr).1 = none → s.config.LightServ > 0 →
      srvr.MaxPeers - s.config.LightPeers < 2 ^ 63 →
      (s.Start srvr).2.protocolManager.started = some (srvr.MaxPeers - s.config.LightPeers) ∧
        1 ≤ srvr.MaxPeers - s.config.LightPeers := by
    unfold tst.UTChain.Start
    by_cases hs : s.config.LightServ > 0
    · by_cases hl : s.config.LightPeers ≥ srvr.MaxPeers
      · simp [hs, hl]
      · intro _ _ hlt
        have hpos : 1 ≤ srvr.MaxPeers - s.config.LightPeers := by omega
        have hw := toInt64_of_range (srvr.MaxPeers - s.config.LightPeers) (by omega) hlt
        simp [hs, hl, hw]
        omega
    · intro _ h; exact absurd h hs
  refine ⟨?_, ?_, ?_, key, ?_⟩
  · unfold tst.UTChain.Start
    by_cases hs : s.config.LightServ > 0
    · by_cases hl : s.config.LightPeers ≥ srvr.MaxPeers
      · simp [hs, hl]
      · simp [hs, hl]
    · simp [hs]
  · unfold tst.UTChain.Start
    by_cases hs : s.config.LightServ > 0
    · by_cases hl : s.config.LightPeers ≥ srvr.MaxPeers
      · simp [hs, hl]
      · simp [hs, hl]
    · simp [hs]
  · unfold tst.UTChain.Start
    by_cases hs : s.config.LightServ > 0
    · by_cases hl : s.config.LightPeers ≥ srvr.MaxPeers
      · simp [hs, hl]
      · simp [hs, hl]
    · simp [hs]
  · intro h1 h2 h3
    exact key h1 h2 (by omega)

/-- C15 on a node serving 10 light peers under a server limit of 25: the
protocol manager is started with limit 15. -/
theorem tst.Start_peer_limit_witness :
    (25 : Int) < 2 ^ 63 ∧
      (tst.sampleNode.Start ⟨25⟩).1 = none ∧
      (tst.sampleNode.Start ⟨25⟩).2.protocolManager.started = some (25 - 10) ∧
      (1 : Int) ≤ 25 - 10 ∧
      (tst.sampleNode.Start ⟨10⟩).1 ≠ none :=
  have c := tst.Start_peer_limit tst.sampleNode ⟨25⟩ (by decide)
  ⟨by decide, by decide, (c.2.2.2.2 (by decide) (by decide) (by decide)).1,
    (c.2.2.2.2 (by decide) (by decide) (by decide)).2, by decide⟩

/-- C16: `Tsterbase` returns the stored address with no error when it is not the
zero address; otherwise, when the first wallet has an account, it returns the
address of that wallet's first account with no error and stores it, so that the
next call returns it again; otherwise it returns the zero address with the error
"tsterbase must be explicitly specified" and leaves the node unchanged. After
`SetTsterbase(a)` with a non-zero `a`, `Tsterbase` returns `(a, nil)`. -/
theorem tst.Tsterbase_spec (s : tst.UTChain) (a : Address) (accounts : List Address)
    (wallets : List (List Address)) :
    (s.tsterbase ≠ 0 → s.Tsterbase = ((s.tsterbase, none), s)) ∧
      (s.tsterbase = 0 → s.wallets = (a :: accounts) :: wallets →
        s.Tsterbase = ((a, none), { s with tsterbase := a }) ∧
          (s.Tsterbase.2.Tsterbase).1 = (a, none)) ∧
      (s.tsterbase = 0 → (s.wallets = [] ∨ s.wallets = [] :: wallets) →
        s.Tsterbase = ((0, some "tsterbase must be explicitly specified"), s)) ∧
      (a ≠ 0 → (s.SetTsterbase a).Tsterbase = ((a, none), s.SetTsterbase a)) := by
  refine ⟨?_, ?_, ?_, ?_⟩
  · intro h
    unfold tst.UTChain.Tsterbase
    simp [h]
  · intro h hw
    have h1 : s.Tsterbase = ((a, none), { s with tsterbase := a }) := by
      unfold tst.UTChain.Tsterbase
      simp [h, hw]
    refine ⟨h1, ?_⟩
    rw [h1]
    unfold tst.UTChain.Tsterbase
    by_cases ha : a = 0
    · simp [ha, hw]
    · simp [ha]
  · intro h hw
    unfold tst.UTChain.Tsterbase
    rcases hw with hw | hw <;> simp [h, hw]
  · intro ha
    unfold tst.UTChain.Tsterbase tst.UTChain.SetTsterbase
    simp [ha]

/-- C16 on the sample node (no stored address, first wallet with accounts 41 and
42): the first call returns 41 and stores it, and so does the next; after the
wallets are gone and nothing is stored the call fails; after `SetTsterbase(9)`
it returns 9. -/
theorem tst.Tsterbase_spec_witness :
    (tst.sampleNode.Tsterbase = ((41, none), { tst.sampleNode with tsterbase := 41 }) ∧
        (tst.sampleNode.Tsterbase.2.Tsterbase).1 = (41, none)) ∧
      ({ tst.sampleNode with tsterbase := 5 } : tst.UTChain).Tsterbase
        = ((5, none), { tst.sampleNode with tsterbase := 5 }) ∧
      ({ tst.sampleNode with wallets := [] } : tst.UTChain).Tsterbase
        = ((0, some "tsterbase must be explicitly specified"),
            { tst.sampleNode with wallets := [] }) ∧
      (tst.sampleNode.SetTsterbase 9).Tsterbase = ((9, none), tst.sampleNode.SetTsterbase 9) :=
  ⟨(tst.Tsterbase_spec tst.sampleNode 41 [42] [[43]]).2.1 rfl rfl,
    (tst.Tsterbase_spec { tst.sampleNode with tsterbase := 5 } 0 [] []).1 (by decide),
    (tst.Tsterbase_spec { tst.sampleNode with wallets := [] } 0 [] []).2.2.1 rfl (Or.inl rfl),
    (tst.Tsterbase_spec tst.sampleNode 9 [] []).2.2.2 (by decide)⟩

/-- C17: `Protocols` returns `protocolManager.SubProtocols` when no LES server
is attached, and otherwise `SubProtocols` followed by `lesServer.Protocols()`;
its length is then the sum of the two lengths and its first
`len(SubProtocols)` entries are `SubProtocols`. -/
theorem tst.Protocols_spec (s : tst.UTChain) (ls : tst.LesServer) :
    ({ s with lesServer := none } : tst.UTChain).Protocols = s.protocolManager.SubProtocols ∧
      ({ s with lesServer := some ls } : tst.UTChain).Protocols
        = s.protocolManager.SubProtocols ++ ls.protocols ∧
      ({ s with lesServer := some ls } : tst.UTChain).Protocols.length
        = s.protocolManager.SubProtocols.length + ls.protocols.length ∧
      ({ s with lesServer := some ls } : tst.UTChain).Protocols.take
          s.protocolManager.SubProtocols.length
        = s.protocolManager.SubProtocols ∧
      ({ s with lesServer := some ls } : tst.UTChain).Protocols.drop
          s.protocolManager.SubProtocols.length
        = ls.protocols := by
  refine ⟨rfl, rfl, ?_, ?_, ?_⟩
  · simp [tst.UTChain.Protocols]
  · simp [tst.UTChain.Protocols]
  · simp [tst.UTChain.Protocols]


/-! ### The mobile node wrapper -/

theorem mobile.fillDefaults_fields (d : mobile.Deps) (c : mobile.NodeConfig) :
    (mobile.fillDefaults d (some c)).UTChainDatabaseCache = c.UTChainDatabaseCache ∧
      (mobile.fillDefaults d (some c)).UTChainEnabled = c.UTChainEnabled ∧
      (mobile.fillDefaults d (some c)).MaxPeers = (if c.MaxPeers = 0 then 25 else c.MaxPeers) := by
  unfold mobile.fillDefaults
  by_cases hm : c.MaxPeers = 0
  · simp only [hm, if_true]
    split <;> simp [mobile.defaultNodeConfig]
  · simp only [hm, if_false]
    split <;> simp

theorem mobile.registerAll_caches (d : mobile.Deps) (conf : mobile.NodeConf)
    (genesis : Option d.Genesis) (config : mobile.NodeConfig) (node : mobile.Node d)
    (err : Option String)
    (h : mobile.registerAll d conf genesis config = (some node, err))
    (hen : config.UTChainEnabled = true) :
    mobile.lesCaches node = [config.UTChainDatabaseCache] ∧ node.conf = conf := by
  unfold mobile.registerAll at h
  simp only [hen, if_true] at h
  cases h0 : d.registerError 0 with
  | some e => simp [h0] at h
  | none =>
    simp only [h0] at h
    by_cases hs : config.UTChainNetStats = ""
    · simp only [hs, ne_eq, not_true_eq_false, if_false] at h
      by_cases hw : config.WhisperEnabled = true
      · simp only [hw, if_true] at h
        cases h1 : d.registerError 1 with
        | some e => simp [h1] at h
        | none =>
          simp only [List.length_singleton, h1, Prod.mk.injEq, Option.some.injEq] at h
          rw [← h.1]
          simp [mobile.lesCaches, mobile.tstConfOf]
      · simp only [hw, Bool.false_eq_true, if_false, Prod.mk.injEq, Option.some.injEq] at h
        rw [← h.1]
        simp [mobile.lesCaches, mobile.tstConfOf]
    · simp only [hs, ne_eq, not_false_eq_true, if_true] at h
      cases h1 : d.registerError 1 with
      | some e => simp [h1] at h
      | none =>
        simp only [h1] at h
        by_cases hw : config.WhisperEnabled = true
        · simp only [hw, if_true] at h
          cases h2 : d.registerError 2 with
          | some e => simp [h2] at h
          | none =>
            simp only [List.length_cons, List.length_singleton, List.length_nil, h2, Prod.mk.injEq,
              Option.some.injEq] at h
            rw [← h.1]
            simp [mobile.lesCaches, mobile.tstConfOf]
        · simp only [hw, Bool.false_eq_true, if_false, Prod.mk.injEq, Option.some.injEq] at h
          rw [← h.1]
          simp [mobile.lesCaches, mobile.tstConfOf]

theorem mobile.NewNode_result (d : mobile.Deps) (datadir : String) (c : mobile.NodeConfig)
    (node : mobile.Node d) (err : Option String) (cfg : mobile.NodeConfig)
    (h : mobile.NewNode d datadir (some c) = ((some node, err), cfg)) :
    ∃ (genesis : Option d.Genesis) (config : mobile.NodeConfig),
      mobile.registerAll d (mobile.nodeConfOf d datadir (mobile.fillDefaults d (some c)))
          genesis config = (some node, err) ∧
        config.UTChainDatabaseCache = c.UTChainDatabaseCache ∧
        config.UTChainEnabled = c.UTChainEnabled := by
  obtain ⟨hc, he, _⟩ := mobile.fillDefaults_fields d c
  unfold mobile.NewNode at h
  dsimp only at h
  cases hn : d.nodeNew (mobile.nodeConfOf d datadir (mobile.fillDefaults d (some c))) with
  | some e => simp [hn] at h
  | none =>
    simp only [hn] at h
    by_cases hg : (mobile.fillDefaults d (some c)).UTChainGenesis = ""
    · simp only [hg, ne_eq, not_true_eq_false, if_false, Prod.mk.injEq] at h
      exact ⟨none, _, h.1, hc, he⟩
    · simp only [hg, ne_eq, not_false_eq_true, if_true] at h
      cases hu : d.unmarshal (mobile.fillDefaults d (some c)).UTChainGenesis with
      | error e => simp [hu] at h
      | ok g =>
        simp only [hu] at h
        by_cases ht : (mobile.fillDefaults d (some c)).UTChainGenesis = d.TestnetGenesis
        · simp only [ht, if_true, Prod.mk.injEq] at h
          refine ⟨_, _, h.1, ?_, ?_⟩
          · by_cases hid : (mobile.fillDefaults d (some c)).UTChainNetworkID = 1
            · simp [hid, hc]
            · simp [hid, hc]
          · by_cases hid : (mobile.fillDefaults d (some c)).UTChainNetworkID = 1
            · simp [hid, he]
            · simp [hid, he]
        · simp only [ht, if_false, Prod.mk.injEq] at h
          exact ⟨_, _, h.1, hc, he⟩

/-- C12 fails on the code: for the sample configuration, whose MaxPeers is
zero, `NewNode` creates the networking stack with a maximum peer count of 25,
the default, and writes 25 back into the configuration. -/
theorem mobile.NewNode_zero_MaxPeers :
    mobile.sampleConfig.MaxPeers = 0 ∧
      (mobile.NewNode mobile.sampleDeps "/data" (some mobile.sampleConfig)).1.1.map
          (fun n => n.conf.P2P.MaxPeers) = some 25 ∧
      (mobile.NewNode mobile.sampleDeps "/data" (some mobile.sampleConfig)).2.MaxPeers = 25 := by
  refine ⟨rfl, by decide, by decide⟩

/-- C13, as stated, fails: for the sample configuration, which enables UTChain
with a database cache of 0, `NewNode` registers the light service with
`DatabaseCache` 0, below 16. -/
theorem mobile.NewNode_cache_counterexample :
    mobile.sampleConfig.UTChainEnabled = true ∧
      (mobile.NewNode mobile.sampleDeps "/data" (some mobile.sampleConfig)).1.1.map
          mobile.lesCaches = some [0] ∧
      ¬ ((16 : Int) ≤ 0) := by
  refine ⟨rfl, by decide, by decide⟩

/-- C13, amended: for every NodeConfig with UTChainEnabled, the database cache
size that `NewNode` hands to the light service is `UTChainDatabaseCache` itself,
whatever value it holds; it is at least 16 exactly when `UTChainDatabaseCache`
is. -/
theorem mobile.NewNode_cache_passed (d : mobile.Deps) (datadir : String)
    (c : mobile.NodeConfig) (node : mobile.Node d) (err : Option String)
    (cfg : mobile.NodeConfig)
    (h : mobile.NewNode d datadir (some c) = ((some node, err), cfg))
    (hen : c.UTChainEnabled = true) :
    mobile.lesCaches node = [c.UTChainDatabaseCache] ∧
      ((∀ x ∈ mobile.lesCaches node, 16 ≤ x) ↔ 16 ≤ c.UTChainDatabaseCache) := by
  obtain ⟨genesis, config, hr, hc, he⟩ := mobile.NewNode_result d datadir c node err cfg h
  have hl := (mobile.registerAll_caches d _ genesis config node err hr (he.trans hen)).1
  rw [hc] at hl
  refine ⟨hl, ?_⟩
  rw [hl]
  simp

/-- C13, amended, on a configuration with a cache of 64 MB: the light service is
registered with 64. -/
theorem mobile.NewNode_cache_passed_witness :
    mobile.lesCaches
        (⟨mobile.nodeConfOf mobile.sampleDeps "/data"
            { mobile.sampleConfig with MaxPeers := 25, UTChainDatabaseCache := 64 },
          [.les (mobile.tstConfOf mobile.sampleDeps none
            { mobile.sampleConfig with MaxPeers := 25, UTChainDatabaseCache := 64 })]⟩ :
          mobile.Node mobile.sampleDeps)
        = [64] ∧
      ((∀ x ∈ mobile.lesCaches
          (⟨mobile.nodeConfOf mobile.sampleDeps "/data"
              { mobile.sampleConfig with MaxPeers := 25, UTChainDatabaseCache := 64 },
            [.les (mobile.tstConfOf mobile.sampleDeps none
              { mobile.sampleConfig with MaxPeers := 25, UTChainDatabaseCache := 64 })]⟩ :
            mobile.Node mobile.sampleDeps), 16 ≤ x) ↔ (16 : Int) ≤ 64) :=
  mobile.NewNode_cache_passed mobile.sampleDeps "/data"
    { mobile.sampleConfig with UTChainDatabaseCache := 64 } _ none
    { mobile.sampleConfig with MaxPeers := 25, UTChainDatabaseCache := 64 } rfl rfl


/-! ### Capacity bookkeeping of the retrieval core -/

theorem System.Accounted.congr {s t : System} (h : s.Accounted)
    (hp : t.dist.peers = s.dist.peers) (ho : t.outstanding = s.outstanding) : t.Accounted := by
  refine ⟨?_, ?_, ?_, ?_⟩
  · rw [hp]; exact h.peerIds
  · rw [hp, ho]; exact h.known
  · intro p hpm
    rw [hp] at hpm
    have := h.counted p hpm
    unfold System.dispatchedTo at this ⊢
    rw [ho]; exact this
  · rw [hp]; exact h.bounded

theorem System.accounted_init : System.init.Accounted := by
  refine ⟨?_, ?_, ?_, ?_⟩
  · exact List.nodup_nil
  · intro e he; cases he
  · intro p hp; cases hp
  · intro p hp; cases hp

theorem PeerSet.ids_markBusy (ps : PeerSet) (id : Nat) :
    (ps.markBusy id).peers.map (fun p => p.id) = ps.peers.map (fun p => p.id) := by
  simp only [PeerSet.markBusy, List.map_map]
  apply List.map_congr_left
  intro q _
  by_cases hq : q.id = id <;> simp [hq]

theorem PeerSet.ids_release (ps : PeerSet) (id : Nat) :
    (ps.release id).peers.map (fun p => p.id) = ps.peers.map (fun p => p.id) := by
  simp only [PeerSet.release, List.map_map]
  apply List.map_congr_left
  intro q _
  by_cases hq : q.id = id <;> simp [hq]

theorem System.accounted_register (s : System) (p : Peer) (ha : s.Accounted) :
    (s.register p).Accounted := by
  by_cases hc : s.dist.peers.contains p.id = true
  · apply ha.congr
    · show (s.dist.peers.register { p with inFlight := 0 }).2 = s.dist.peers
      unfold PeerSet.register
      rw [if_pos hc]
    · rfl
  · have hreg : (s.register p).dist.peers = ⟨s.dist.peers.peers ++ [{ p with inFlight := 0 }]⟩ := by
      show (s.dist.peers.register { p with inFlight := 0 }).2 = _
      unfold PeerSet.register
      rw [if_neg hc]
    have hno : ∀ q ∈ s.dist.peers.peers, q.id ≠ p.id := by
      intro q hq hid
      exact hc ((PeerSet.contains_iff _ _).2 ⟨q, hq, hid⟩)
    refine ⟨?_, ?_, ?_, ?_⟩
    · rw [hreg]
      show ((s.dist.peers.peers ++ [{ p with inFlight := 0 }]).map (fun p : Peer => p.id)).Nodup
      rw [List.map_append, List.nodup_append]
      refine ⟨ha.peerIds, by simp, ?_⟩
      intro a h1 h2
      simp only [List.map_cons, List.map_nil, List.mem_singleton] at h2
      obtain ⟨q, hq, hqa⟩ := List.mem_map.1 h1
      exact hno q hq (hqa.trans h2)
    · intro e he
      exact PeerSet.contains_register _ _ _ (ha.known e he)
    · intro q hq
      rw [hreg] at hq
      rcases List.mem_append.1 hq with hq | hq
      · exact ha.counted q hq
      · simp only [List.mem_singleton] at hq
        subst hq
        show 0 = ((s.outstanding.filter (fun e => e.2 == p.id)).length)
        have hnil : s.outstanding.filter (fun e => e.2 == p.id) = [] := by
          rw [List.filter_eq_nil_iff]
          intro e he hep
          simp only [beq_iff_eq] at hep
          have := ha.known e he
          rw [hep] at this
          exact hc this
        rw [hnil]; rfl
    · intro q hq
      rw [hreg] at hq
      rcases List.mem_append.1 hq with hq | hq
      · exact ha.bounded q hq
      · simp only [List.mem_singleton] at hq
        subst hq
        exact Nat.zero_le _

theorem System.accounted_unregister (s : System) (id : Nat) (ha : s.Accounted) :
    (s.unregister id).Accounted := by
  rcases System.unregister_eq s id with ⟨_, he⟩ | ⟨_, he⟩
  · rw [he]; exact ha
  · rw [he]
    refine ⟨?_, ?_, ?_, ?_⟩
    · exact List.Nodup.sublist (List.Sublist.map _ (List.filter_sublist _)) ha.peerIds
    · intro e he
      obtain ⟨he1, he2⟩ := List.mem_filter.1 he
      have hc := ha.known e he1
      rw [PeerSet.contains_iff] at hc ⊢
      obtain ⟨q, hq, hqe⟩ := hc
      refine ⟨q, ?_, hqe⟩
      show q ∈ s.dist.peers.peers.filter (fun q => q.id != id)
      rw [List.mem_filter]
      refine ⟨hq, ?_⟩
      rw [hqe]
      exact he2
    · intro q hq
      obtain ⟨hq1, hq2⟩ := List.mem_filter.1 hq
      have hne : q.id ≠ id := by simpa using hq2
      rw [ha.counted q hq1]
      show (s.outstanding.filter (fun e => e.2 == q.id)).length
        = ((s.outstanding.filter (fun e => e.2 != id)).filter (fun e => e.2 == q.id)).length
      rw [List.filter_filter]
      congr 1
      apply List.filter_congr
      intro e _
      by_cases h1 : e.2 = q.id
      · simp [h1, hne]
      · simp [h1]
    · intro q hq
      exact ha.bounded q (List.mem_filter.1 hq).1

theorem System.accounted_dispatch (s : System) (rid : Nat) (ha : s.Accounted) :
    (s.dispatch rid).Accounted := by
  rcases System.dispatch_cases s rid with he | ⟨r, _, _, _, ⟨e, he⟩ | ⟨p, hsel, he⟩⟩
  · rw [he]; exact ha
  · rw [he]; exact ha.congr rfl rfl
  · rw [he]
    obtain ⟨⟨hpm, _, hspare⟩, _⟩ := RequestDistributor.selectPeer_spec _ _ _ hsel
    have hcount : ∀ x : Nat,
        ((s.outstanding ++ [(rid, p.id)]).filter (fun e => e.2 == x)).length
          = (s.outstanding.filter (fun e => e.2 == x)).length + (if p.id = x then 1 else 0) := by
      intro x
      rw [List.filter_append, List.length_append]
      by_cases hx : p.id = x <;> simp [List.filter_cons, hx]
    refine ⟨?_, ?_, ?_, ?_⟩
    · show ((s.dist.peers.markBusy p.id).peers.map (fun p => p.id)).Nodup
      rw [PeerSet.ids_markBusy]
      exact ha.peerIds
    · intro o ho
      show (s.dist.peers.markBusy p.id).contains o.2 = true
      rw [PeerSet.contains_markBusy]
      rcases List.mem_append.1 ho with ho | ho
      · exact ha.known o ho
      · simp only [List.mem_singleton] at ho
        subst ho
        exact (PeerSet.contains_iff _ _).2 ⟨p, hpm, rfl⟩
    · intro q hq
      obtain ⟨q0, hq0, hqq⟩ := List.mem_map.1 hq
      subst hqq
      show _ = ((s.outstanding ++ [(rid, p.id)]).filter _).length
      by_cases hid : q0.id = p.id
      · rw [if_pos hid, hcount]
        have := ha.counted q0 hq0
        unfold System.dispatchedTo at this
        simp [hid] at this ⊢
        omega
      · rw [if_neg hid, hcount]
        have := ha.counted q0 hq0
        unfold System.dispatchedTo at this
        have hid2 : ¬ p.id = q0.id := fun h => hid h.symm
        simp [hid2]
        exact this
    · intro q hq
      obtain ⟨q0, hq0, hqq⟩ := List.mem_map.1 hq
      subst hqq
      by_cases hid : q0.id = p.id
      · rw [if_pos hid]
        have hqp : q0 = p := List.inj_on_of_nodup_map ha.peerIds hq0 hpm hid
        subst hqp
        show q0.inFlight + 1 ≤ q0.capacity
        omega
      · rw [if_neg hid]
        exact ha.bounded q0 hq0

theorem System.count_after_settle (l : List (Nat × Nat)) (e0 : Nat × Nat) (rid pid : Nat)
    (hmem : e0 ∈ l) (hrid : e0.1 = rid)
    (hone : (l.filter (fun e => e.1 == rid)).length ≤ 1) :
    ((l.filter (fun x => x.1 != rid)).filter (fun e => e.2 == pid)).length
        + (if e0.2 = pid then 1 else 0)
      = (l.filter (fun e => e.2 == pid)).length := by
  induction l with
  | nil => cases hmem
  | cons x rest ih =>
    by_cases hx : x.1 = rid
    · have hrest : rest.filter (fun e => e.1 == rid) = [] := by
        have h1 : (List.filter (fun e => e.1 == rid) (x :: rest)).length
            = (rest.filter (fun e => e.1 == rid)).length + 1 := by
          simp [List.filter_cons, hx]
        rw [h1] at hone
        exact List.length_eq_zero.1 (by omega)
      rw [List.filter_eq_nil_iff] at hrest
      have he0 : e0 = x := by
        rcases List.mem_cons.1 hmem with h | h
        · exact h
        · exact absurd (by simpa using hrid) (hrest e0 h)
      subst he0
      have hkeep : rest.filter (fun x => x.1 != rid) = rest := by
        rw [List.filter_eq_self]
        intro a ha
        have := hrest a ha
        simpa using this
      have hdrop : List.filter (fun x => x.1 != rid) (e0 :: rest) = rest := by
        rw [List.filter_cons]
        simp [hx, hkeep]
      rw [hdrop]
      by_cases hp : e0.2 = pid <;> simp [List.filter_cons, hp]
    · have hmem1 : e0 ∈ rest := by
        rcases List.mem_cons.1 hmem with h | h
        · subst h; exact absurd hrid hx
        · exact h
      have hone1 : (rest.filter (fun e => e.1 == rid)).length ≤ 1 := by
        have h1 : List.filter (fun e => e.1 == rid) (x :: rest)
            = rest.filter (fun e => e.1 == rid) := by
          simp [List.filter_cons, hx]
        rw [h1] at hone
        exact hone
      have := ih hmem1 hone1
      have hkeep : List.filter (fun x => x.1 != rid) (x :: rest)
          = x :: rest.filter (fun x => x.1 != rid) := by
        simp [List.filter_cons, hx]
      rw [hkeep]
      by_cases hp : x.2 = pid
      · simp only [List.filter_cons, hp, beq_self_eq_true, if_true, List.length_cons]
        omega
      · simp only [List.filter_cons, hp, beq_iff_eq, if_false]
        exact this

theorem System.accounted_settle (s : System) (rid : Nat) (valid : Bool) (hi : s.Inv)
    (ha : s.Accounted) : (s.settle rid valid).Accounted := by
  rcases System.settle_cases s rid valid with he | ⟨e0, he0, hrid, he⟩
  · rw [he]; exact ha
  · rw [he]
    refine ⟨?_, ?_, ?_, ?_⟩
    · show ((s.dist.peers.release e0.2).peers.map (fun p => p.id)).Nodup
      rw [PeerSet.ids_release]
      exact ha.peerIds
    · intro o ho
      show (s.dist.peers.release e0.2).contains o.2 = true
      rw [PeerSet.contains_release]
      exact ha.known o (List.mem_filter.1 ho).1
    · intro q hq
      obtain ⟨q0, hq0, hqq⟩ := List.mem_map.1 hq
      subst hqq
      have hcnt := System.count_after_settle s.outstanding e0 rid q0.id he0 hrid (hi.single rid)
      have hold := ha.counted q0 hq0
      unfold System.dispatchedTo at hold
      show _ = ((s.outstanding.filter (fun x => x.1 != rid)).filter _).length
      by_cases hid : q0.id = e0.2
      · rw [if_pos hid]
        have hid2 : e0.2 = q0.id := hid.symm
        rw [if_pos hid2] at hcnt
        dsimp only
        omega
      · rw [if_neg hid]
        have hid2 : ¬ e0.2 = q0.id := fun h => hid h.symm
        rw [if_neg hid2] at hcnt
        omega
    · intro q hq
      obtain ⟨q0, hq0, hqq⟩ := List.mem_map.1 hq
      subst hqq
      have := ha.bounded q0 hq0
      by_cases hid : q0.id = e0.2
      · rw [if_pos hid]
        show q0.inFlight - 1 ≤ q0.capacity
        omega
      · rw [if_neg hid]
        exact this

theorem System.accounted_step (s : System) (op : Op) (hi : s.Inv) (ha : s.Accounted) :
    (s.step op).Accounted := by
  cases op with
  | register p => exact System.accounted_register s p ha
  | unregister id => exact System.accounted_unregister s id ha
  | submit req deadline => exact ha.congr rfl rfl
  | dispatch rid => exact System.accounted_dispatch s rid ha
  | deliver rid valid => exact System.accounted_settle s rid valid hi ha
  | timeout rid => exact System.accounted_settle s rid false hi ha
  | tick => exact ha.congr rfl rfl
  | quit => exact ha.congr rfl rfl

theorem System.accounted_foldl (ops : List Op) (s : System) (hi : s.Inv) (ha : s.Accounted) :
    (ops.foldl System.step s).Accounted := by
  induction ops generalizing s with
  | nil => exact ha
  | cons op rest ih => exact ih _ (System.inv_step s op hi) (System.accounted_step s op hi ha)

theorem System.accounted_run (ops : List Op) : (System.run ops).Accounted :=
  System.accounted_foldl ops System.init System.inv_init System.accounted_init

theorem System.find_queued (l : List PendingRetrieval) (r : PendingRetrieval)
    (hN : (l.map (fun x : PendingRetrieval => x.id)).Nodup) (hr : r ∈ l)
    (hq : r.status = .Queued) :
    l.find? (fun x => x.id == r.id && x.status == .Queued) = some r := by
  induction l with
  | nil => cases hr
  | cons a rest ih =>
    rw [List.map_cons, List.nodup_cons] at hN
    rcases List.mem_cons.1 hr with h | h
    · subst h
      simp [List.find?, hq]
    · have hne : a.id ≠ r.id := by
        intro he
        exact hN.1 (List.mem_map.2 ⟨r, h, he.symm⟩)
      rw [List.find?_cons_of_neg _ (by simp [hne])]
      exact ih hN.2 h

theorem RequestDistributor.selectPeer_none (ps : PeerSet) (req : DistributedRequest)
    (h : ∀ p ∈ ps.peers, req.canPeer p = true → p.capacity ≤ p.inFlight) :
    RequestDistributor.selectPeer ps req = none := by
  unfold RequestDistributor.selectPeer
  rw [RequestDistributor.pickBest_eq_none]
  unfold RequestDistributor.candidates
  rw [List.filter_eq_nil_iff]
  intro p hp
  simp only [RequestDistributor.hasSpare, Bool.and_eq_true, decide_eq_true_eq, not_and, not_lt]
  exact h p hp

theorem RequestDistributor.selectPeer_some (ps : PeerSet) (req : DistributedRequest) (p : Peer)
    (hp : p ∈ ps.peers) (hc : req.canPeer p = true) (hs : p.inFlight < p.capacity) :
    ∃ q, RequestDistributor.selectPeer ps req = some q := by
  cases hsel : RequestDistributor.selectPeer ps req with
  | some q => exact ⟨q, rfl⟩
  | none =>
    exfalso
    unfold RequestDistributor.selectPeer at hsel
    rw [RequestDistributor.pickBest_eq_none] at hsel
    have hm := (RequestDistributor.mem_candidates ps req p).2 ⟨hp, hc, hs⟩
    rw [hsel] at hm
    cases hm

theorem System.dispatch_blocked (s : System) (r : PendingRetrieval) (hi : s.Inv)
    (hr : r ∈ s.pending) (hq : r.status = .Queued) (hnow : s.dist.now < r.deadline)
    (hquit : s.dist.quit = false)
    (hfull : ∀ p ∈ s.dist.peers.peers, r.req.canPeer p = true → p.id ∉ r.excluded →
      p.capacity ≤ p.inFlight) :
    s.dispatch r.id = s := by
  have hsel : RequestDistributor.selectPeer s.dist.peers
      (RetrieveManager.restrict r.req r.excluded) = none := by
    apply RequestDistributor.selectPeer_none
    intro p hp hc
    simp only [RetrieveManager.restrict, Bool.and_eq_true, Bool.not_eq_true',
      List.contains_eq_any_beq, List.any_eq_false, beq_iff_eq] at hc
    exact hfull p hp hc.1 (fun hin => hc.2 p.id hin rfl)
  have ht : RequestDistributor.tryDistribute s.dist (RetrieveManager.restrict r.req r.excluded)
      r.deadline = (.blocked, s.dist) := by
    unfold RequestDistributor.tryDistribute
    rw [if_neg (by omega), if_neg (by simp [hquit]), hsel]
  unfold System.dispatch
  rw [System.find_queued s.pending r hi.ids hr hq]
  dsimp only
  rw [ht]

theorem System.dispatch_free (s : System) (r : PendingRetrieval) (hi : s.Inv)
    (hr : r ∈ s.pending) (hq : r.status = .Queued) (hnow : s.dist.now < r.deadline)
    (hquit : s.dist.quit = false)
    (hfree : ∃ p ∈ s.dist.peers.peers, r.req.canPeer p = true ∧ p.id ∉ r.excluded ∧
      p.inFlight < p.capacity) :
    ∃ q ∈ s.dist.peers.peers, r.req.canPeer q = true ∧ q.id ∉ r.excluded ∧
      q.inFlight < q.capacity ∧
      { r with status := .Dispatched q.id } ∈ (s.dispatch r.id).pending ∧
      (s.dispatch r.id).dispatchedTo q.id = s.dispatchedTo q.id + 1 := by
  obtain ⟨p, hp, hc, hx, hs⟩ := hfree
  have hc1 : (RetrieveManager.restrict r.req r.excluded).canPeer p = true := by
    simp only [RetrieveManager.restrict, Bool.and_eq_true, Bool.not_eq_true',
      List.contains_eq_any_beq, List.any_eq_false, beq_iff_eq]
    exact ⟨hc, fun x hxin hxe => hx (hxe ▸ hxin)⟩
  obtain ⟨q, hsel⟩ := RequestDistributor.selectPeer_some s.dist.peers _ p hp hc1 hs
  obtain ⟨hqm, hqc, hqx⟩ := RetrieveManager.selected_fresh _ _ _ _ hsel
  obtain ⟨⟨_, _, hqs⟩, _⟩ := RequestDistributor.selectPeer_spec _ _ _ hsel
  have ht : RequestDistributor.tryDistribute s.dist (RetrieveManager.restrict r.req r.excluded)
      r.deadline
      = (.dispatched ⟨(RetrieveManager.restrict r.req r.excluded).id, q⟩,
          { s.dist with
            peers := s.dist.peers.markBusy q.id
            sent := s.dist.sent ++ [((RetrieveManager.restrict r.req r.excluded).id, q.id)] }) := by
    unfold RequestDistributor.tryDistribute
    rw [if_neg (by omega), if_neg (by simp [hquit]), hsel]
  have hd : s.dispatch r.id =
      { s with
        dist := { s.dist with
          peers := s.dist.peers.markBusy q.id
          sent := s.dist.sent ++ [((RetrieveManager.restrict r.req r.excluded).id, q.id)] }
        pending := s.pending.map (System.markDispatched r.id q.id)
        outstanding := s.outstanding ++ [(r.id, q.id)] } := by
    unfold System.dispatch
    rw [System.find_queued s.pending r hi.ids hr hq]
    dsimp only
    rw [ht]
  refine ⟨q, hqm, hqc, hqx, hqs, ?_, ?_⟩
  · rw [hd]
    refine List.mem_map.2 ⟨r, hr, ?_⟩
    unfold System.markDispatched
    rw [if_pos ⟨rfl, hq⟩]
  · rw [hd]
    simp [System.dispatchedTo, List.filter_append]

/-- With requests that any peer can serve, the three requests of `scenarioOps`
are all dispatched, two to A and one to B: when the third is taken up A still
has a free slot. -/
theorem System.scenario_all_eligible :
    (System.run scenarioOps).pending.map (fun r => r.status)
        = [.Dispatched 1, .Dispatched 2, .Dispatched 1] ∧
      (System.run scenarioOps).dist.peers.peers.map (fun p => (p.id, p.capacity, p.inFlight))
        = [(1, 2, 2), (2, 1, 1)] ∧
      (System.run (scenarioOps ++ [.submit ⟨103, fun _ => true⟩ 10, .dispatch 3])).pending.map
          (fun r => r.status)
        = [.Dispatched 1, .Dispatched 2, .Dispatched 1, .Queued] ∧
      (System.run (scenarioOps ++ [.submit ⟨103, fun _ => true⟩ 10, .dispatch 3,
          .deliver 1 true, .dispatch 3])).pending.map (fun r => r.status)
        = [.Dispatched 1, .Completed, .Dispatched 1, .Dispatched 2] := by
  refine ⟨by decide, by decide, by decide, by decide⟩

/-- C11: in every reachable state of the retrieval core the number of requests
concurrently dispatched to a registered peer is its running request count and
never exceeds its declared capacity. A queued request whose deadline has not
passed, the quit signal being open, stays queued when the distributor takes it
up while every peer that may serve it is at its capacity (the state does not
change at all), and is dispatched, to a peer that may serve it and has a free
slot, as soon as there is one. With peers A (capacity 2) and B (capacity 1)
and three requests, the third of which only B can serve, A holds one request
and B one, the third request stays queued, and it goes to B once the slot of B
has been freed. -/
theorem System.capacity_respected (ops : List Op) :
    (∀ p ∈ (System.run ops).dist.peers.peers,
        (System.run ops).dispatchedTo p.id = p.inFlight ∧
          (System.run ops).dispatchedTo p.id ≤ p.capacity) ∧
      (∀ r ∈ (System.run ops).pending, r.status = .Queued →
        (System.run ops).dist.now < r.deadline → (System.run ops).dist.quit = false →
        ((∀ p ∈ (System.run ops).dist.peers.peers, r.req.canPeer p = true →
              p.id ∉ r.excluded → p.capacity ≤ p.inFlight) →
            (System.run ops).dispatch r.id = System.run ops) ∧
          ((∃ p ∈ (System.run ops).dist.peers.peers, r.req.canPeer p = true ∧
              p.id ∉ r.excluded ∧ p.inFlight < p.capacity) →
            ∃ q ∈ (System.run ops).dist.peers.peers, r.req.canPeer q = true ∧
              q.id ∉ r.excluded ∧ q.inFlight < q.capacity ∧
              { r with status := .Dispatched q.id } ∈ ((System.run ops).dispatch r.id).pending ∧
              ((System.run ops).dispatch r.id).dispatchedTo q.id
                = (System.run ops).dispatchedTo q.id + 1)) ∧
      (System.run scenarioQueuedOps).dist.peers.peers.map
          (fun p => (p.id, p.capacity, p.inFlight)) = [(1, 2, 1), (2, 1, 1)] ∧
      (System.run scenarioQueuedOps).dispatchedTo 1 = 1 ∧
      (System.run scenarioQueuedOps).dispatchedTo 2 = 1 ∧
      (System.run scenarioQueuedOps).pending.map (fun r => r.status)
        = [.Dispatched 1, .Dispatched 2, .Queued] ∧
      (System.run (scenarioQueuedOps ++ [.tick, .dispatch 2])).pending.map (fun r => r.status)
        = [.Dispatched 1, .Dispatched 2, .Queued] ∧
      (System.run (scenarioQueuedOps ++ [.deliver 1 true, .dispatch 2])).pending.map
          (fun r => r.status)
        = [.Dispatched 1, .Completed, .Dispatched 2] := by
  have ha := System.accounted_run ops
  have hi := System.inv_run ops
  refine ⟨?_, ?_, by decide, by decide, by decide, by decide, by decide, by decide⟩
  · intro p hp
    have h1 := ha.counted p hp
    have h2 := ha.bounded p hp
    exact ⟨h1.symm, by omega⟩
  · intro r hr hq hnow hquit
    exact ⟨System.dispatch_blocked _ r hi hr hq hnow hquit,
      System.dispatch_free _ r hi hr hq hnow hquit⟩

/-- C11 on the scenario of section 8 with a third request that only B can
serve: the third request is queued, B is at its capacity, and taking the
request up again leaves the retrieval core as it is. -/
theorem System.capacity_respected_witness :
    (System.run scenarioQueuedOps).dispatch 2 = System.run scenarioQueuedOps :=
  ((System.capacity_respected scenarioQueuedOps).2.1
      ⟨2, ⟨102, fun p => p.id == 2⟩, 10, 0, [], .Queued⟩
      (List.mem_cons_of_mem _ (List.mem_cons_of_mem _ (List.mem_cons_self _ _)))
      rfl (by decide) rfl).1
    (by decide)

/-! ### The trie comparison of the light-client tests -/

theorem light.Next_cons (it : light.Iterator) (k v : light.Bytes)
    (rest : List (light.Bytes × light.Bytes)) (h : it.pending = (k, v) :: rest) :
    it.Next = (true, { it with pending := rest, Key := k, Value := v }) := by
  unfold light.Iterator.Next
  rw [h]

theorem light.Next_nil (it : light.Iterator) (h : it.pending = []) :
    it.Next = (false, { it with Key := [], Value := [], Err := it.failure }) := by
  unfold light.Iterator.Next
  rw [h]

theorem light.Next_fst (it : light.Iterator) : it.Next.1 = !it.pending.isEmpty := by
  unfold light.Iterator.Next
  cases h : it.pending with
  | nil => rfl
  | cons x rest => rfl

theorem light.diffLoop_left_done (i1 i2 : light.Iterator) (h : i1.pending = []) :
    light.diffLoop i1 i2 = .done { i1 with Key := [], Value := [], Err := i1.failure } i2 := by
  rw [light.diffLoop]
  simp [light.Next_nil i1 h]

theorem light.diffLoop_right_done (i1 i2 : light.Iterator) (k v : light.Bytes)
    (rest : List (light.Bytes × light.Bytes)) (h1 : i1.pending = (k, v) :: rest)
    (h2 : i2.pending = []) :
    light.diffLoop i1 i2
      = .done { i1 with pending := rest, Key := k, Value := v }
          { i2 with Key := [], Value := [], Err := i2.failure } := by
  rw [light.diffLoop]
  simp [light.Next_cons i1 k v rest h1, light.Next_nil i2 h2]

theorem light.diffLoop_step (i1 i2 : light.Iterator) (k v1 v2 : light.Bytes)
    (rest1 rest2 : List (light.Bytes × light.Bytes)) (h1 : i1.pending = (k, v1) :: rest1)
    (h2 : i2.pending = (k, v2) :: rest2) :
    light.diffLoop i1 i2
      = light.diffLoop { i1 with pending := rest1, Key := k, Value := v1 }
          { i2 with pending := rest2, Key := k, Value := v2 } := by
  rw [light.diffLoop]
  simp [light.Next_cons i1 k v1 rest1 h1, light.Next_cons i2 k v2 rest2 h2]

theorem light.diffLoop_common (l : List (light.Bytes × light.Bytes × light.Bytes))
    (i1 i2 : light.Iterator) (rest1 rest2 : List (light.Bytes × light.Bytes))
    (h1 : i1.pending = l.map (fun e => (e.1, e.2.1)) ++ rest1)
    (h2 : i2.pending = l.map (fun e => (e.1, e.2.2)) ++ rest2) :
    ∃ j1 j2 : light.Iterator, light.diffLoop i1 i2 = light.diffLoop j1 j2 ∧
      j1.pending = rest1 ∧ j2.pending = rest2 ∧ j1.failure = i1.failure ∧
      j2.failure = i2.failure ∧ j1.Err = i1.Err ∧ j2.Err = i2.Err := by
  induction l generalizing i1 i2 with
  | nil => exact ⟨i1, i2, rfl, by simpa using h1, by simpa using h2, rfl, rfl, rfl, rfl⟩
  | cons e l ih =>
    have hstep := light.diffLoop_step i1 i2 e.1 e.2.1 e.2.2 _ _ h1 h2
    obtain ⟨j1, j2, hj, hp1, hp2, hf1, hf2, he1, he2⟩ :=
      ih { i1 with pending := l.map (fun e => (e.1, e.2.1)) ++ rest1, Key := e.1, Value := e.2.1 }
        { i2 with pending := l.map (fun e => (e.1, e.2.2)) ++ rest2, Key := e.1, Value := e.2.2 }
        rfl rfl
    exact ⟨j1, j2, hstep.trans hj, hp1, hp2, hf1, hf2, he1, he2⟩

/-- Whatever the values are, two tries that iterate the same keys in the same
order and whose iterators report no error compare as equal. -/
theorem light.diffTries_same_keys (l : List (light.Bytes × light.Bytes × light.Bytes)) :
    light.diffTries ⟨l.map (fun e => (e.1, e.2.1)), none⟩ ⟨l.map (fun e => (e.1, e.2.2)), none⟩
      = none := by
  obtain ⟨j1, j2, hj, hp1, hp2, hf1, _, _, he2⟩ :=
    light.diffLoop_common l (light.NewIterator ⟨l.map (fun e => (e.1, e.2.1)), none⟩)
      (light.NewIterator ⟨l.map (fun e => (e.1, e.2.2)), none⟩) [] []
      (by simp [light.NewIterator]) (by simp [light.NewIterator])
  unfold light.diffTries
  simp only [hj, light.diffLoop_left_done j1 j2 hp1]
  have hf1n : j1.failure = none := hf1
  have he2n : j2.Err = none := he2
  simp [light.Next_fst, hp1, hp2, hf1n, he2n]

/-- A first trie with exactly one pair more than the second compares as equal:
the loop condition takes the extra pair off the first iterator before it finds
the second one exhausted. -/
theorem light.diffTries_one_more (l : List (light.Bytes × light.Bytes × light.Bytes))
    (x : light.Bytes × light.Bytes) :
    light.diffTries ⟨l.map (fun e => (e.1, e.2.1)) ++ [x], none⟩
        ⟨l.map (fun e => (e.1, e.2.2)), none⟩
      = none := by
  obtain ⟨j1, j2, hj, hp1, hp2, _, hf2, he1, _⟩ :=
    light.diffLoop_common l (light.NewIterator ⟨l.map (fun e => (e.1, e.2.1)) ++ [x], none⟩)
      (light.NewIterator ⟨l.map (fun e => (e.1, e.2.2)), none⟩) [x] []
      (by simp [light.NewIterator]) (by simp [light.NewIterator])
  unfold light.diffTries
  simp only [hj, light.diffLoop_right_done j1 j2 x.1 x.2 [] hp1 hp2]
  have hf2n : j2.failure = none := hf2
  have he1n : j1.Err = none := he1
  simp [light.Next_fst, hp2, hf2n, he1n]

/-- A first trie with two or more pairs beyond the second is reported. -/
theorem light.diffTries_two_more (l : List (light.Bytes × light.Bytes × light.Bytes))
    (x y : light.Bytes × light.Bytes) (rest : List (light.Bytes × light.Bytes)) :
    light.diffTries ⟨l.map (fun e => (e.1, e.2.1)) ++ x :: y :: rest, none⟩
        ⟨l.map (fun e => (e.1, e.2.2)), none⟩
      = some .fullHasMore := by
  obtain ⟨j1, j2, hj, hp1, hp2, _, hf2, he1, _⟩ :=
    light.diffLoop_common l
      (light.NewIterator ⟨l.map (fun e => (e.1, e.2.1)) ++ x :: y :: rest, none⟩)
      (light.NewIterator ⟨l.map (fun e => (e.1, e.2.2)), none⟩) (x :: y :: rest) []
      (by simp [light.NewIterator]) (by simp [light.NewIterator])
  unfold light.diffTries
  simp only [hj, light.diffLoop_right_done j1 j2 x.1 x.2 (y :: rest) hp1 hp2]
  have hf2n : j2.failure = none := hf2
  have he1n : j1.Err = none := he1
  simp [light.Next_fst, hf2n, he1n]

/-- A second trie with pairs beyond the first is reported. -/
theorem light.diffTries_light_more (l : List (light.Bytes × light.Bytes × light.Bytes))
    (x : light.Bytes × light.Bytes) (rest : List (light.Bytes × light.Bytes)) :
    light.diffTries ⟨l.map (fun e => (e.1, e.2.1)), none⟩
        ⟨l.map (fun e => (e.1, e.2.2)) ++ x :: rest, none⟩
      = some .lightHasMore := by
  obtain ⟨j1, j2, hj, hp1, hp2, hf1, _, _, he2⟩ :=
    light.diffLoop_common l (light.NewIterator ⟨l.map (fun e => (e.1, e.2.1)), none⟩)
      (light.NewIterator ⟨l.map (fun e => (e.1, e.2.2)) ++ x :: rest, none⟩) [] (x :: rest)
      (by simp [light.NewIterator]) (by simp [light.NewIterator])
  unfold light.diffTries
  simp only [hj, light.diffLoop_left_done j1 j2 hp1]
  have hf1n : j1.failure = none := hf1
  have he2n : j2.Err = none := he2
  simp [light.Next_fst, hp1, hp2, hf1n, he2n]

/-- C21 fails on the code: two tries with the single key 01, holding aa in the
first and bb in the second, iterate the same keys in the same order and differ
in the value under that key, yet `diffTries` returns nil and not "tries differ
at key"; the same happens for a value difference under the second of two
keys. -/
theorem light.diffTries_value_mismatch_undetected :
    ([0xaa] : light.Bytes) ≠ [0xbb] ∧
      light.diffTries ⟨[([0x01], [0xaa])], none⟩ ⟨[([0x01], [0xbb])], none⟩ = none ∧
      light.diffTries ⟨[([0x01], [0xaa]), ([0x02], [0x10])], none⟩
          ⟨[([0x01], [0xaa]), ([0x02], [0x11])], none⟩ = none :=
  ⟨by decide, light.diffTries_same_keys [([0x01], [0xaa], [0xbb])],
    light.diffTries_same_keys [([0x01], [0xaa], [0xaa]), ([0x02], [0x10], [0x11])]⟩

/-- C22 fails on the code: when the first trie holds exactly one pair more than
the second, here one pair against none and two pairs against the first of them,
`diffTries` returns nil; with two pairs more it reports "full trie iterator has
more k/v pairs", and with the second trie longer "light trie iterator has more
k/v pairs". -/
theorem light.diffTries_extra_pair_undetected :
    light.diffTries ⟨[([0x01], [0xaa])], none⟩ ⟨[], none⟩ = none ∧
      light.diffTries ⟨[([0x01], [0xaa]), ([0x02], [0xbb])], none⟩ ⟨[([0x01], [0xaa])], none⟩
        = none ∧
      light.diffTries ⟨[([0x01], [0xaa]), ([0x02], [0xbb])], none⟩ ⟨[], none⟩
        = some .fullHasMore ∧
      light.diffTries ⟨[], none⟩ ⟨[([0x01], [0xaa])], none⟩ = some .lightHasMore :=
  ⟨light.diffTries_one_more [] ([0x01], [0xaa]),
    light.diffTries_one_more [([0x01], [0xaa], [0xaa])] ([0x02], [0xbb]),
    light.diffTries_two_more [] ([0x01], [0xaa]) ([0x02], [0xbb]) [],
    light.diffTries_light_more [] ([0x01], [0xaa]) []⟩


end utchain
